import Mathlib

/-!
Verification of the const-lru library: a constant-capacity key-addressed LRU
cache backed by a flat slot arena, an intrusive doubly-linked recency list
(which doubles as the free list past the tail), and an intrusive red-black
tree ordered on keys.

The Lean definitions below are a shallow embedding of src/src/lib.rs
(the red-black-tree variant that is the code of the repository).
Index arrays of the Rust struct (`nexts`, `prevs`, `lefts`, `rights`,
`parents`, `rb_colors`, `keys`, `values`) are modelled as total functions
from Nat; `CAP` is the nil sentinel exactly as in the source; reading an
out-of-bounds or uninitialized cell (undefined behaviour or a panic in
Rust) returns whatever junk the total function holds there.  Loops in the
source are modelled with explicit fuel of CAP + 1, which is enough for
every state satisfying the structural invariants.
-/

namespace ConstLruRb

/-- Colors of the red-black tree nodes, from src/src/lib.rs `enum RbColor`. -/
inductive RbColor where
  | Red : RbColor
  | Black : RbColor
deriving DecidableEq, Repr

/-- Direction of a child in the binary search tree, from `enum BstChild`. -/
inductive BstChild where
  | Left : BstChild
  | Right : BstChild
deriving DecidableEq, Repr

/-- Result of `ConstLru::find_in_bst`: found slot index, or the
(parent index, direction) insertion point when the key is missing. -/
inductive FindResult where
  | found (i : Nat) : FindResult
  | missing (parent : Nat) (dir : BstChild) : FindResult
deriving DecidableEq, Repr

/-- Return type of `ConstLru::insert`, from `enum InsertReplaced`. -/
inductive InsertReplaced (K V : Type u) where
  | LruEvicted (k : K) (v : V) : InsertReplaced K V
  | OldValue (v : V) : InsertReplaced K V
deriving DecidableEq, Repr

/-- Error type of the bulk builder, from `struct DuplicateKeysError`. -/
structure DuplicateKeysError (K : Type u) where
  key : K
deriving DecidableEq, Repr

/-- Pointwise update of a function-modelled array: `setF f i v` is the
array `f` with cell `i` overwritten by `v`. -/
def setF {α : Type u} (f : Nat → α) (i : Nat) (v : α) : Nat → α :=
  fun j => if j = i then v else f j

@[simp] theorem setF_same {α : Type u} (f : Nat → α) (i : Nat) (v : α) :
    setF f i v i = v := by
  simp [setF]

@[simp] theorem setF_other {α : Type u} (f : Nat → α) (i j : Nat) (v : α)
    (h : j ≠ i) : setF f i v j = f j := by
  simp [setF, h]

/-- Shallow embedding of `struct ConstLru<K, V, CAP, I>`.  The index type
`I` is modelled as Nat (its values are always in `0 ..= CAP`); the arrays
are total functions from Nat.  `keys` and `values` are total: a vacant
slot holds junk, matching the `MaybeUninit` cells of the source, whose
contents must never be observed. -/
structure ConstLru (K V : Type u) (CAP : Nat) where
  rbColors : Nat → RbColor
  len : Nat
  root : Nat
  head : Nat
  tail : Nat
  lefts : Nat → Nat
  rights : Nat → Nat
  parents : Nat → Nat
  nexts : Nat → Nat
  prevs : Nat → Nat
  keys : Nat → K
  values : Nat → V

variable {K V : Type u} {CAP : Nat}

/-- The empty cache produced by `ConstLru::init` (ignoring the panic
checks, see `ConstLru.init`): `len = 0`, `root = head = CAP`, `tail = 0`,
tree links all nil, recency list `0 ↔ 1 ↔ ... ↔ CAP-1`
(`nexts[i] = i + 1`, `prevs[0] = CAP`, `prevs[i] = i - 1`).  Cells at
indices `≥ CAP` have no storage in the source; the model parks the nil
sentinel there. -/
def ConstLru.emptyState (K V : Type u) [Inhabited K] [Inhabited V] (CAP : Nat) :
    ConstLru K V CAP where
  rbColors := fun _ => RbColor.Black
  len := 0
  root := CAP
  head := CAP
  tail := 0
  lefts := fun _ => CAP
  rights := fun _ => CAP
  parents := fun _ => CAP
  nexts := fun i => if i < CAP then i + 1 else CAP
  prevs := fun i => if i = 0 then CAP else if i < CAP then i - 1 else CAP
  keys := fun _ => default
  values := fun _ => default

/-- Embedding of `ConstLru::init` (reached from both `new` and
`init_at_alloc`).  `IMAX` is `I::MAX` and `USIZE_MAX` is `usize::MAX`,
both as natural numbers.  The source panics (modelled as `none`) when
`I::MAX > usize::MAX` (the `to_usize` unwrap fails) or when
`CAP > I::MAX`; otherwise it initializes the empty state. -/
def ConstLru.init (K V : Type u) [Inhabited K] [Inhabited V]
    (CAP IMAX USIZE_MAX : Nat) : Option (ConstLru K V CAP) :=
  if IMAX > USIZE_MAX then none
  else if CAP > IMAX then none
  else some (ConstLru.emptyState K V CAP)

/-- `ConstLru::new` delegates to `init` (via `init_at_alloc`). -/
def ConstLru.new (K V : Type u) [Inhabited K] [Inhabited V]
    (CAP IMAX USIZE_MAX : Nat) : Option (ConstLru K V CAP) :=
  ConstLru.init K V CAP IMAX USIZE_MAX

/-- Embedding of `ConstLru::cap`. -/
def ConstLru.cap (_ : ConstLru K V CAP) : Nat := CAP

/-- Embedding of `ConstLru::is_empty`. -/
def ConstLru.is_empty (s : ConstLru K V CAP) : Prop := s.len = 0

instance (s : ConstLru K V CAP) : Decidable s.is_empty := by
  unfold ConstLru.is_empty; infer_instance

/-- Embedding of `ConstLru::is_full`. -/
def ConstLru.is_full (s : ConstLru K V CAP) : Prop := s.len = CAP

instance (s : ConstLru K V CAP) : Decidable s.is_full := by
  unfold ConstLru.is_full; infer_instance

/-- Embedding of `ConstLru::unlink_node`.  Unlinks slot `index` from the
doubly-linked list, patching neighbours, and `head`/`tail` if required;
`head` and `tail` are untouched when the list has one element. -/
def ConstLru.unlink_node (s : ConstLru K V CAP) (index : Nat) :
    ConstLru K V CAP :=
  let next := s.nexts index
  let prev := s.prevs index
  let s1 := if next ≠ CAP then { s with prevs := setF s.prevs next prev } else s
  let s2 := if prev ≠ CAP then { s1 with nexts := setF s1.nexts prev next } else s1
  let isOneElem := s2.head = s2.tail
  let s3 := if s2.head = index ∧ ¬ isOneElem then { s2 with head := next } else s2
  if s3.tail = index ∧ ¬ isOneElem then { s3 with tail := prev } else s3

/-- Embedding of `ConstLru::move_to_head`: no-op when the slot is already
the head, otherwise unlink it and splice it in front of the old head. -/
def ConstLru.move_to_head (s : ConstLru K V CAP) (index : Nat) :
    ConstLru K V CAP :=
  if s.head = index then s
  else
    let s1 : ConstLru K V CAP := s.unlink_node index
    let hd : Nat := s1.head
    let s2 : ConstLru K V CAP :=
      { s1 with prevs := setF s1.prevs index CAP,
                nexts := setF s1.nexts index hd }
    let s3 : ConstLru K V CAP := { s2 with prevs := setF s2.prevs hd index }
    { s3 with head := index }

/-- Embedding of `ConstLru::get_rb_color`: black for the nil sentinel. -/
def ConstLru.get_rb_color (s : ConstLru K V CAP) (index : Nat) : RbColor :=
  if index = CAP then RbColor.Black else s.rbColors index

/-- Embedding of `ConstLru::set_rb_color`. -/
def ConstLru.set_rb_color (s : ConstLru K V CAP) (index : Nat)
    (newColor : RbColor) : ConstLru K V CAP :=
  { s with rbColors := setF s.rbColors index newColor }

/-- Embedding of `ConstLru::insert_bst_node`: attach `node_index` as the
`parent_dir` child of `parent_index`; attach at the root when
`parent_index = CAP`. -/
def ConstLru.insert_bst_node (s : ConstLru K V CAP) (node_index : Nat)
    (parent_info : Nat × BstChild) : ConstLru K V CAP :=
  let parent_index := parent_info.1
  let s1 := if node_index ≠ CAP then
      { s with parents := setF s.parents node_index parent_index } else s
  if parent_index = CAP then { s1 with root := node_index }
  else
    match parent_info.2 with
    | BstChild.Left => { s1 with lefts := setF s1.lefts parent_index node_index }
    | BstChild.Right => { s1 with rights := setF s1.rights parent_index node_index }

/-- Loop body of `ConstLru::find_leftmost`, with fuel. -/
def ConstLru.find_leftmost_go (s : ConstLru K V CAP) :
    Nat → Nat → Nat
  | 0, curr => curr
  | fuel + 1, curr =>
    let left := s.lefts curr
    if left = CAP then curr else s.find_leftmost_go fuel left

/-- Embedding of `ConstLru::find_leftmost`. -/
def ConstLru.find_leftmost (s : ConstLru K V CAP) (node_index : Nat) : Nat :=
  s.find_leftmost_go (CAP + 1) node_index

/-- Embedding of `ConstLru::find_in_order_successor_right_subtree`. -/
def ConstLru.find_in_order_successor_right_subtree (s : ConstLru K V CAP)
    (node_index : Nat) : Nat :=
  s.find_leftmost (s.rights node_index)

/-- Embedding of `ConstLru::unlink_bst_node_from_parent`: detach the node
from its parent, returning the parent and the direction the node hung on. -/
def ConstLru.unlink_bst_node_from_parent (s : ConstLru K V CAP)
    (node_index : Nat) : ConstLru K V CAP × (Nat × BstChild) :=
  let parent := s.parents node_index
  let s1 := { s with parents := setF s.parents node_index CAP }
  if parent = CAP then (s1, (parent, BstChild.Left))
  else if s1.lefts parent = node_index then
    ({ s1 with lefts := setF s1.lefts parent CAP }, (parent, BstChild.Left))
  else
    ({ s1 with rights := setF s1.rights parent CAP }, (parent, BstChild.Right))

/-- Embedding of `ConstLru::left_rotate`. -/
def ConstLru.left_rotate (s : ConstLru K V CAP) (index : Nat) :
    ConstLru K V CAP :=
  let right := s.rights index
  let left_of_right := s.lefts right
  let s1 := if left_of_right ≠ CAP then
      (s.unlink_bst_node_from_parent left_of_right).1 else s
  let s2 := (s1.unlink_bst_node_from_parent right).1
  let pr := s2.unlink_bst_node_from_parent index
  let s3 := pr.1.insert_bst_node right pr.2
  let s4 := s3.insert_bst_node left_of_right (index, BstChild.Right)
  s4.insert_bst_node index (right, BstChild.Left)

/-- Embedding of `ConstLru::right_rotate`. -/
def ConstLru.right_rotate (s : ConstLru K V CAP) (index : Nat) :
    ConstLru K V CAP :=
  let left := s.lefts index
  let right_of_left := s.rights left
  let s1 := if right_of_left ≠ CAP then
      (s.unlink_bst_node_from_parent right_of_left).1 else s
  let s2 := (s1.unlink_bst_node_from_parent left).1
  let pr := s2.unlink_bst_node_from_parent index
  let s3 := pr.1.insert_bst_node left pr.2
  let s4 := s3.insert_bst_node right_of_left (index, BstChild.Left)
  s4.insert_bst_node index (left, BstChild.Right)

/-- Embedding of `ConstLru::left_right_rotate`. -/
def ConstLru.left_right_rotate (s : ConstLru K V CAP) (index : Nat) :
    ConstLru K V CAP :=
  let left := s.lefts index
  (s.left_rotate left).right_rotate index

/-- Embedding of `ConstLru::right_left_rotate`. -/
def ConstLru.right_left_rotate (s : ConstLru K V CAP) (index : Nat) :
    ConstLru K V CAP :=
  let right := s.rights index
  (s.right_rotate right).left_rotate index

/-- Embedding of `ConstLru::insert_rb_fixup`: one step of the red-black
insertion repair loop; returns the next node to examine, if any. -/
def ConstLru.insert_rb_fixup (s : ConstLru K V CAP) (node : Nat) :
    ConstLru K V CAP × Option Nat :=
  if node = s.root then (s.set_rb_color node RbColor.Black, none)
  else
    let parent := s.parents node
    let parent_color := s.get_rb_color parent
    let node_color := s.get_rb_color node
    if ¬ (parent_color = RbColor.Red ∧ node_color = RbColor.Red) then (s, none)
    else
      let parent_dir := if s.lefts parent = node then BstChild.Left
        else BstChild.Right
      let grandparent := s.parents parent
      let gd_uncle := if s.lefts grandparent = parent then
          (BstChild.Left, s.rights grandparent)
        else (BstChild.Right, s.lefts grandparent)
      let grandparent_dir := gd_uncle.1
      let uncle := gd_uncle.2
      let uncle_color := s.get_rb_color uncle
      if uncle_color = RbColor.Red then
        let s1 := s.set_rb_color uncle RbColor.Black
        let s2 := s1.set_rb_color parent RbColor.Black
        let s3 := s2.set_rb_color grandparent RbColor.Red
        (s3, some grandparent)
      else
        let isRL := grandparent_dir = BstChild.Right ∧ parent_dir = BstChild.Left
        let isLR := grandparent_dir = BstChild.Left ∧ parent_dir = BstChild.Right
        if isRL ∨ isLR then
          let s1 := if isRL then s.right_left_rotate grandparent
            else s.left_right_rotate grandparent
          let s2 := s1.set_rb_color node RbColor.Black
          (s2.set_rb_color grandparent RbColor.Red, none)
        else
          let isRO := grandparent_dir = BstChild.Right ∧ parent_dir = BstChild.Right
          let s1 := if isRO then s.left_rotate grandparent
            else s.right_rotate grandparent
          let s2 := s1.set_rb_color parent RbColor.Black
          (s2.set_rb_color grandparent RbColor.Red, none)

/-- The `while let Some(n) = node` loop of `ConstLru::insert_rb`, fueled. -/
def ConstLru.insert_rb_loop (s : ConstLru K V CAP) :
    Nat → Nat → ConstLru K V CAP
  | 0, _ => s
  | fuel + 1, n =>
    match s.insert_rb_fixup n with
    | (s', none) => s'
    | (s', some g) => s'.insert_rb_loop fuel g

/-- Embedding of `ConstLru::insert_rb`: attach the new leaf, color it red,
then run the fixup loop. -/
def ConstLru.insert_rb (s : ConstLru K V CAP) (node_index : Nat)
    (parent_info : Nat × BstChild) : ConstLru K V CAP :=
  let s1 := s.insert_bst_node node_index parent_info
  let s2 := s1.set_rb_color node_index RbColor.Red
  s2.insert_rb_loop (CAP + 1) node_index

/-- Embedding of `ConstLru::remove_rbt_node`: plain binary-search-tree
deletion.  Returns the new state together with the lowest modified
(parent, direction) and the color of the structurally deleted node. -/
def ConstLru.remove_rbt_node (s : ConstLru K V CAP) (node_index : Nat) :
    ConstLru K V CAP × ((Nat × BstChild) × RbColor) :=
  let parent := s.parents node_index
  let left := s.lefts node_index
  let right := s.rights node_index
  let original_color := s.get_rb_color node_index
  let afterBranch : ConstLru K V CAP × ((Nat × BstChild) × RbColor) :=
    if left = CAP ∧ right = CAP then
      let pr := s.unlink_bst_node_from_parent node_index
      let s1 := pr.1
      let s2 : ConstLru K V CAP :=
        if node_index = s1.root then { s1 with root := CAP } else s1
      (s2, (pr.2, original_color))
    else
      let branch : ConstLru K V CAP × Nat × BstChild × (Nat × BstChild) × RbColor :=
        if left ≠ CAP ∧ right ≠ CAP then
          let ios := s.find_in_order_successor_right_subtree node_index
          let pr1 := s.unlink_bst_node_from_parent ios
          let s1 := pr1.1
          let ios_parent := pr1.2.1
          let ios_parent_dir := pr1.2.2
          let ios_right := s1.rights ios
          let s2 : ConstLru K V CAP :=
            if ios_right ≠ CAP then
              ((s1.unlink_bst_node_from_parent ios_right).1).insert_bst_node
                ios_right (ios_parent, ios_parent_dir)
            else s1
          let s3 := s2.insert_bst_node left (ios, BstChild.Left)
          let s4 := s3.insert_bst_node (s3.rights node_index) (ios, BstChild.Right)
          let pr2 := s4.unlink_bst_node_from_parent node_index
          let s5 := pr2.1
          let parent_dir := pr2.2.2
          let ios_color := s5.get_rb_color ios
          let s6 := s5.set_rb_color ios original_color
          let lowest := if ios_parent = node_index then (ios, BstChild.Right)
            else (ios_parent, ios_parent_dir)
          (s6, ios, parent_dir, lowest, ios_color)
        else
          let pr := s.unlink_bst_node_from_parent node_index
          let repl := if left ≠ CAP then left else right
          (pr.1, repl, pr.2.2, pr.2, original_color)
      let sB := branch.1
      let replacement_index := branch.2.1
      let parent_dir := branch.2.2.1
      let lowest := branch.2.2.2.1
      let deleted := branch.2.2.2.2
      (sB.insert_bst_node replacement_index (parent, parent_dir),
        (lowest, deleted))
  let sA := afterBranch.1
  let sE : ConstLru K V CAP :=
    { sA with parents := setF sA.parents node_index CAP,
              lefts := setF sA.lefts node_index CAP,
              rights := setF sA.rights node_index CAP }
  (sE.set_rb_color node_index RbColor.Black, afterBranch.2)

/-- Final block of `ConstLru::remove_rb_fixup` (the case of a black
sibling with a red outer nephew, source lines 689-702): recolor the
sibling with the parent color, blacken parent and outer nephew, rotate
the parent toward the removed side. -/
def ConstLru.remove_rb_fixup_outer (s : ConstLru K V CAP)
    (parent : Nat) (parent_dir : BstChild) (sibling : Nat) :
    ConstLru K V CAP :=
  let right_of_sibling := s.rights sibling
  let left_of_sibling := s.lefts sibling
  let u1 := s.set_rb_color sibling (s.get_rb_color parent)
  let u2 := u1.set_rb_color parent RbColor.Black
  if parent_dir = BstChild.Left then
    (u2.set_rb_color right_of_sibling RbColor.Black).left_rotate parent
  else
    (u2.set_rb_color left_of_sibling RbColor.Black).right_rotate parent

/-- Tail of `ConstLru::remove_rb_fixup` from source line 640 on, after
the red-sibling pre-rotation: the current sibling is a black node.
Handles the two-black-children recoloring case, the inner-nephew
pre-rotation, and then the outer-nephew block. -/
def ConstLru.remove_rb_fixup_tail (s : ConstLru K V CAP)
    (parent : Nat) (parent_dir : BstChild) (sibling : Nat) :
    ConstLru K V CAP × Option (Nat × BstChild) :=
  let right_of_sibling := s.rights sibling
  let left_of_sibling := s.lefts sibling
  if s.get_rb_color right_of_sibling = RbColor.Black ∧
      s.get_rb_color left_of_sibling = RbColor.Black then
    let s1 := s.set_rb_color sibling RbColor.Red
    if s1.get_rb_color parent = RbColor.Red then
      (s1.set_rb_color parent RbColor.Black, none)
    else
      let grandparent := s1.parents parent
      let grandparent_dir :=
        if grandparent = CAP ∨ s1.lefts grandparent = parent then
          BstChild.Left
        else BstChild.Right
      (s1, some (grandparent, grandparent_dir))
  else
    let condL := parent_dir = BstChild.Left ∧
      s.get_rb_color right_of_sibling = RbColor.Black
    let condR := parent_dir = BstChild.Right ∧
      s.get_rb_color left_of_sibling = RbColor.Black
    let sB : ConstLru K V CAP :=
      if condL then
        let t1 := s.set_rb_color left_of_sibling RbColor.Black
        let t2 := t1.set_rb_color sibling RbColor.Red
        t2.right_rotate sibling
      else if condR then
        let t1 := s.set_rb_color right_of_sibling RbColor.Black
        let t2 := t1.set_rb_color sibling RbColor.Red
        t2.left_rotate sibling
      else s
    let sibling2 := if condL then sB.rights parent
      else if condR then sB.lefts parent
      else sibling
    (sB.remove_rb_fixup_outer parent parent_dir sibling2, none)

/-- Embedding of `ConstLru::remove_rb_fixup`: one step of the red-black
deletion repair loop.  The root case and the red-replacement and
red-sibling cases are here; the remainder is `remove_rb_fixup_tail`. -/
def ConstLru.remove_rb_fixup (s : ConstLru K V CAP) (pd : Nat × BstChild) :
    ConstLru K V CAP × Option (Nat × BstChild) :=
  let parent := pd.1
  let parent_dir := pd.2
  if parent = CAP then
    (if s.root ≠ CAP then s.set_rb_color s.root RbColor.Black else s, none)
  else
    let sibling0 := if parent_dir = BstChild.Left then s.rights parent
      else s.lefts parent
    let replacement := if parent_dir = BstChild.Left then s.lefts parent
      else s.rights parent
    if s.get_rb_color replacement = RbColor.Red then
      (s.set_rb_color replacement RbColor.Black, none)
    else
      if s.get_rb_color sibling0 = RbColor.Red then
        let s1 := s.set_rb_color sibling0 RbColor.Black
        let s2 := s1.set_rb_color parent RbColor.Red
        let sA : ConstLru K V CAP :=
          if parent_dir = BstChild.Left then s2.left_rotate parent
          else s2.right_rotate parent
        let sibling1 := if parent_dir = BstChild.Left then sA.rights parent
          else sA.lefts parent
        sA.remove_rb_fixup_tail parent parent_dir sibling1
      else
        s.remove_rb_fixup_tail parent parent_dir sibling0

/-- The `while let Some(lmp)` loop of `ConstLru::remove_rb`, fueled. -/
def ConstLru.remove_rb_loop (s : ConstLru K V CAP) :
    Nat → (Nat × BstChild) → ConstLru K V CAP
  | 0, _ => s
  | fuel + 1, lmp =>
    match s.remove_rb_fixup lmp with
    | (s', none) => s'
    | (s', some nxt) => s'.remove_rb_loop fuel nxt

/-- Embedding of `ConstLru::remove_rb`: structural deletion followed by
the repair loop unless a red node was deleted. -/
def ConstLru.remove_rb (s : ConstLru K V CAP) (node_index : Nat) :
    ConstLru K V CAP :=
  let pr := s.remove_rbt_node node_index
  let s1 := pr.1
  if pr.2.2 = RbColor.Red then s1
  else s1.remove_rb_loop (CAP + 1) pr.2.1

/-- Loop of `ConstLru::find_in_bst`, with fuel.  Comparison of the stored
key against the probe uses the linear order on K, as the source uses
`Ord::cmp`. -/
def ConstLru.find_in_bst_go [LinearOrder K] (s : ConstLru K V CAP) (k : K) :
    Nat → Nat → FindResult
  | 0, _ => FindResult.missing CAP BstChild.Left
  | fuel + 1, curr =>
    match compare (s.keys curr) k with
    | Ordering.eq => FindResult.found curr
    | Ordering.lt =>
      let nxt := s.rights curr
      if nxt = CAP then FindResult.missing curr BstChild.Right
      else s.find_in_bst_go k fuel nxt
    | Ordering.gt =>
      let nxt := s.lefts curr
      if nxt = CAP then FindResult.missing curr BstChild.Left
      else s.find_in_bst_go k fuel nxt

/-- Embedding of `ConstLru::find_in_bst`. -/
def ConstLru.find_in_bst [LinearOrder K] (s : ConstLru K V CAP) (k : K) :
    FindResult :=
  if s.root = CAP then FindResult.missing CAP BstChild.Left
  else s.find_in_bst_go k (CAP + 1) s.root

/-- Embedding of `ConstLru::insert`.  Returns the new state together with
the optional replaced entry.  In the eviction path the source recomputes
the insertion point and unwraps the `Err`; a `found` outcome there would
panic in Rust and is modelled by the junk insertion point `(CAP, Left)`,
a case that is unreachable from well-formed states. -/
def ConstLru.insert [LinearOrder K] (s : ConstLru K V CAP) (k : K) (v : V) :
    ConstLru K V CAP × Option (InsertReplaced K V) :=
  if CAP = 0 then (s, none)
  else
    match s.find_in_bst k with
    | FindResult.found index =>
      let old_v := s.values index
      let s1 : ConstLru K V CAP := { s with values := setF s.values index v }
      (s1.move_to_head index, some (InsertReplaced.OldValue old_v))
    | FindResult.missing parent_index parent_dir =>
      if s.is_full then
        let t := s.tail
        let evicted_k := s.keys t
        let evicted_v := s.values t
        let s1 := s.remove_rb s.tail
        let pd2 := match s1.find_in_bst k with
          | FindResult.missing p d => (p, d)
          | FindResult.found _ => (CAP, BstChild.Left)
        let s2 : ConstLru K V CAP :=
          { s1 with keys := setF s1.keys t k, values := setF s1.values t v }
        let s3 := s2.insert_rb s2.tail pd2
        let s4 := s3.move_to_head s3.tail
        (s4, some (InsertReplaced.LruEvicted evicted_k evicted_v))
      else
        let s1 : ConstLru K V CAP :=
          if s.is_empty then { s with head := s.tail } else s
        let free_index := if s1.is_empty then s1.tail else s1.nexts s1.tail
        let s2 : ConstLru K V CAP := { s1 with tail := free_index }
        let s3 : ConstLru K V CAP :=
          { s2 with keys := setF s2.keys free_index k,
                    values := setF s2.values free_index v }
        let s4 := s3.insert_rb s3.tail (parent_index, parent_dir)
        let s5 := s4.move_to_head s4.tail
        ({ s5 with len := s5.len + 1 }, none)

/-- Embedding of `ConstLru::remove`.  Returns the new state and the value
removed, if the key was present. -/
def ConstLru.remove [LinearOrder K] (s : ConstLru K V CAP) (k : K) :
    ConstLru K V CAP × Option V :=
  match s.find_in_bst k with
  | FindResult.missing _ _ => (s, none)
  | FindResult.found index =>
    let val := s.values index
    let s1 : ConstLru K V CAP :=
      if s.len > 1 then
        let u := s.unlink_node index
        let t := u.tail
        let first_free := u.nexts t
        let u1 : ConstLru K V CAP :=
          if first_free < CAP then
            { u with prevs := setF u.prevs first_free index }
          else u
        let u2 : ConstLru K V CAP :=
          { u1 with nexts := setF u1.nexts index first_free }
        let u3 : ConstLru K V CAP :=
          { u2 with prevs := setF u2.prevs index u2.tail }
        { u3 with nexts := setF u3.nexts t index }
      else s
    let s2 := s1.remove_rb index
    ({ s2 with len := s2.len - 1 }, some val)

/-- Embedding of `ConstLru::get`: promote the found entry and return its
value. -/
def ConstLru.get [LinearOrder K] (s : ConstLru K V CAP) (k : K) :
    ConstLru K V CAP × Option V :=
  match s.find_in_bst k with
  | FindResult.missing _ _ => (s, none)
  | FindResult.found index => (s.move_to_head index, some (s.values index))

/-- Embedding of `ConstLru::get_mut`; state effect and returned value are
identical to `get` (the source differs only in handing back a mutable
reference). -/
def ConstLru.get_mut [LinearOrder K] (s : ConstLru K V CAP) (k : K) :
    ConstLru K V CAP × Option V :=
  match s.find_in_bst k with
  | FindResult.missing _ _ => (s, none)
  | FindResult.found index => (s.move_to_head index, some (s.values index))

/-- Embedding of `ConstLru::get_untouched`: takes `&self`, so the state
cannot change; only the looked-up value is returned. -/
def ConstLru.get_untouched [LinearOrder K] (s : ConstLru K V CAP) (k : K) :
    Option V :=
  match s.find_in_bst k with
  | FindResult.missing _ _ => none
  | FindResult.found index => some (s.values index)

/-- Embedding of `ConstLru::get_mut_untouched`: returns a mutable
reference without touching the recency structure; the state is unchanged. -/
def ConstLru.get_mut_untouched [LinearOrder K] (s : ConstLru K V CAP) (k : K) :
    Option V :=
  match s.find_in_bst k with
  | FindResult.missing _ _ => none
  | FindResult.found index => some (s.values index)

/-- Embedding of `ConstLru::clear`: replace the state with a new empty
one (`*self = Self::new()`). -/
def ConstLru.clear [Inhabited K] [Inhabited V] (_ : ConstLru K V CAP) :
    ConstLru K V CAP :=
  ConstLru.emptyState K V CAP

/-- Build loop of the `TryFrom` impl: for each slot in order, look the key
up in the tree built so far; a hit means a duplicate key, so the earlier
slot is unlinked from the recency list, `len` is decremented and the error
is returned (the error also carries the state about to be dropped, to
expose that cleanup); a miss extends the red-black tree.  `todo` counts
the remaining slots, so the current slot is `CAP - todo`. -/
def ConstLru.try_from_go [LinearOrder K] :
    Nat → ConstLru K V CAP →
    (DuplicateKeysError K × ConstLru K V CAP) ⊕ ConstLru K V CAP
  | 0, s => Sum.inr s
  | todo + 1, s =>
    let i := CAP - (todo + 1)
    let k := s.keys i
    match s.find_in_bst k with
    | FindResult.found existing =>
      let s1 := s.unlink_node existing
      let s2 : ConstLru K V CAP := { s1 with len := s1.len - 1 }
      Sum.inl (⟨s2.keys existing⟩, s2)
    | FindResult.missing p d =>
      ConstLru.try_from_go todo (s.insert_rb i (p, d))

/-- Embedding of the `TryFrom<[(K, V); CAP]>` impl: starts from the empty
state, marks the cache full with `head = 0` and `tail = CAP - 1`, writes
every pair into its slot by position and then builds the red-black tree
slot by slot, failing on the first duplicate key. -/
def ConstLru.try_from [Inhabited K] [Inhabited V] [LinearOrder K]
    (CAP : Nat) (entries : List (K × V)) :
    (DuplicateKeysError K × ConstLru K V CAP) ⊕ ConstLru K V CAP :=
  let s0 := ConstLru.emptyState K V CAP
  let s1 : ConstLru K V CAP :=
    { s0 with len := CAP, head := 0,
              tail := if 0 < CAP then CAP - 1 else 0 }
  let s2 : ConstLru K V CAP :=
    { s1 with keys := fun j => if j < CAP then ((entries.getD j default).1)
                else s1.keys j,
              values := fun j => if j < CAP then ((entries.getD j default).2)
                else s1.values j }
  ConstLru.try_from_go CAP s2

/-- The cursor pair of `DoubleEndedIterCursors::new`. -/
def ConstLru.iter_cursors (s : ConstLru K V CAP) : Nat × Nat :=
  if s.is_empty then (0, 0)
  else if s.is_full then (s.head, CAP)
  else (s.head, s.nexts s.tail)

/-- Forward walk of `Iter::next`: yield the slot under the head cursor and
advance it along `nexts` until the cursors meet, with fuel. -/
def ConstLru.iter_go (s : ConstLru K V CAP) :
    Nat → Nat → Nat → List (K × V)
  | 0, _, _ => []
  | fuel + 1, from_head, from_tail =>
    if from_head = from_tail then []
    else (s.keys from_head, s.values from_head) ::
      s.iter_go fuel (s.nexts from_head) from_tail

/-- The full recency-order iteration (`ConstLru::iter` driven to the end):
the list of key-value pairs from most-recently-used to least-recently-used. -/
def ConstLru.iterList (s : ConstLru K V CAP) : List (K × V) :=
  let c := s.iter_cursors
  s.iter_go (CAP + 1) c.1 c.2


/-- The recency-list-and-data view of a state: everything the tree
operations leave untouched. -/
def lview (s : ConstLru K V CAP) :
    Nat × Nat × Nat × (Nat → Nat) × (Nat → Nat) × (Nat → K) × (Nat → V) :=
  (s.len, s.head, s.tail, s.nexts, s.prevs, s.keys, s.values)

/-- The tree-and-data view of a state: everything the recency-list
operations leave untouched. -/
def tview (s : ConstLru K V CAP) :
    Nat × Nat × (Nat → Nat) × (Nat → Nat) × (Nat → Nat) × (Nat → RbColor) ×
      (Nat → K) × (Nat → V) :=
  (s.len, s.root, s.lefts, s.rights, s.parents, s.rbColors, s.keys, s.values)

theorem lview_len {a b : ConstLru K V CAP} (h : lview a = lview b) :
    a.len = b.len := congrArg Prod.fst h

theorem lview_head {a b : ConstLru K V CAP} (h : lview a = lview b) :
    a.head = b.head := congrArg (fun x => x.2.1) h

theorem lview_tail {a b : ConstLru K V CAP} (h : lview a = lview b) :
    a.tail = b.tail := congrArg (fun x => x.2.2.1) h

theorem lview_nexts {a b : ConstLru K V CAP} (h : lview a = lview b) :
    a.nexts = b.nexts := congrArg (fun x => x.2.2.2.1) h

theorem lview_prevs {a b : ConstLru K V CAP} (h : lview a = lview b) :
    a.prevs = b.prevs := congrArg (fun x => x.2.2.2.2.1) h

theorem lview_keys {a b : ConstLru K V CAP} (h : lview a = lview b) :
    a.keys = b.keys := congrArg (fun x => x.2.2.2.2.2.1) h

theorem lview_values {a b : ConstLru K V CAP} (h : lview a = lview b) :
    a.values = b.values := congrArg (fun x => x.2.2.2.2.2.2) h

theorem tview_len {a b : ConstLru K V CAP} (h : tview a = tview b) :
    a.len = b.len := congrArg Prod.fst h

theorem tview_root {a b : ConstLru K V CAP} (h : tview a = tview b) :
    a.root = b.root := congrArg (fun x => x.2.1) h

theorem tview_lefts {a b : ConstLru K V CAP} (h : tview a = tview b) :
    a.lefts = b.lefts := congrArg (fun x => x.2.2.1) h

theorem tview_rights {a b : ConstLru K V CAP} (h : tview a = tview b) :
    a.rights = b.rights := congrArg (fun x => x.2.2.2.1) h

theorem tview_parents {a b : ConstLru K V CAP} (h : tview a = tview b) :
    a.parents = b.parents := congrArg (fun x => x.2.2.2.2.1) h

theorem tview_rbColors {a b : ConstLru K V CAP} (h : tview a = tview b) :
    a.rbColors = b.rbColors := congrArg (fun x => x.2.2.2.2.2.1) h

theorem tview_keys {a b : ConstLru K V CAP} (h : tview a = tview b) :
    a.keys = b.keys := congrArg (fun x => x.2.2.2.2.2.2.1) h

theorem tview_values {a b : ConstLru K V CAP} (h : tview a = tview b) :
    a.values = b.values := congrArg (fun x => x.2.2.2.2.2.2.2) h

@[simp] theorem lview_set_rb_color (s : ConstLru K V CAP) (i : Nat)
    (c : RbColor) : lview (s.set_rb_color i c) = lview s := rfl

@[simp] theorem lview_insert_bst_node (s : ConstLru K V CAP) (n : Nat)
    (pi : Nat × BstChild) : lview (s.insert_bst_node n pi) = lview s := by
  unfold ConstLru.insert_bst_node
  dsimp only
  split <;> split <;> first | rfl | (split <;> rfl)

@[simp] theorem lview_unlink_bst_node_from_parent (s : ConstLru K V CAP)
    (n : Nat) : lview (s.unlink_bst_node_from_parent n).1 = lview s := by
  unfold ConstLru.unlink_bst_node_from_parent
  dsimp only
  split
  · rfl
  · split <;> rfl

@[simp] theorem lview_left_rotate (s : ConstLru K V CAP) (i : Nat) :
    lview (s.left_rotate i) = lview s := by
  unfold ConstLru.left_rotate
  dsimp only
  split <;> simp

@[simp] theorem lview_right_rotate (s : ConstLru K V CAP) (i : Nat) :
    lview (s.right_rotate i) = lview s := by
  unfold ConstLru.right_rotate
  dsimp only
  split <;> simp

@[simp] theorem lview_left_right_rotate (s : ConstLru K V CAP) (i : Nat) :
    lview (s.left_right_rotate i) = lview s := by
  unfold ConstLru.left_right_rotate
  simp

@[simp] theorem lview_right_left_rotate (s : ConstLru K V CAP) (i : Nat) :
    lview (s.right_left_rotate i) = lview s := by
  unfold ConstLru.right_left_rotate
  simp

@[simp] theorem lview_insert_rb_fixup (s : ConstLru K V CAP) (n : Nat) :
    lview (s.insert_rb_fixup n).1 = lview s := by
  unfold ConstLru.insert_rb_fixup
  dsimp only
  (repeat' split) <;> simp

@[simp] theorem lview_insert_rb_loop (s : ConstLru K V CAP) (fuel n : Nat) :
    lview (s.insert_rb_loop fuel n) = lview s := by
  induction fuel generalizing s n with
  | zero => rfl
  | succ fuel ih =>
    unfold ConstLru.insert_rb_loop
    rcases h : s.insert_rb_fixup n with ⟨s', o⟩
    have hs' : lview s' = lview s := by
      have := lview_insert_rb_fixup s n
      rw [h] at this; exact this
    cases o with
    | none => simpa using hs'
    | some g => simpa [ih] using hs'

@[simp] theorem lview_insert_rb (s : ConstLru K V CAP) (n : Nat)
    (pi : Nat × BstChild) : lview (s.insert_rb n pi) = lview s := by
  unfold ConstLru.insert_rb
  simp


@[simp] theorem set_rb_color_len (s : ConstLru K V CAP) (i : Nat) (c : RbColor) :
    (s.set_rb_color i c).len = s.len := lview_len (lview_set_rb_color s i c)

@[simp] theorem set_rb_color_head (s : ConstLru K V CAP) (i : Nat) (c : RbColor) :
    (s.set_rb_color i c).head = s.head := lview_head (lview_set_rb_color s i c)

@[simp] theorem set_rb_color_tail (s : ConstLru K V CAP) (i : Nat) (c : RbColor) :
    (s.set_rb_color i c).tail = s.tail := lview_tail (lview_set_rb_color s i c)

@[simp] theorem set_rb_color_nexts (s : ConstLru K V CAP) (i : Nat) (c : RbColor) :
    (s.set_rb_color i c).nexts = s.nexts := lview_nexts (lview_set_rb_color s i c)

@[simp] theorem set_rb_color_prevs (s : ConstLru K V CAP) (i : Nat) (c : RbColor) :
    (s.set_rb_color i c).prevs = s.prevs := lview_prevs (lview_set_rb_color s i c)

@[simp] theorem set_rb_color_keys (s : ConstLru K V CAP) (i : Nat) (c : RbColor) :
    (s.set_rb_color i c).keys = s.keys := lview_keys (lview_set_rb_color s i c)

@[simp] theorem set_rb_color_values (s : ConstLru K V CAP) (i : Nat) (c : RbColor) :
    (s.set_rb_color i c).values = s.values := lview_values (lview_set_rb_color s i c)

@[simp] theorem insert_bst_node_len (s : ConstLru K V CAP) (n : Nat) (pi : Nat × BstChild) :
    (s.insert_bst_node n pi).len = s.len := lview_len (lview_insert_bst_node s n pi)

@[simp] theorem insert_bst_node_head (s : ConstLru K V CAP) (n : Nat) (pi : Nat × BstChild) :
    (s.insert_bst_node n pi).head = s.head := lview_head (lview_insert_bst_node s n pi)

@[simp] theorem insert_bst_node_tail (s : ConstLru K V CAP) (n : Nat) (pi : Nat × BstChild) :
    (s.insert_bst_node n pi).tail = s.tail := lview_tail (lview_insert_bst_node s n pi)

@[simp] theorem insert_bst_node_nexts (s : ConstLru K V CAP) (n : Nat) (pi : Nat × BstChild) :
    (s.insert_bst_node n pi).nexts = s.nexts := lview_nexts (lview_insert_bst_node s n pi)

@[simp] theorem insert_bst_node_prevs (s : ConstLru K V CAP) (n : Nat) (pi : Nat × BstChild) :
    (s.insert_bst_node n pi).prevs = s.prevs := lview_prevs (lview_insert_bst_node s n pi)

@[simp] theorem insert_bst_node_keys (s : ConstLru K V CAP) (n : Nat) (pi : Nat × BstChild) :
    (s.insert_bst_node n pi).keys = s.keys := lview_keys (lview_insert_bst_node s n pi)

@[simp] theorem insert_bst_node_values (s : ConstLru K V CAP) (n : Nat) (pi : Nat × BstChild) :
    (s.insert_bst_node n pi).values = s.values := lview_values (lview_insert_bst_node s n pi)

@[simp] theorem unlink_bst_fst_len (s : ConstLru K V CAP) (n : Nat) :
    ((s.unlink_bst_node_from_parent n).1).len = s.len := lview_len (lview_unlink_bst_node_from_parent s n)

@[simp] theorem unlink_bst_fst_head (s : ConstLru K V CAP) (n : Nat) :
    ((s.unlink_bst_node_from_parent n).1).head = s.head := lview_head (lview_unlink_bst_node_from_parent s n)

@[simp] theorem unlink_bst_fst_tail (s : ConstLru K V CAP) (n : Nat) :
    ((s.unlink_bst_node_from_parent n).1).tail = s.tail := lview_tail (lview_unlink_bst_node_from_parent s n)

@[simp] theorem unlink_bst_fst_nexts (s : ConstLru K V CAP) (n : Nat) :
    ((s.unlink_bst_node_from_parent n).1).nexts = s.nexts := lview_nexts (lview_unlink_bst_node_from_parent s n)

@[simp] theorem unlink_bst_fst_prevs (s : ConstLru K V CAP) (n : Nat) :
    ((s.unlink_bst_node_from_parent n).1).prevs = s.prevs := lview_prevs (lview_unlink_bst_node_from_parent s n)

@[simp] theorem unlink_bst_fst_keys (s : ConstLru K V CAP) (n : Nat) :
    ((s.unlink_bst_node_from_parent n).1).keys = s.keys := lview_keys (lview_unlink_bst_node_from_parent s n)

@[simp] theorem unlink_bst_fst_values (s : ConstLru K V CAP) (n : Nat) :
    ((s.unlink_bst_node_from_parent n).1).values = s.values := lview_values (lview_unlink_bst_node_from_parent s n)

@[simp] theorem left_rotate_len (s : ConstLru K V CAP) (i : Nat) :
    (s.left_rotate i).len = s.len := lview_len (lview_left_rotate s i)

@[simp] theorem left_rotate_head (s : ConstLru K V CAP) (i : Nat) :
    (s.left_rotate i).head = s.head := lview_head (lview_left_rotate s i)

@[simp] theorem left_rotate_tail (s : ConstLru K V CAP) (i : Nat) :
    (s.left_rotate i).tail = s.tail := lview_tail (lview_left_rotate s i)

@[simp] theorem left_rotate_nexts (s : ConstLru K V CAP) (i : Nat) :
    (s.left_rotate i).nexts = s.nexts := lview_nexts (lview_left_rotate s i)

@[simp] theorem left_rotate_prevs (s : ConstLru K V CAP) (i : Nat) :
    (s.left_rotate i).prevs = s.prevs := lview_prevs (lview_left_rotate s i)

@[simp] theorem left_rotate_keys (s : ConstLru K V CAP) (i : Nat) :
    (s.left_rotate i).keys = s.keys := lview_keys (lview_left_rotate s i)

@[simp] theorem left_rotate_values (s : ConstLru K V CAP) (i : Nat) :
    (s.left_rotate i).values = s.values := lview_values (lview_left_rotate s i)

@[simp] theorem right_rotate_len (s : ConstLru K V CAP) (i : Nat) :
    (s.right_rotate i).len = s.len := lview_len (lview_right_rotate s i)

@[simp] theorem right_rotate_head (s : ConstLru K V CAP) (i : Nat) :
    (s.right_rotate i).head = s.head := lview_head (lview_right_rotate s i)

@[simp] theorem right_rotate_tail (s : ConstLru K V CAP) (i : Nat) :
    (s.right_rotate i).tail = s.tail := lview_tail (lview_right_rotate s i)

@[simp] theorem right_rotate_nexts (s : ConstLru K V CAP) (i : Nat) :
    (s.right_rotate i).nexts = s.nexts := lview_nexts (lview_right_rotate s i)

@[simp] theorem right_rotate_prevs (s : ConstLru K V CAP) (i : Nat) :
    (s.right_rotate i).prevs = s.prevs := lview_prevs (lview_right_rotate s i)

@[simp] theorem right_rotate_keys (s : ConstLru K V CAP) (i : Nat) :
    (s.right_rotate i).keys = s.keys := lview_keys (lview_right_rotate s i)

@[simp] theorem right_rotate_values (s : ConstLru K V CAP) (i : Nat) :
    (s.right_rotate i).values = s.values := lview_values (lview_right_rotate s i)

@[simp] theorem left_right_rotate_len (s : ConstLru K V CAP) (i : Nat) :
    (s.left_right_rotate i).len = s.len := lview_len (lview_left_right_rotate s i)

@[simp] theorem left_right_rotate_head (s : ConstLru K V CAP) (i : Nat) :
    (s.left_right_rotate i).head = s.head := lview_head (lview_left_right_rotate s i)

@[simp] theorem left_right_rotate_tail (s : ConstLru K V CAP) (i : Nat) :
    (s.left_right_rotate i).tail = s.tail := lview_tail (lview_left_right_rotate s i)

@[simp] theorem left_right_rotate_nexts (s : ConstLru K V CAP) (i : Nat) :
    (s.left_right_rotate i).nexts = s.nexts := lview_nexts (lview_left_right_rotate s i)

@[simp] theorem left_right_rotate_prevs (s : ConstLru K V CAP) (i : Nat) :
    (s.left_right_rotate i).prevs = s.prevs := lview_prevs (lview_left_right_rotate s i)

@[simp] theorem left_right_rotate_keys (s : ConstLru K V CAP) (i : Nat) :
    (s.left_right_rotate i).keys = s.keys := lview_keys (lview_left_right_rotate s i)

@[simp] theorem left_right_rotate_values (s : ConstLru K V CAP) (i : Nat) :
    (s.left_right_rotate i).values = s.values := lview_values (lview_left_right_rotate s i)

@[simp] theorem right_left_rotate_len (s : ConstLru K V CAP) (i : Nat) :
    (s.right_left_rotate i).len = s.len := lview_len (lview_right_left_rotate s i)

@[simp] theorem right_left_rotate_head (s : ConstLru K V CAP) (i : Nat) :
    (s.right_left_rotate i).head = s.head := lview_head (lview_right_left_rotate s i)

@[simp] theorem right_left_rotate_tail (s : ConstLru K V CAP) (i : Nat) :
    (s.right_left_rotate i).tail = s.tail := lview_tail (lview_right_left_rotate s i)

@[simp] theorem right_left_rotate_nexts (s : ConstLru K V CAP) (i : Nat) :
    (s.right_left_rotate i).nexts = s.nexts := lview_nexts (lview_right_left_rotate s i)

@[simp] theorem right_left_rotate_prevs (s : ConstLru K V CAP) (i : Nat) :
    (s.right_left_rotate i).prevs = s.prevs := lview_prevs (lview_right_left_rotate s i)

@[simp] theorem right_left_rotate_keys (s : ConstLru K V CAP) (i : Nat) :
    (s.right_left_rotate i).keys = s.keys := lview_keys (lview_right_left_rotate s i)

@[simp] theorem right_left_rotate_values (s : ConstLru K V CAP) (i : Nat) :
    (s.right_left_rotate i).values = s.values := lview_values (lview_right_left_rotate s i)

@[simp] theorem insert_rb_fixup_fst_len (s : ConstLru K V CAP) (n : Nat) :
    ((s.insert_rb_fixup n).1).len = s.len := lview_len (lview_insert_rb_fixup s n)

@[simp] theorem insert_rb_fixup_fst_head (s : ConstLru K V CAP) (n : Nat) :
    ((s.insert_rb_fixup n).1).head = s.head := lview_head (lview_insert_rb_fixup s n)

@[simp] theorem insert_rb_fixup_fst_tail (s : ConstLru K V CAP) (n : Nat) :
    ((s.insert_rb_fixup n).1).tail = s.tail := lview_tail (lview_insert_rb_fixup s n)

@[simp] theorem insert_rb_fixup_fst_nexts (s : ConstLru K V CAP) (n : Nat) :
    ((s.insert_rb_fixup n).1).nexts = s.nexts := lview_nexts (lview_insert_rb_fixup s n)

@[simp] theorem insert_rb_fixup_fst_prevs (s : ConstLru K V CAP) (n : Nat) :
    ((s.insert_rb_fixup n).1).prevs = s.prevs := lview_prevs (lview_insert_rb_fixup s n)

@[simp] theorem insert_rb_fixup_fst_keys (s : ConstLru K V CAP) (n : Nat) :
    ((s.insert_rb_fixup n).1).keys = s.keys := lview_keys (lview_insert_rb_fixup s n)

@[simp] theorem insert_rb_fixup_fst_values (s : ConstLru K V CAP) (n : Nat) :
    ((s.insert_rb_fixup n).1).values = s.values := lview_values (lview_insert_rb_fixup s n)

@[simp] theorem insert_rb_loop_len (s : ConstLru K V CAP) (fuel n : Nat) :
    (s.insert_rb_loop fuel n).len = s.len := lview_len (lview_insert_rb_loop s fuel n)

@[simp] theorem insert_rb_loop_head (s : ConstLru K V CAP) (fuel n : Nat) :
    (s.insert_rb_loop fuel n).head = s.head := lview_head (lview_insert_rb_loop s fuel n)

@[simp] theorem insert_rb_loop_tail (s : ConstLru K V CAP) (fuel n : Nat) :
    (s.insert_rb_loop fuel n).tail = s.tail := lview_tail (lview_insert_rb_loop s fuel n)

@[simp] theorem insert_rb_loop_nexts (s : ConstLru K V CAP) (fuel n : Nat) :
    (s.insert_rb_loop fuel n).nexts = s.nexts := lview_nexts (lview_insert_rb_loop s fuel n)

@[simp] theorem insert_rb_loop_prevs (s : ConstLru K V CAP) (fuel n : Nat) :
    (s.insert_rb_loop fuel n).prevs = s.prevs := lview_prevs (lview_insert_rb_loop s fuel n)

@[simp] theorem insert_rb_loop_keys (s : ConstLru K V CAP) (fuel n : Nat) :
    (s.insert_rb_loop fuel n).keys = s.keys := lview_keys (lview_insert_rb_loop s fuel n)

@[simp] theorem insert_rb_loop_values (s : ConstLru K V CAP) (fuel n : Nat) :
    (s.insert_rb_loop fuel n).values = s.values := lview_values (lview_insert_rb_loop s fuel n)

@[simp] theorem insert_rb_len (s : ConstLru K V CAP) (n : Nat) (pi : Nat × BstChild) :
    (s.insert_rb n pi).len = s.len := lview_len (lview_insert_rb s n pi)

@[simp] theorem insert_rb_head (s : ConstLru K V CAP) (n : Nat) (pi : Nat × BstChild) :
    (s.insert_rb n pi).head = s.head := lview_head (lview_insert_rb s n pi)

@[simp] theorem insert_rb_tail (s : ConstLru K V CAP) (n : Nat) (pi : Nat × BstChild) :
    (s.insert_rb n pi).tail = s.tail := lview_tail (lview_insert_rb s n pi)

@[simp] theorem insert_rb_nexts (s : ConstLru K V CAP) (n : Nat) (pi : Nat × BstChild) :
    (s.insert_rb n pi).nexts = s.nexts := lview_nexts (lview_insert_rb s n pi)

@[simp] theorem insert_rb_prevs (s : ConstLru K V CAP) (n : Nat) (pi : Nat × BstChild) :
    (s.insert_rb n pi).prevs = s.prevs := lview_prevs (lview_insert_rb s n pi)

@[simp] theorem insert_rb_keys (s : ConstLru K V CAP) (n : Nat) (pi : Nat × BstChild) :
    (s.insert_rb n pi).keys = s.keys := lview_keys (lview_insert_rb s n pi)

@[simp] theorem insert_rb_values (s : ConstLru K V CAP) (n : Nat) (pi : Nat × BstChild) :
    (s.insert_rb n pi).values = s.values := lview_values (lview_insert_rb s n pi)

@[simp] theorem lview_remove_rbt_node (s : ConstLru K V CAP) (n : Nat) :
    lview (s.remove_rbt_node n).1 = lview s := by
  unfold ConstLru.remove_rbt_node
  dsimp only
  (repeat' split) <;> simp [lview]

@[simp] theorem lview_remove_rb_fixup_outer (s : ConstLru K V CAP)
    (parent : Nat) (parent_dir : BstChild) (sibling : Nat) :
    lview (s.remove_rb_fixup_outer parent parent_dir sibling) = lview s := by
  unfold ConstLru.remove_rb_fixup_outer
  dsimp only
  split <;> simp

@[simp] theorem lview_remove_rb_fixup_tail (s : ConstLru K V CAP)
    (parent : Nat) (parent_dir : BstChild) (sibling : Nat) :
    lview (s.remove_rb_fixup_tail parent parent_dir sibling).1 = lview s := by
  unfold ConstLru.remove_rb_fixup_tail
  dsimp only
  (repeat' split) <;> simp

@[simp] theorem lview_remove_rb_fixup (s : ConstLru K V CAP)
    (pd : Nat × BstChild) : lview (s.remove_rb_fixup pd).1 = lview s := by
  unfold ConstLru.remove_rb_fixup
  dsimp only
  (repeat' split) <;> simp

@[simp] theorem lview_remove_rb_loop (s : ConstLru K V CAP) (fuel : Nat)
    (pd : Nat × BstChild) : lview (s.remove_rb_loop fuel pd) = lview s := by
  induction fuel generalizing s pd with
  | zero => rfl
  | succ fuel ih =>
    unfold ConstLru.remove_rb_loop
    rcases h : s.remove_rb_fixup pd with ⟨s', o⟩
    have hs' : lview s' = lview s := by
      have := lview_remove_rb_fixup s pd
      rw [h] at this; exact this
    cases o with
    | none => simpa using hs'
    | some g => simpa [ih] using hs'

@[simp] theorem lview_remove_rb (s : ConstLru K V CAP) (n : Nat) :
    lview (s.remove_rb n) = lview s := by
  unfold ConstLru.remove_rb
  dsimp only
  split <;> simp


@[simp] theorem remove_rbt_node_fst_len (s : ConstLru K V CAP) (n : Nat) :
    ((s.remove_rbt_node n).1).len = s.len := lview_len (lview_remove_rbt_node s n)

@[simp] theorem remove_rbt_node_fst_head (s : ConstLru K V CAP) (n : Nat) :
    ((s.remove_rbt_node n).1).head = s.head := lview_head (lview_remove_rbt_node s n)

@[simp] theorem remove_rbt_node_fst_tail (s : ConstLru K V CAP) (n : Nat) :
    ((s.remove_rbt_node n).1).tail = s.tail := lview_tail (lview_remove_rbt_node s n)

@[simp] theorem remove_rbt_node_fst_nexts (s : ConstLru K V CAP) (n : Nat) :
    ((s.remove_rbt_node n).1).nexts = s.nexts := lview_nexts (lview_remove_rbt_node s n)

@[simp] theorem remove_rbt_node_fst_prevs (s : ConstLru K V CAP) (n : Nat) :
    ((s.remove_rbt_node n).1).prevs = s.prevs := lview_prevs (lview_remove_rbt_node s n)

@[simp] theorem remove_rbt_node_fst_keys (s : ConstLru K V CAP) (n : Nat) :
    ((s.remove_rbt_node n).1).keys = s.keys := lview_keys (lview_remove_rbt_node s n)

@[simp] theorem remove_rbt_node_fst_values (s : ConstLru K V CAP) (n : Nat) :
    ((s.remove_rbt_node n).1).values = s.values := lview_values (lview_remove_rbt_node s n)

@[simp] theorem remove_rb_fixup_fst_len (s : ConstLru K V CAP) (pd : Nat × BstChild) :
    ((s.remove_rb_fixup pd).1).len = s.len := lview_len (lview_remove_rb_fixup s pd)

@[simp] theorem remove_rb_fixup_fst_head (s : ConstLru K V CAP) (pd : Nat × BstChild) :
    ((s.remove_rb_fixup pd).1).head = s.head := lview_head (lview_remove_rb_fixup s pd)

@[simp] theorem remove_rb_fixup_fst_tail (s : ConstLru K V CAP) (pd : Nat × BstChild) :
    ((s.remove_rb_fixup pd).1).tail = s.tail := lview_tail (lview_remove_rb_fixup s pd)

@[simp] theorem remove_rb_fixup_fst_nexts (s : ConstLru K V CAP) (pd : Nat × BstChild) :
    ((s.remove_rb_fixup pd).1).nexts = s.nexts := lview_nexts (lview_remove_rb_fixup s pd)

@[simp] theorem remove_rb_fixup_fst_prevs (s : ConstLru K V CAP) (pd : Nat × BstChild) :
    ((s.remove_rb_fixup pd).1).prevs = s.prevs := lview_prevs (lview_remove_rb_fixup s pd)

@[simp] theorem remove_rb_fixup_fst_keys (s : ConstLru K V CAP) (pd : Nat × BstChild) :
    ((s.remove_rb_fixup pd).1).keys = s.keys := lview_keys (lview_remove_rb_fixup s pd)

@[simp] theorem remove_rb_fixup_fst_values (s : ConstLru K V CAP) (pd : Nat × BstChild) :
    ((s.remove_rb_fixup pd).1).values = s.values := lview_values (lview_remove_rb_fixup s pd)

@[simp] theorem remove_rb_loop_len (s : ConstLru K V CAP) (fuel : Nat) (pd : Nat × BstChild) :
    (s.remove_rb_loop fuel pd).len = s.len := lview_len (lview_remove_rb_loop s fuel pd)

@[simp] theorem remove_rb_loop_head (s : ConstLru K V CAP) (fuel : Nat) (pd : Nat × BstChild) :
    (s.remove_rb_loop fuel pd).head = s.head := lview_head (lview_remove_rb_loop s fuel pd)

@[simp] theorem remove_rb_loop_tail (s : ConstLru K V CAP) (fuel : Nat) (pd : Nat × BstChild) :
    (s.remove_rb_loop fuel pd).tail = s.tail := lview_tail (lview_remove_rb_loop s fuel pd)

@[simp] theorem remove_rb_loop_nexts (s : ConstLru K V CAP) (fuel : Nat) (pd : Nat × BstChild) :
    (s.remove_rb_loop fuel pd).nexts = s.nexts := lview_nexts (lview_remove_rb_loop s fuel pd)

@[simp] theorem remove_rb_loop_prevs (s : ConstLru K V CAP) (fuel : Nat) (pd : Nat × BstChild) :
    (s.remove_rb_loop fuel pd).prevs = s.prevs := lview_prevs (lview_remove_rb_loop s fuel pd)

@[simp] theorem remove_rb_loop_keys (s : ConstLru K V CAP) (fuel : Nat) (pd : Nat × BstChild) :
    (s.remove_rb_loop fuel pd).keys = s.keys := lview_keys (lview_remove_rb_loop s fuel pd)

@[simp] theorem remove_rb_loop_values (s : ConstLru K V CAP) (fuel : Nat) (pd : Nat × BstChild) :
    (s.remove_rb_loop fuel pd).values = s.values := lview_values (lview_remove_rb_loop s fuel pd)

@[simp] theorem remove_rb_len (s : ConstLru K V CAP) (n : Nat) :
    (s.remove_rb n).len = s.len := lview_len (lview_remove_rb s n)

@[simp] theorem remove_rb_head (s : ConstLru K V CAP) (n : Nat) :
    (s.remove_rb n).head = s.head := lview_head (lview_remove_rb s n)

@[simp] theorem remove_rb_tail (s : ConstLru K V CAP) (n : Nat) :
    (s.remove_rb n).tail = s.tail := lview_tail (lview_remove_rb s n)

@[simp] theorem remove_rb_nexts (s : ConstLru K V CAP) (n : Nat) :
    (s.remove_rb n).nexts = s.nexts := lview_nexts (lview_remove_rb s n)

@[simp] theorem remove_rb_prevs (s : ConstLru K V CAP) (n : Nat) :
    (s.remove_rb n).prevs = s.prevs := lview_prevs (lview_remove_rb s n)

@[simp] theorem remove_rb_keys (s : ConstLru K V CAP) (n : Nat) :
    (s.remove_rb n).keys = s.keys := lview_keys (lview_remove_rb s n)

@[simp] theorem remove_rb_values (s : ConstLru K V CAP) (n : Nat) :
    (s.remove_rb n).values = s.values := lview_values (lview_remove_rb s n)

@[simp] theorem tview_unlink_node (s : ConstLru K V CAP) (i : Nat) :
    tview (s.unlink_node i) = tview s := by
  unfold ConstLru.unlink_node
  dsimp only
  split <;> split <;> split <;> split <;> rfl

@[simp] theorem tview_move_to_head (s : ConstLru K V CAP) (i : Nat) :
    tview (s.move_to_head i) = tview s := by
  unfold ConstLru.move_to_head
  dsimp only
  split
  · rfl
  · have h := tview_unlink_node s i
    exact congrArg (fun x => (x.1, x.2.1, x.2.2.1, x.2.2.2.1, x.2.2.2.2.1,
      x.2.2.2.2.2.1, x.2.2.2.2.2.2.1, x.2.2.2.2.2.2.2)) h


@[simp] theorem unlink_node_len (s : ConstLru K V CAP) (i : Nat) :
    (s.unlink_node i).len = s.len := tview_len (tview_unlink_node s i)

@[simp] theorem unlink_node_root (s : ConstLru K V CAP) (i : Nat) :
    (s.unlink_node i).root = s.root := tview_root (tview_unlink_node s i)

@[simp] theorem unlink_node_lefts (s : ConstLru K V CAP) (i : Nat) :
    (s.unlink_node i).lefts = s.lefts := tview_lefts (tview_unlink_node s i)

@[simp] theorem unlink_node_rights (s : ConstLru K V CAP) (i : Nat) :
    (s.unlink_node i).rights = s.rights := tview_rights (tview_unlink_node s i)

@[simp] theorem unlink_node_parents (s : ConstLru K V CAP) (i : Nat) :
    (s.unlink_node i).parents = s.parents := tview_parents (tview_unlink_node s i)

@[simp] theorem unlink_node_rbColors (s : ConstLru K V CAP) (i : Nat) :
    (s.unlink_node i).rbColors = s.rbColors := tview_rbColors (tview_unlink_node s i)

@[simp] theorem unlink_node_keys (s : ConstLru K V CAP) (i : Nat) :
    (s.unlink_node i).keys = s.keys := tview_keys (tview_unlink_node s i)

@[simp] theorem unlink_node_values (s : ConstLru K V CAP) (i : Nat) :
    (s.unlink_node i).values = s.values := tview_values (tview_unlink_node s i)

@[simp] theorem move_to_head_len (s : ConstLru K V CAP) (i : Nat) :
    (s.move_to_head i).len = s.len := tview_len (tview_move_to_head s i)

@[simp] theorem move_to_head_root (s : ConstLru K V CAP) (i : Nat) :
    (s.move_to_head i).root = s.root := tview_root (tview_move_to_head s i)

@[simp] theorem move_to_head_lefts (s : ConstLru K V CAP) (i : Nat) :
    (s.move_to_head i).lefts = s.lefts := tview_lefts (tview_move_to_head s i)

@[simp] theorem move_to_head_rights (s : ConstLru K V CAP) (i : Nat) :
    (s.move_to_head i).rights = s.rights := tview_rights (tview_move_to_head s i)

@[simp] theorem move_to_head_parents (s : ConstLru K V CAP) (i : Nat) :
    (s.move_to_head i).parents = s.parents := tview_parents (tview_move_to_head s i)

@[simp] theorem move_to_head_rbColors (s : ConstLru K V CAP) (i : Nat) :
    (s.move_to_head i).rbColors = s.rbColors := tview_rbColors (tview_move_to_head s i)

@[simp] theorem move_to_head_keys (s : ConstLru K V CAP) (i : Nat) :
    (s.move_to_head i).keys = s.keys := tview_keys (tview_move_to_head s i)

@[simp] theorem move_to_head_values (s : ConstLru K V CAP) (i : Nat) :
    (s.move_to_head i).values = s.values := tview_values (tview_move_to_head s i)

/-- The head of the list after `move_to_head` is always the moved index. -/
@[simp] theorem move_to_head_head (s : ConstLru K V CAP) (i : Nat) :
    (s.move_to_head i).head = i := by
  unfold ConstLru.move_to_head
  dsimp only
  split
  · assumption
  · rfl

/-! ### Claim C9: construction -/

/-- C9.  `ConstLru::new` (and `init_at_alloc`, both delegating to `init`)
panics exactly when `CAP > I::MAX` or `I::MAX > usize::MAX`; otherwise it
returns the empty cache: `len = 0`, `head = CAP`, `tail = 0`, recency
list `0 ↔ 1 ↔ ... ↔ CAP-1` (`nexts[i] = i + 1` for every slot,
`prevs[0] = CAP`, `prevs[i] = i - 1` for `i ≥ 1`), and all slots vacant
(`len = 0`, so no slot is occupied). -/
theorem c9_new_panics_iff_else_empty (K V : Type u) [Inhabited K] [Inhabited V]
    (CAP IMAX USIZE_MAX : Nat) :
    (ConstLru.new K V CAP IMAX USIZE_MAX = none ↔
      CAP > IMAX ∨ IMAX > USIZE_MAX) ∧
    (¬ (CAP > IMAX ∨ IMAX > USIZE_MAX) →
      ConstLru.new K V CAP IMAX USIZE_MAX =
        some (ConstLru.emptyState K V CAP) ∧
      (ConstLru.emptyState K V CAP).len = 0 ∧
      (ConstLru.emptyState K V CAP).head = CAP ∧
      (ConstLru.emptyState K V CAP).root = CAP ∧
      (ConstLru.emptyState K V CAP).tail = 0 ∧
      (∀ i, i < CAP → (ConstLru.emptyState K V CAP).nexts i = i + 1) ∧
      (0 < CAP → (ConstLru.emptyState K V CAP).prevs 0 = CAP) ∧
      (∀ i, 1 ≤ i → i < CAP → (ConstLru.emptyState K V CAP).prevs i = i - 1)) := by
  constructor
  · unfold ConstLru.new ConstLru.init
    split
    · simp; omega
    · split
      · simp; omega
      · simp; omega
  · intro h
    refine ⟨?_, rfl, rfl, rfl, rfl, ?_, ?_, ?_⟩
    · unfold ConstLru.new ConstLru.init
      split
      · omega
      · split
        · omega
        · rfl
    · intro i hi
      simp [ConstLru.emptyState, hi]
    · intro hc
      simp [ConstLru.emptyState]
    · intro i h1 hi
      simp [ConstLru.emptyState, hi]
      omega

/-- Witness for C9 at CAP = 3, IMAX = 255, usize max 1000: no panic and
the concrete empty-state facts. -/
theorem c9_witness :
    ¬ ((3 : Nat) > 255 ∨ (255 : Nat) > 1000) ∧
    ConstLru.new Nat Nat 3 255 1000 = some (ConstLru.emptyState Nat Nat 3) ∧
    (ConstLru.emptyState Nat Nat 3).nexts 1 = 2 ∧
    (ConstLru.emptyState Nat Nat 3).prevs 0 = 3 ∧
    (ConstLru.emptyState Nat Nat 3).prevs 2 = 1 := by
  have h : ¬ ((3 : Nat) > 255 ∨ (255 : Nat) > 1000) := by decide
  obtain ⟨-, h2⟩ := c9_new_panics_iff_else_empty Nat Nat 3 255 1000
  obtain ⟨he, -, -, -, -, hn, hp0, hpi⟩ := h2 h
  exact ⟨h, he, hn 1 (by decide), hp0 (by decide), hpi 2 (by decide) (by decide)⟩

/-! ### Claim C1: the four cases of insert -/

/-- C3.  For a present key (one the tree lookup finds at slot `i`),
`get` and `get_mut` return the stored value and promote slot `i` to the
head of the recency list, leaving length, keys, values and the whole tree
untouched; `get_untouched` and `get_mut_untouched` return the same stored
value and, taking the receiver immutably, perform no state change at all
(they are functions of the state returning only the value).  For an
absent key all four return nothing and `get`/`get_mut` return the state
unchanged. -/
theorem c3_get_variants [LinearOrder K] (s : ConstLru K V CAP) (k : K) :
    (∀ i, s.find_in_bst k = FindResult.found i →
      (s.get k).2 = some (s.values i) ∧
      (s.get_mut k).2 = some (s.values i) ∧
      s.get_untouched k = some (s.values i) ∧
      s.get_mut_untouched k = some (s.values i) ∧
      (s.get k).1 = s.move_to_head i ∧
      (s.get_mut k).1 = s.move_to_head i ∧
      (s.get k).1.head = i ∧
      (s.get k).1.len = s.len ∧
      (s.get k).1.keys = s.keys ∧
      (s.get k).1.values = s.values ∧
      tview (s.get k).1 = tview s) ∧
    (∀ p d, s.find_in_bst k = FindResult.missing p d →
      s.get k = (s, none) ∧
      s.get_mut k = (s, none) ∧
      s.get_untouched k = none ∧
      s.get_mut_untouched k = none) := by
  constructor
  · intro i hf
    unfold ConstLru.get ConstLru.get_mut ConstLru.get_untouched
      ConstLru.get_mut_untouched
    simp [hf]
  · intro p d hf
    unfold ConstLru.get ConstLru.get_mut ConstLru.get_untouched
      ConstLru.get_mut_untouched
    simp [hf]

/-- Witness for C3 on a concrete `CAP = 2` cache holding keys 1 and 2:
key 2 sits at slot 1, `get` returns its value and promotes it, and a
lookup of the absent key 7 returns nothing and changes nothing. -/
theorem c3_witness :
    (let s := (((ConstLru.emptyState Nat Nat 2).insert 1 10).1.insert 2 20).1
     s.find_in_bst 2 = FindResult.found 1 ∧
     (s.get 2).2 = some 20 ∧ (s.get 2).1.head = 1 ∧
     s.get_untouched 2 = some 20 ∧
     s.find_in_bst 7 = FindResult.missing 1 BstChild.Right ∧
     s.get 7 = (s, none)) := by
  refine ⟨by decide, ?_, ?_, ?_, by decide, ?_⟩
  · have h := (c3_get_variants
      ((((ConstLru.emptyState Nat Nat 2).insert 1 10).1.insert 2 20).1) 2).1
      1 (by decide)
    simpa using h.1
  · have h := (c3_get_variants
      ((((ConstLru.emptyState Nat Nat 2).insert 1 10).1.insert 2 20).1) 2).1
      1 (by decide)
    simpa using h.2.2.2.2.2.2.1
  · have h := (c3_get_variants
      ((((ConstLru.emptyState Nat Nat 2).insert 1 10).1.insert 2 20).1) 2).1
      1 (by decide)
    simpa using h.2.2.1
  · have h := (c3_get_variants
      ((((ConstLru.emptyState Nat Nat 2).insert 1 10).1.insert 2 20).1) 7).2
      1 BstChild.Right (by decide)
    exact h.1


/-! ### Claim C4: remove -/

/-- C4.  Removing an absent key returns nothing and leaves the state
untouched.  Removing a present key (found at slot `i`) returns the stored
value and decrements `len` by one; when `len > 1` the freed slot is
unlinked from the occupied part of the list and spliced in as the first
free slot just after the tail: with `u` the state right after the unlink
(whose tail is the tail the source reads, and which equals the final
tail) and `ff` the previous first free slot (`u.nexts u.tail`), the final
state satisfies `nexts[tail] = i`, `prevs[i] = tail`, `nexts[i] = ff`,
and `prevs[ff] = i` when `ff` is a real slot.  The two disequalities
`u.tail ≠ i` and `ff ≠ i` hold in every well-formed state (the tail and
the first free slot differ from the still-occupied slot `i`). -/
theorem c4_remove [LinearOrder K] (s : ConstLru K V CAP) (k : K) :
    (∀ p d, s.find_in_bst k = FindResult.missing p d →
      s.remove k = (s, none)) ∧
    (∀ i, s.find_in_bst k = FindResult.found i →
      (s.remove k).2 = some (s.values i) ∧
      (s.remove k).1.len = s.len - 1 ∧
      (1 < s.len →
        (s.remove k).1.tail = (s.unlink_node i).tail ∧
        (s.remove k).1.nexts ((s.unlink_node i).tail) = i ∧
        (s.remove k).1.prevs i = (s.unlink_node i).tail ∧
        ((s.unlink_node i).tail ≠ i →
          (s.remove k).1.nexts i =
            (s.unlink_node i).nexts ((s.unlink_node i).tail)) ∧
        ((s.unlink_node i).nexts ((s.unlink_node i).tail) < CAP →
          (s.unlink_node i).nexts ((s.unlink_node i).tail) ≠ i →
          (s.remove k).1.prevs
            ((s.unlink_node i).nexts ((s.unlink_node i).tail)) = i))) := by
  constructor
  · intro p d hf
    unfold ConstLru.remove
    simp [hf]
  · intro i hf
    refine ⟨?_, ?_, ?_⟩
    · unfold ConstLru.remove
      simp [hf]
    · unfold ConstLru.remove
      simp only [hf]
      (repeat' split) <;> simp
    · intro hlen
      unfold ConstLru.remove
      simp only [hf]
      have hif : (s.len > 1) = True := eq_true hlen
      simp only [hif, if_true]
      refine ⟨?_, ?_, ?_, ?_, ?_⟩
      · (repeat' split) <;> simp
      · (repeat' split) <;> simp [setF]
      · (repeat' split) <;> simp [setF]
      · intro hti
        (repeat' split) <;> simp [setF, hti] <;>
          (intro h; exact absurd h.symm hti)
      · intro hff hffi
        (repeat' split) <;> simp [setF, hff, hffi]

/-- Witness for C4 on a concrete `CAP = 3` cache holding keys 1, 2, 3:
removing absent key 9 is a no-op; removing key 2 (slot 1) returns its
value, decrements len, and splices slot 1 after the tail. -/
theorem c4_witness :
    (let s := ((((ConstLru.emptyState Nat Nat 3).insert 1 10).1.insert
        2 20).1.insert 3 30).1
     s.find_in_bst 9 = FindResult.missing 2 BstChild.Right ∧
     s.remove 9 = (s, none) ∧
     s.find_in_bst 2 = FindResult.found 1 ∧
     (s.remove 2).2 = some 20 ∧
     (s.remove 2).1.len = 2 ∧
     (s.remove 2).1.nexts ((s.unlink_node 1).tail) = 1) := by
  intro s
  have habs := (c4_remove s 9).1 2 BstChild.Right (by decide)
  have hpres := (c4_remove s 2).2 1 (by decide)
  refine ⟨by decide, habs, by decide, hpres.1, ?_, ?_⟩
  · have := hpres.2.1
    simpa using this
  · exact (hpres.2.2 (by decide)).2.1


/-! ### Claim C6: the head sentinel -/

end ConstLruRb

namespace ConstLruBs

/-!
Model of the sorted-permutation ConstLru variant that the entry facade
(src/src/entry/) is written against.  The entry module is present in the
repository sources, but the `ConstLru` methods it calls
(`get_index_of`, `insert_evict_lru`, `insert_alloc_new`,
`get_by_index`, `get_mut_by_index`, `insert_replace_value`,
`remove_by_index`) and the `entry` constructor itself are not in
src/src/lib.rs (the checked-in lib.rs is the red-black-tree variant and
does not even declare `mod entry`).  Those missing methods are modelled
from the spec, sections 3, 4.3 and 4.4; the entry-level code below them
is translated from src/src/entry/mod.rs, occupied.rs and vacant.rs.
-/

/-- Modelled from the spec: aggregate state of the sorted-permutation
variant, section 3 of the spec.  `bs_index` is the `order` permutation
(rank to slot index); the remaining fields are as in the red-black
variant minus the tree. -/
structure BsConstLru (K V : Type u) (CAP : Nat) where
  len : Nat
  head : Nat
  tail : Nat
  nexts : Nat → Nat
  prevs : Nat → Nat
  bs_index : Nat → Nat
  keys : Nat → K
  values : Nat → V

/-- Result of `get_index_of`: found (slot index, rank) or the rank at
which the missing key would be inserted. -/
inductive IndexResult where
  | found (i : Nat) (rank : Nat) : IndexResult
  | missing (rank : Nat) : IndexResult
deriving DecidableEq, Repr

variable {K V : Type u} {CAP : Nat}

/-- Embedding of `ConstLru::is_full` for the sorted-permutation state. -/
def BsConstLru.is_full (s : BsConstLru K V CAP) : Prop := s.len = CAP

instance (s : BsConstLru K V CAP) : Decidable s.is_full := by
  unfold BsConstLru.is_full; infer_instance

/-- Embedding of `ConstLru::is_empty` for the sorted-permutation state. -/
def BsConstLru.is_empty (s : BsConstLru K V CAP) : Prop := s.len = 0

instance (s : BsConstLru K V CAP) : Decidable s.is_empty := by
  unfold BsConstLru.is_empty; infer_instance

/-- Embedding of `ConstLru::unlink_node` on the sorted-permutation state
(same algorithm as the red-black variant in src/src/lib.rs). -/
def BsConstLru.unlink_node (s : BsConstLru K V CAP) (index : Nat) :
    BsConstLru K V CAP :=
  let next := s.nexts index
  let prev := s.prevs index
  let s1 := if next ≠ CAP then
      { s with prevs := ConstLruRb.setF s.prevs next prev } else s
  let s2 := if prev ≠ CAP then
      { s1 with nexts := ConstLruRb.setF s1.nexts prev next } else s1
  let isOneElem := s2.head = s2.tail
  let s3 := if s2.head = index ∧ ¬ isOneElem then { s2 with head := next }
    else s2
  if s3.tail = index ∧ ¬ isOneElem then { s3 with tail := prev } else s3

/-- Embedding of `ConstLru::move_to_head` on the sorted-permutation state
(same algorithm as the red-black variant in src/src/lib.rs). -/
def BsConstLru.move_to_head (s : BsConstLru K V CAP) (index : Nat) :
    BsConstLru K V CAP :=
  if s.head = index then s
  else
    let s1 : BsConstLru K V CAP := s.unlink_node index
    let hd : Nat := s1.head
    let s2 : BsConstLru K V CAP :=
      { s1 with prevs := ConstLruRb.setF s1.prevs index CAP,
                nexts := ConstLruRb.setF s1.nexts index hd }
    let s3 : BsConstLru K V CAP :=
      { s2 with prevs := ConstLruRb.setF s2.prevs hd index }
    { s3 with head := index }

/-- Modelled from the spec: `get_index_of` (spec section 4.3) performs
binary search on the sorted permutation `order[0..len]`; it returns
`Found(slot, rank)` when `keys[order[rank]] == k` and otherwise
`Missing(rank)` with `rank` the position where `k` would be inserted to
preserve sorted order (the number of stored keys smaller than `k`). -/
def BsConstLru.get_index_of [LinearOrder K] (s : BsConstLru K V CAP)
    (k : K) : IndexResult :=
  let rank := (List.range s.len).countP (fun r => s.keys (s.bs_index r) < k)
  if rank < s.len ∧ s.keys (s.bs_index rank) = k then
    IndexResult.found (s.bs_index rank) rank
  else IndexResult.missing rank

/-- Modelled from the spec: the rank of the slot holding the evicted key,
located by searching the order index (spec section 4.4, eviction case). -/
def BsConstLru.rank_of (s : BsConstLru K V CAP) (i : Nat) : Nat :=
  (List.range s.len).findIdx (fun r => s.bs_index r = i)

/-- Modelled from the spec: the eviction swap on the order index (spec
section 4.3, Mutation): re-use slot `i` for the new key at rank `r_new`
while the evicted key sat at rank `r_old`; shift the strip between the
two ranks by one and write `i` at the landing rank. -/
def evictionSwap (order : Nat → Nat) (r_new r_old i : Nat) : Nat → Nat :=
  fun j =>
    if r_new = r_old then order j
    else if r_new < r_old then
      if j = r_new then i
      else if r_new < j ∧ j ≤ r_old then order (j - 1)
      else order j
    else
      if j = r_new - 1 then i
      else if r_old ≤ j ∧ j < r_new - 1 then order (j + 1)
      else order j

/-- Modelled from the spec: `insert_evict_lru` (spec section 4.4,
insert, full case): take the tail slot, read the evicted pair out of it,
write the new pair in, perform the eviction swap on the order index,
promote the slot, and hand back the slot index and the evicted pair. -/
def BsConstLru.insert_evict_lru (s : BsConstLru K V CAP)
    (insert_bs_i : Nat) (k : K) (v : V) :
    BsConstLru K V CAP × Nat × (K × V) :=
  let i := s.tail
  let evicted := (s.keys i, s.values i)
  let r_old := s.rank_of i
  let s1 : BsConstLru K V CAP :=
    { s with keys := ConstLruRb.setF s.keys i k,
             values := ConstLruRb.setF s.values i v,
             bs_index := evictionSwap s.bs_index insert_bs_i r_old i }
  (s1.move_to_head i, i, evicted)

/-- Modelled from the spec: `insert_alloc_new` (spec section 4.4, insert,
non-full case): the new slot is `tail` itself on an empty cache (with
`head` set to it) or `nexts[tail]`; advance `tail`, write the pair,
insert the slot at the given rank in the order index, increment `len`,
promote to head, return the slot index. -/
def BsConstLru.insert_alloc_new (s : BsConstLru K V CAP)
    (insert_bs_i : Nat) (k : K) (v : V) : BsConstLru K V CAP × Nat :=
  let s0 : BsConstLru K V CAP :=
    if s.is_empty then { s with head := s.tail } else s
  let free_index := if s0.is_empty then s0.tail else s0.nexts s0.tail
  let s1 : BsConstLru K V CAP := { s0 with tail := free_index }
  let s2 : BsConstLru K V CAP :=
    { s1 with keys := ConstLruRb.setF s1.keys free_index k,
              values := ConstLruRb.setF s1.values free_index v,
              bs_index := fun j =>
                if j = insert_bs_i then free_index
                else if insert_bs_i < j ∧ j ≤ s1.len then s1.bs_index (j - 1)
                else s1.bs_index j }
  let s3 : BsConstLru K V CAP := { s2 with len := s2.len + 1 }
  (s3.move_to_head free_index, free_index)

/-- Modelled from the spec: read access to the value at a slot
(`get_by_index` and `get_mut_by_index` of the source both reduce to
this; the mutable variant differs only in reference flavor). -/
def BsConstLru.get_by_index (s : BsConstLru K V CAP) (i : Nat) : V :=
  s.values i

/-- Modelled from the spec: `insert_replace_value` replaces the value in
place at the slot and returns the old value (spec section 4.1,
replace-in-place). -/
def BsConstLru.insert_replace_value (s : BsConstLru K V CAP) (i : Nat)
    (v : V) : BsConstLru K V CAP × V :=
  ({ s with values := ConstLruRb.setF s.values i v }, s.values i)

/-- Modelled from the spec: `remove_by_index` (spec section 4.4, remove,
with the slot and rank already known): read the stored pair out, splice
the slot into the free list just after the tail when `len > 1`, shift
the order index left past the rank, decrement `len`, return the pair. -/
def BsConstLru.remove_by_index (s : BsConstLru K V CAP)
    (i : Nat) (bs_i : Nat) : BsConstLru K V CAP × (K × V) :=
  let kv := (s.keys i, s.values i)
  let s1 : BsConstLru K V CAP :=
    if s.len > 1 then
      let u := s.unlink_node i
      let t := u.tail
      let first_free := u.nexts t
      let u1 : BsConstLru K V CAP :=
        if first_free < CAP then
          { u with prevs := ConstLruRb.setF u.prevs first_free i }
        else u
      let u2 : BsConstLru K V CAP :=
        { u1 with nexts := ConstLruRb.setF u1.nexts i first_free }
      let u3 : BsConstLru K V CAP :=
        { u2 with prevs := ConstLruRb.setF u2.prevs i u2.tail }
      { u3 with nexts := ConstLruRb.setF u3.nexts t i }
    else s
  let s2 : BsConstLru K V CAP :=
    { s1 with bs_index := fun j =>
        if bs_i ≤ j ∧ j + 1 < s1.len then s1.bs_index (j + 1)
        else s1.bs_index j }
  ({ s2 with len := s2.len - 1 }, kv)

/-- The entry view, from src/src/entry/mod.rs: either an occupied view
carrying the moved-in key, the found slot index and its rank, or a
vacant view carrying the moved-in key and its insertion rank.  The
mutable borrow of the cache that the Rust views hold is passed
separately to the operations below. -/
inductive Entry (K : Type u) where
  | Occupied (key : K) (index : Nat) (bs_i : Nat) : Entry K
  | Vacant (key : K) (insert_bs_i : Nat) : Entry K
deriving DecidableEq, Repr

/-- Embedding of `Entry::new` from src/src/entry/mod.rs: panics (`none`)
when `CAP = 0`; otherwise looks the key up and wraps the result in the
occupied or vacant view. -/
def Entry.new [LinearOrder K] (s : BsConstLru K V CAP) (k : K) :
    Option (Entry K) :=
  if CAP = 0 then none
  else
    match s.get_index_of k with
    | IndexResult.found i bs => some (Entry.Occupied k i bs)
    | IndexResult.missing r => some (Entry.Vacant k r)

/-- Embedding of `VacantEntry::insert` from src/src/entry/vacant.rs:
on a full cache insert with eviction and return the evicted pair, else
allocate a fresh slot; in both cases return the new slot's value
reference (modelled by the slot index and final state). -/
def VacantEntry.insert (s : BsConstLru K V CAP) (key : K)
    (insert_bs_i : Nat) (v : V) :
    BsConstLru K V CAP × Nat × Option (K × V) :=
  if s.is_full then
    let r := s.insert_evict_lru insert_bs_i key v
    (r.1, r.2.1, some r.2.2)
  else
    let r := s.insert_alloc_new insert_bs_i key v
    (r.1, r.2, none)

/-- Embedding of `OccupiedEntry::get` from src/src/entry/occupied.rs:
promote then read. -/
def OccupiedEntry.get (s : BsConstLru K V CAP) (index : Nat) :
    BsConstLru K V CAP × V :=
  let s1 := s.move_to_head index
  (s1, s1.get_by_index index)

/-- Embedding of `OccupiedEntry::get_untouched`: read without promoting. -/
def OccupiedEntry.get_untouched (s : BsConstLru K V CAP) (index : Nat) : V :=
  s.get_by_index index

/-- Embedding of `OccupiedEntry::insert`: replace the value in place,
returning the old value. -/
def OccupiedEntry.insert (s : BsConstLru K V CAP) (index : Nat) (v : V) :
    BsConstLru K V CAP × V :=
  s.insert_replace_value index v

/-- Embedding of `OccupiedEntry::into_mut`: promote and return the
long-lived value reference (modelled by the slot index). -/
def OccupiedEntry.into_mut (s : BsConstLru K V CAP) (index : Nat) :
    BsConstLru K V CAP × Nat :=
  (s.move_to_head index, index)

/-- Embedding of `OccupiedEntry::into_mut_untouched`. -/
def OccupiedEntry.into_mut_untouched (s : BsConstLru K V CAP)
    (index : Nat) : BsConstLru K V CAP × Nat :=
  (s, index)

/-- Embedding of `OccupiedEntry::remove_entry`: take the stored key and
value out of the cache. -/
def OccupiedEntry.remove_entry (s : BsConstLru K V CAP)
    (index : Nat) (bs_i : Nat) : BsConstLru K V CAP × (K × V) :=
  s.remove_by_index index bs_i

/-- Embedding of `OccupiedEntry::remove`: take just the value. -/
def OccupiedEntry.remove (s : BsConstLru K V CAP)
    (index : Nat) (bs_i : Nat) : BsConstLru K V CAP × V :=
  ((s.remove_by_index index bs_i).1, (s.remove_by_index index bs_i).2.2)


/-- The non-list part of the sorted-permutation state, untouched by the
recency-list operations. -/
def bsTview (s : BsConstLru K V CAP) :
    Nat × (Nat → Nat) × (Nat → K) × (Nat → V) :=
  (s.len, s.bs_index, s.keys, s.values)

@[simp] theorem bsTview_unlink_node (s : BsConstLru K V CAP) (i : Nat) :
    bsTview (s.unlink_node i) = bsTview s := by
  unfold BsConstLru.unlink_node
  dsimp only
  (repeat' split) <;> rfl

@[simp] theorem bsTview_move_to_head (s : BsConstLru K V CAP) (i : Nat) :
    bsTview (s.move_to_head i) = bsTview s := by
  unfold BsConstLru.move_to_head
  dsimp only
  split
  · rfl
  · have h := bsTview_unlink_node s i
    exact congrArg (fun x => (x.1, x.2.1, x.2.2.1, x.2.2.2)) h

@[simp] theorem bs_move_to_head_len (s : BsConstLru K V CAP) (i : Nat) :
    (s.move_to_head i).len = s.len :=
  congrArg Prod.fst (bsTview_move_to_head s i)

@[simp] theorem bs_move_to_head_bs_index (s : BsConstLru K V CAP) (i : Nat) :
    (s.move_to_head i).bs_index = s.bs_index :=
  congrArg (fun x => x.2.1) (bsTview_move_to_head s i)

@[simp] theorem bs_move_to_head_keys (s : BsConstLru K V CAP) (i : Nat) :
    (s.move_to_head i).keys = s.keys :=
  congrArg (fun x => x.2.2.1) (bsTview_move_to_head s i)

@[simp] theorem bs_move_to_head_values (s : BsConstLru K V CAP) (i : Nat) :
    (s.move_to_head i).values = s.values :=
  congrArg (fun x => x.2.2.2) (bsTview_move_to_head s i)

@[simp] theorem bs_unlink_node_len (s : BsConstLru K V CAP) (i : Nat) :
    (s.unlink_node i).len = s.len :=
  congrArg Prod.fst (bsTview_unlink_node s i)

/-- The head after `move_to_head` is the moved index. -/
@[simp] theorem bs_move_to_head_head (s : BsConstLru K V CAP) (i : Nat) :
    (s.move_to_head i).head = i := by
  unfold BsConstLru.move_to_head
  dsimp only
  split
  · assumption
  · rfl

/-! ### Claim C10: the entry facade -/

/-- C10.  `entry(k)` (via `Entry::new`, panicking only for `CAP = 0`)
returns an Occupied view exactly when the key is present — carrying the
found slot index and rank and exposing promoted and untouched reads,
replace-in-place (returning the old value), removal returning the stored
value or the stored key-value pair, and the `into_mut` conversions — and
a Vacant view exactly when the key is absent, carrying the moved-in key
and its insertion rank, whose `insert` returns the evicted key-value
pair exactly when the cache is full (and the freshly written slot
otherwise). -/
theorem c10_entry_facade [LinearOrder K] (s : BsConstLru K V CAP)
    (k : K) (v : V) :
    (CAP = 0 → Entry.new s k = (none : Option (Entry K))) ∧
    (∀ i bs, CAP ≠ 0 → s.get_index_of k = IndexResult.found i bs →
      Entry.new s k = some (Entry.Occupied k i bs) ∧
      (OccupiedEntry.get s i).2 = s.values i ∧
      (OccupiedEntry.get s i).1.head = i ∧
      OccupiedEntry.get_untouched s i = s.values i ∧
      (OccupiedEntry.insert s i v).2 = s.values i ∧
      (OccupiedEntry.insert s i v).1.values i = v ∧
      (OccupiedEntry.insert s i v).1.keys = s.keys ∧
      (OccupiedEntry.remove s i bs).2 = s.values i ∧
      (OccupiedEntry.remove_entry s i bs).2 = (s.keys i, s.values i) ∧
      (OccupiedEntry.remove_entry s i bs).1.len = s.len - 1 ∧
      (OccupiedEntry.into_mut s i).1.head = i ∧
      (OccupiedEntry.into_mut s i).2 = i ∧
      (OccupiedEntry.into_mut_untouched s i).1 = s) ∧
    (∀ r, CAP ≠ 0 → s.get_index_of k = IndexResult.missing r →
      Entry.new s k = some (Entry.Vacant k r) ∧
      (((VacantEntry.insert s k r v).2.2.isSome) ↔ s.is_full) ∧
      (s.is_full →
        (VacantEntry.insert s k r v).2.2 =
          some (s.keys s.tail, s.values s.tail))) := by
  refine ⟨?_, ?_, ?_⟩
  · intro h
    unfold Entry.new
    simp [h]
  · intro i bs hcap hfound
    unfold Entry.new
    simp only [hfound]
    refine ⟨by simp [hcap], ?_, by simp [OccupiedEntry.get], ?_, rfl, ?_, ?_,
      ?_, rfl, ?_, by simp [OccupiedEntry.into_mut], rfl, rfl⟩
    · simp [OccupiedEntry.get, BsConstLru.get_by_index]
    · rfl
    · simp [OccupiedEntry.insert, BsConstLru.insert_replace_value]
    · simp [OccupiedEntry.insert, BsConstLru.insert_replace_value]
    · rfl
    · unfold OccupiedEntry.remove_entry BsConstLru.remove_by_index
      dsimp only
      (repeat' split) <;> simp
  · intro r hcap hmiss
    unfold Entry.new
    simp only [hmiss]
    refine ⟨by simp [hcap], ?_, ?_⟩
    · unfold VacantEntry.insert
      split
      · simpa [BsConstLru.is_full] using by assumption
      · simpa [BsConstLru.is_full] using by assumption
    · intro hfull
      unfold VacantEntry.insert
      simp [hfull, BsConstLru.insert_evict_lru]

/-- Witness for C10 on a concrete `CAP = 2` sorted-permutation cache
holding keys 1 and 2 (slot 0 is MRU): key 2 yields an occupied view at
slot 1 rank 1; key 5 yields a vacant view at rank 2 whose insert evicts
the LRU pair (2, 20) since the cache is full. -/
theorem c10_witness :
    (let s : BsConstLru Nat Nat 2 :=
      { len := 2, head := 0, tail := 1,
        nexts := fun j => if j = 0 then 1 else 2,
        prevs := fun j => if j = 1 then 0 else 2,
        bs_index := fun j => j,
        keys := fun j => j + 1,
        values := fun j => 10 * (j + 1) }
     s.get_index_of 2 = IndexResult.found 1 1 ∧
     Entry.new s 2 = some (Entry.Occupied 2 1 1) ∧
     (OccupiedEntry.get s 1).2 = 20 ∧
     s.get_index_of 5 = IndexResult.missing 2 ∧
     Entry.new s 5 = some (Entry.Vacant 5 2) ∧
     (VacantEntry.insert s 5 2 50).2.2 = some (2, 20)) := by
  intro s
  have hocc := (c10_entry_facade s 2 99).2.1 1 1 (by decide) (by decide)
  have hvac := (c10_entry_facade s 5 50).2.2 2 (by decide) (by decide)
  refine ⟨by decide, hocc.1, ?_, by decide, hvac.1, ?_⟩
  · have h2 := hocc.2.1
    simpa using h2
  · have h3 := hvac.2.2 (by decide)
    simpa using h3

end ConstLruBs

namespace ConstLruRb

/-! ### Abstract binary trees and zipper contexts

To reason about the intrusive red-black tree stored in the `lefts`,
`rights`, `parents` arrays, we relate the state to an abstract binary
tree of slot indices.  A zipper context describes the path from a
focused subtree up to the root; the fixup loops of the source navigate
exactly such paths through the parent links. -/

/-- Abstract binary tree of slot indices. -/
inductive Tr where
  | nil : Tr
  | node (l : Tr) (i : Nat) (r : Tr) : Tr
deriving DecidableEq, Repr

/-- In-order list of the indices of a tree. -/
def Tr.nodes : Tr → List Nat
  | Tr.nil => []
  | Tr.node l i r => l.nodes ++ i :: r.nodes

/-- Index of the root of a tree; the sentinel `CAP` for the empty tree. -/
def rootIdx (CAP : Nat) : Tr → Nat
  | Tr.nil => CAP
  | Tr.node _ i _ => i

/-- The arrays of the state represent tree `t` whose root's parent link
is `p`: every node's `parents`, `lefts` and `rights` entries agree with
the abstract shape. -/
def TreeRepr (s : ConstLru K V CAP) : Tr → Nat → Prop
  | Tr.nil, _ => True
  | Tr.node l i r, p =>
      i < CAP ∧ s.parents i = p ∧ s.lefts i = rootIdx CAP l ∧
      s.rights i = rootIdx CAP r ∧ TreeRepr s l i ∧ TreeRepr s r i

/-- One step of a path: the direction the hole hangs off the parent, the
parent index, and the sibling subtree. -/
abbrev Frame : Type := BstChild × Nat × Tr

/-- A path from a focused position up to the root, innermost frame
first. -/
abbrev Ctx : Type := List Frame

/-- Rebuild the full tree by wrapping a subtree in its context. -/
def plug : Ctx → Tr → Tr
  | [], t => t
  | (BstChild.Left, p, sib) :: ctx, t => plug ctx (Tr.node t p sib)
  | (BstChild.Right, p, sib) :: ctx, t => plug ctx (Tr.node sib p t)

/-- Parent index at the hole of a context (`CAP` for the empty context). -/
def ctxParent (CAP : Nat) : Ctx → Nat
  | [] => CAP
  | (_, p, _) :: _ => p

/-- Direction of the hole relative to its parent. -/
def holeDir : Ctx → BstChild
  | [] => BstChild.Left
  | (d, _, _) :: _ => d

/-- Indices appearing strictly before the hole in the in-order
enumeration of the plugged tree. -/
def ctxA : Ctx → List Nat
  | [] => []
  | (BstChild.Left, _, _) :: ctx => ctxA ctx
  | (BstChild.Right, p, sib) :: ctx => ctxA ctx ++ (sib.nodes ++ [p])

/-- Indices appearing strictly after the hole in the in-order
enumeration of the plugged tree. -/
def ctxB : Ctx → List Nat
  | [] => []
  | (BstChild.Left, p, sib) :: ctx => (p :: sib.nodes) ++ ctxB ctx
  | (BstChild.Right, _, _) :: ctx => ctxB ctx

/-- The arrays represent the context around a hole currently holding a
subtree whose root index is `h`. -/
def CtxOK (s : ConstLru K V CAP) : Ctx → Nat → Prop
  | [], _ => True
  | (d, p, sib) :: ctx, h =>
      p < CAP ∧ s.parents p = ctxParent CAP ctx ∧
      (match d with
       | BstChild.Left => s.lefts p = h ∧ s.rights p = rootIdx CAP sib
       | BstChild.Right => s.rights p = h ∧ s.lefts p = rootIdx CAP sib) ∧
      TreeRepr s sib p ∧ CtxOK s ctx p

/-- In-order enumeration of a plugged tree: context prefix, subtree,
context suffix. -/
theorem plug_nodes (ctx : Ctx) (sub : Tr) :
    (plug ctx sub).nodes = ctxA ctx ++ sub.nodes ++ ctxB ctx := by
  induction ctx generalizing sub with
  | nil => simp [plug, ctxA, ctxB]
  | cons fr ctx ih =>
    rcases fr with ⟨d, p, sib⟩
    cases d with
    | Left =>
      simp [plug, ctxA, ctxB, ih, Tr.nodes]
    | Right =>
      simp [plug, ctxA, ctxB, ih, Tr.nodes]

/-- Root of a plugged tree: the outermost frame's parent, or the
subtree's root when the context is empty. -/
theorem rootIdx_plug (ctx : Ctx) (sub sub' : Tr) (h : ctx ≠ []) :
    rootIdx CAP (plug ctx sub) = rootIdx CAP (plug ctx sub') := by
  induction ctx generalizing sub sub' with
  | nil => exact absurd rfl h
  | cons fr ctx ih =>
    rcases fr with ⟨d, p, sib⟩
    cases ctx with
    | nil =>
      cases d <;> simp [plug, rootIdx]
    | cons fr2 ctx2 =>
      cases d <;> exact ih _ _ (by simp)

/-- Decomposition of tree representation along a context. -/
theorem treeRepr_plug_iff (s : ConstLru K V CAP) (ctx : Ctx) (sub : Tr) :
    TreeRepr s (plug ctx sub) CAP ↔
      CtxOK s ctx (rootIdx CAP sub) ∧ TreeRepr s sub (ctxParent CAP ctx) := by
  induction ctx generalizing sub with
  | nil => simp [plug, CtxOK, ctxParent]
  | cons fr ctx ih =>
    rcases fr with ⟨d, p, sib⟩
    cases d with
    | Left =>
      rw [show plug ((BstChild.Left, p, sib) :: ctx) sub =
        plug ctx (Tr.node sub p sib) from rfl, ih]
      simp only [CtxOK, TreeRepr, rootIdx, ctxParent]
      constructor
      · rintro ⟨hctx, hp, hpar, hl, hr, hsub, hsib⟩
        exact ⟨⟨hp, hpar, ⟨hl, hr⟩, hsib, hctx⟩, hsub⟩
      · rintro ⟨⟨hp, hpar, ⟨hl, hr⟩, hsib, hctx⟩, hsub⟩
        exact ⟨hctx, hp, hpar, hl, hr, hsub, hsib⟩
    | Right =>
      rw [show plug ((BstChild.Right, p, sib) :: ctx) sub =
        plug ctx (Tr.node sib p sub) from rfl, ih]
      simp only [CtxOK, TreeRepr, rootIdx, ctxParent]
      constructor
      · rintro ⟨hctx, hp, hpar, hl, hr, hsib, hsub⟩
        exact ⟨⟨hp, hpar, ⟨hr, hl⟩, hsib, hctx⟩, hsub⟩
      · rintro ⟨⟨hp, hpar, ⟨hr, hl⟩, hsib, hctx⟩, hsub⟩
        exact ⟨hctx, hp, hpar, hl, hr, hsib, hsub⟩

/-- Tree representation only reads the three link arrays at the tree's
own nodes. -/
theorem TreeRepr_congr {s s' : ConstLru K V CAP} {t : Tr} {p : Nat}
    (h : ∀ j ∈ t.nodes, s'.parents j = s.parents j ∧
      s'.lefts j = s.lefts j ∧ s'.rights j = s.rights j) :
    TreeRepr s t p → TreeRepr s' t p := by
  induction t generalizing p with
  | nil => intro; trivial
  | node l i r ihl ihr =>
    intro ht
    obtain ⟨hi, hpar, hl, hr, hresl, hresr⟩ := ht
    have hji : i ∈ (Tr.node l i r).nodes := by simp [Tr.nodes]
    obtain ⟨e1, e2, e3⟩ := h i hji
    refine ⟨hi, e1.trans hpar, e2.trans hl, e3.trans hr, ?_, ?_⟩
    · exact ihl (fun j hj => h j (by simp [Tr.nodes]; tauto)) hresl
    · exact ihr (fun j hj => h j (by simp [Tr.nodes]; tauto)) hresr

/-- Context representation only reads the link arrays at the context's
own indices (frame parents and sibling nodes). -/
theorem CtxOK_congr {s s' : ConstLru K V CAP} {ctx : Ctx} {h0 : Nat}
    (h : ∀ j ∈ ctxA ctx ++ ctxB ctx, s'.parents j = s.parents j ∧
      s'.lefts j = s.lefts j ∧ s'.rights j = s.rights j) :
    CtxOK s ctx h0 → CtxOK s' ctx h0 := by
  induction ctx generalizing h0 with
  | nil => intro; trivial
  | cons fr ctx ih =>
    rcases fr with ⟨d, p, sib⟩
    intro hc
    obtain ⟨hp, hpar, hdir, hsib, hrest⟩ := hc
    have hmem : ∀ j, (j = p ∨ j ∈ sib.nodes ∨ j ∈ ctxA ctx ++ ctxB ctx) →
        j ∈ ctxA ((d, p, sib) :: ctx) ++ ctxB ((d, p, sib) :: ctx) := by
      intro j hj
      cases d <;> simp [ctxA, ctxB] at * <;> tauto
    obtain ⟨e1, e2, e3⟩ := h p (hmem p (Or.inl rfl))
    refine ⟨hp, e1.trans hpar, ?_, ?_, ?_⟩
    · cases d
      · exact ⟨e2.trans hdir.1, e3.trans hdir.2⟩
      · exact ⟨e3.trans hdir.1, e2.trans hdir.2⟩
    · exact TreeRepr_congr (fun j hj => h j (hmem j (Or.inr (Or.inl hj)))) hsib
    · exact ih (fun j hj => h j (hmem j (Or.inr (Or.inr hj)))) hrest

/-- Membership in the index lists of a context grows by the frame's
parent and sibling when a frame is added. -/
theorem mem_ctxAB_cons (d : BstChild) (p : Nat) (sib : Tr) (ctx : Ctx)
    (x : Nat) :
    x ∈ ctxA ((d, p, sib) :: ctx) ++ ctxB ((d, p, sib) :: ctx) ↔
      x = p ∨ x ∈ sib.nodes ∨ x ∈ ctxA ctx ++ ctxB ctx := by
  cases d <;> simp [ctxA, ctxB] <;> tauto

/-- Indices of the context and of the plugged subtree are disjoint in a
duplicate-free tree. -/
theorem ctx_sub_disjoint {ctx : Ctx} {sub : Tr}
    (h : (plug ctx sub).nodes.Nodup) :
    ∀ a ∈ ctxA ctx ++ ctxB ctx, a ∉ sub.nodes := by
  rw [plug_nodes] at h
  rw [List.nodup_append] at h
  obtain ⟨h1, h2, h3⟩ := h
  rw [List.nodup_append] at h1
  obtain ⟨hA, hsub, hAS⟩ := h1
  intro a ha hmem
  rcases List.mem_append.mp ha with hA' | hB'
  · exact hAS hA' hmem
  · exact h3 (List.mem_append.mpr (Or.inr hmem)) hB'

/-- A duplicate-free plugged tree has a duplicate-free context list and
subtree list. -/
theorem nodup_parts {ctx : Ctx} {sub : Tr}
    (h : (plug ctx sub).nodes.Nodup) :
    sub.nodes.Nodup := by
  rw [plug_nodes] at h
  rw [List.nodup_append] at h
  have h1 := h.1
  rw [List.nodup_append] at h1
  exact h1.2.1

/-- A represented node's root index is below CAP. -/
theorem rootIdx_lt_of_repr {s : ConstLru K V CAP} {l : Tr} {i : Nat}
    {r : Tr} {p : Nat} (h : TreeRepr s (Tr.node l i r) p) : i < CAP :=
  h.1

/-- The root index of a nonempty tree is in its node list. -/
theorem rootIdx_mem_nodes {l : Tr} {i : Nat} {r : Tr} :
    i ∈ (Tr.node l i r).nodes := by
  simp [Tr.nodes]

/-- A represented tree whose root index is the sentinel is empty. -/
theorem eq_nil_of_rootIdx_eq {s : ConstLru K V CAP} {t : Tr} {p : Nat}
    (h : TreeRepr s t p) (hr : rootIdx CAP t = CAP) : t = Tr.nil := by
  cases t with
  | nil => rfl
  | node l i r =>
    exfalso
    have : i < CAP := h.1
    simp [rootIdx] at hr
    omega

/-- A represented nonempty tree's root index is not the sentinel. -/
theorem rootIdx_ne_cap {s : ConstLru K V CAP} {l : Tr} {i : Nat} {r : Tr}
    {p : Nat} (h : TreeRepr s (Tr.node l i r) p) : i ≠ CAP := by
  have : i < CAP := h.1
  omega

/-- Plugging a cons context is plugging the wrapped node. -/
theorem plug_cons_left (p : Nat) (sib : Tr) (ctx : Ctx) (sub : Tr) :
    plug ((BstChild.Left, p, sib) :: ctx) sub = plug ctx (Tr.node sub p sib) := rfl

/-- Plugging a cons context is plugging the wrapped node. -/
theorem plug_cons_right (p : Nat) (sib : Tr) (ctx : Ctx) (sub : Tr) :
    plug ((BstChild.Right, p, sib) :: ctx) sub = plug ctx (Tr.node sib p sub) := rfl

/-- Specification of `unlink_bst_node_from_parent` at the focused node of
a represented tree: it returns the parent and hole direction, clears the
parent's child link (producing an empty hole) and the node's parent link
(producing a floating subtree), and touches nothing else. -/
theorem unlink_bst_spec (s : ConstLru K V CAP) (ctx : Ctx) (l r : Tr)
    (n : Nat)
    (hrepr : TreeRepr s (plug ctx (Tr.node l n r)) CAP)
    (hnodup : (plug ctx (Tr.node l n r)).nodes.Nodup) :
    (s.unlink_bst_node_from_parent n).2 = (ctxParent CAP ctx, holeDir ctx) ∧
    CtxOK (s.unlink_bst_node_from_parent n).1 ctx CAP ∧
    TreeRepr (s.unlink_bst_node_from_parent n).1 (Tr.node l n r) CAP ∧
    (s.unlink_bst_node_from_parent n).1.root = s.root ∧
    (∀ j, j ≠ n → (s.unlink_bst_node_from_parent n).1.parents j =
      s.parents j) ∧
    (∀ j, (s.unlink_bst_node_from_parent n).1.lefts j = s.lefts j ∨
          (s.unlink_bst_node_from_parent n).1.lefts j = CAP) ∧
    (∀ j, (s.unlink_bst_node_from_parent n).1.rights j = s.rights j ∨
          (s.unlink_bst_node_from_parent n).1.rights j = CAP) ∧
    (∀ j, j ≠ ctxParent CAP ctx →
      (s.unlink_bst_node_from_parent n).1.lefts j = s.lefts j ∧
      (s.unlink_bst_node_from_parent n).1.rights j = s.rights j) := by
  obtain ⟨hctx, hsub⟩ := (treeRepr_plug_iff s ctx (Tr.node l n r)).mp hrepr
  obtain ⟨hn, hpar, hl, hr, hresl, hresr⟩ := hsub
  have hsubnd : (l.nodes ++ n :: r.nodes).Nodup := nodup_parts hnodup
  rw [List.nodup_append] at hsubnd
  have hnl : n ∉ l.nodes := fun hmem =>
    hsubnd.2.2 hmem (List.mem_cons_self _ _)
  have hnr : n ∉ r.nodes := by
    have hc := hsubnd.2.1
    rw [List.nodup_cons] at hc
    exact hc.1
  cases ctx with
  | nil =>
    simp only [ctxParent] at hpar
    unfold ConstLru.unlink_bst_node_from_parent
    simp only [hpar, if_pos rfl]
    refine ⟨rfl, trivial, ?_, rfl, ?_, ?_, ?_, ?_⟩
    · refine ⟨hn, by simp, by simp [hl], by simp [hr], ?_, ?_⟩
      · refine TreeRepr_congr (fun j hj => ?_) hresl
        have hne : j ≠ n := fun he => hnl (he ▸ hj)
        simp [setF, hne]
      · refine TreeRepr_congr (fun j hj => ?_) hresr
        have hne : j ≠ n := fun he => hnr (he ▸ hj)
        simp [setF, hne]
    · intro j hj
      simp [setF, hj]
    · intro j
      exact Or.inl rfl
    · intro j
      exact Or.inl rfl
    · intro j _
      exact ⟨rfl, rfl⟩
  | cons fr ctx' =>
    rcases fr with ⟨d, p, sib⟩
    obtain ⟨hp, hppar, hdir, hsib, hrest⟩ := hctx
    simp only [ctxParent] at hpar
    have hpne : p ≠ CAP := by omega
    have hdisj : ∀ a ∈ ctxA ((d, p, sib) :: ctx') ++
        ctxB ((d, p, sib) :: ctx'), a ∉ (Tr.node l n r).nodes :=
      ctx_sub_disjoint hnodup
    have hpsub : p ∉ (Tr.node l n r).nodes :=
      hdisj p ((mem_ctxAB_cons d p sib ctx' p).mpr (Or.inl rfl))
    have hpn : p ≠ n := fun he => hpsub (he ▸ rootIdx_mem_nodes)
    have hsibn : ∀ a ∈ sib.nodes, a ≠ n := by
      intro a ha he
      exact hdisj a ((mem_ctxAB_cons d p sib ctx' a).mpr
        (Or.inr (Or.inl ha))) (he ▸ rootIdx_mem_nodes)
    have hctxn : ∀ a ∈ ctxA ctx' ++ ctxB ctx', a ≠ n ∧ a ≠ p := by
      intro a ha
      constructor
      · intro he
        exact hdisj a ((mem_ctxAB_cons d p sib ctx' a).mpr
          (Or.inr (Or.inr ha))) (he ▸ rootIdx_mem_nodes)
      · intro he
        have hin : p ∈ (Tr.node l n r).nodes ∨ p = p ∨ p ∈ sib.nodes := by
          tauto
        have hmid : ∀ m : Tr, p ∈ m.nodes →
            (plug ctx' m).nodes.Nodup →
            (∀ b ∈ ctxA ctx' ++ ctxB ctx', b ≠ p) := by
          intro m hpm hnd b hb hbe
          exact ctx_sub_disjoint hnd b hb (hbe ▸ hpm)
        cases d with
        | Left =>
          have hnd := hnodup
          rw [plug_cons_left] at hnd
          exact hmid (Tr.node (Tr.node l n r) p sib) rootIdx_mem_nodes
            hnd a ha he
        | Right =>
          have hnd := hnodup
          rw [plug_cons_right] at hnd
          exact hmid (Tr.node sib p (Tr.node l n r)) rootIdx_mem_nodes
            hnd a ha he
    have hpsib : p ∉ sib.nodes := by
      cases d with
      | Left =>
        have hnd := hnodup
        rw [plug_cons_left] at hnd
        have hmid : ((Tr.node l n r).nodes ++ p :: sib.nodes).Nodup :=
          nodup_parts hnd
        rw [List.nodup_append] at hmid
        have hc := hmid.2.1
        rw [List.nodup_cons] at hc
        exact hc.1
      | Right =>
        have hnd := hnodup
        rw [plug_cons_right] at hnd
        have hmid : (sib.nodes ++ p :: (Tr.node l n r).nodes).Nodup :=
          nodup_parts hnd
        rw [List.nodup_append] at hmid
        exact fun hmem => hmid.2.2 hmem (List.mem_cons_self _ _)
    have hrootsib : rootIdx CAP sib ≠ n := by
      cases sib with
      | nil =>
        simp only [rootIdx]
        omega
      | node sl si sr =>
        simp only [rootIdx]
        exact hsibn si rootIdx_mem_nodes
    unfold ConstLru.unlink_bst_node_from_parent
    simp only [hpar, if_neg hpne]
    cases d with
    | Left =>
      have hlp : s.lefts p = n := hdir.1
      have hcond :
          ({ s with parents := setF s.parents n CAP } :
            ConstLru K V CAP).lefts p = n := hlp
      rw [if_pos hcond]
      refine ⟨by simp [ctxParent, holeDir], ?_, ?_, rfl, ?_, ?_, ?_, ?_⟩
      · refine ⟨hp, ?_, ⟨by simp, ?_⟩, ?_, ?_⟩
        · simp [setF, hpn, hppar]
        · simp [setF]
          exact hdir.2
        · refine TreeRepr_congr (fun j hj => ?_) hsib
          have h1 : j ≠ n := hsibn j hj
          have h2 : j ≠ p := fun he => hpsib (he ▸ hj)
          simp [setF, h1, h2]
        · refine CtxOK_congr (fun j hj => ?_) hrest
          obtain ⟨h1, h2⟩ := hctxn j hj
          simp [setF, h1, h2]
      · refine ⟨hn, by simp [setF], ?_, ?_, ?_, ?_⟩
        · simp [setF, Ne.symm hpn, hl]
        · simp [setF]
          exact hr
        · refine TreeRepr_congr (fun j hj => ?_) hresl
          have h1 : j ≠ n := fun he => hnl (he ▸ hj)
          have h2 : j ≠ p := fun he => hpsub (by
            simp [Tr.nodes]
            exact Or.inl (he ▸ hj))
          simp [setF, h1, h2]
        · refine TreeRepr_congr (fun j hj => ?_) hresr
          have h1 : j ≠ n := fun he => hnr (he ▸ hj)
          have h2 : j ≠ p := fun he => hpsub (by
            simp [Tr.nodes]
            exact Or.inr (Or.inr (he ▸ hj)))
          simp [setF, h1, h2]
      · intro j hj
        simp [setF, hj]
      · intro j
        by_cases hjp : j = p
        · subst hjp
          simp [setF]
        · simp [setF, hjp]
      · intro j
        exact Or.inl rfl
      · intro j hj
        simp only [ctxParent] at hj
        exact ⟨by simp [setF, hj], rfl⟩
    | Right =>
      have hrp : s.rights p = n := hdir.1
      have hlpsib : s.lefts p = rootIdx CAP sib := hdir.2
      have hcond :
          ¬ ({ s with parents := setF s.parents n CAP } :
            ConstLru K V CAP).lefts p = n := by
        show ¬ s.lefts p = n
        rw [hlpsib]
        exact hrootsib
      rw [if_neg hcond]
      refine ⟨by simp [ctxParent, holeDir], ?_, ?_, rfl, ?_, ?_, ?_, ?_⟩
      · refine ⟨hp, ?_, ⟨by simp, ?_⟩, ?_, ?_⟩
        · simp [setF, hpn, hppar]
        · simp [setF]
          exact hlpsib
        · refine TreeRepr_congr (fun j hj => ?_) hsib
          have h1 : j ≠ n := hsibn j hj
          have h2 : j ≠ p := fun he => hpsib (he ▸ hj)
          simp [setF, h1, h2]
        · refine CtxOK_congr (fun j hj => ?_) hrest
          obtain ⟨h1, h2⟩ := hctxn j hj
          simp [setF, h1, h2]
      · refine ⟨hn, by simp [setF], ?_, ?_, ?_, ?_⟩
        · simp [setF]
          exact hl
        · simp [setF, Ne.symm hpn, hr]
        · refine TreeRepr_congr (fun j hj => ?_) hresl
          have h1 : j ≠ n := fun he => hnl (he ▸ hj)
          have h2 : j ≠ p := fun he => hpsub (by
            simp [Tr.nodes]
            exact Or.inl (he ▸ hj))
          simp [setF, h1, h2]
        · refine TreeRepr_congr (fun j hj => ?_) hresr
          have h1 : j ≠ n := fun he => hnr (he ▸ hj)
          have h2 : j ≠ p := fun he => hpsub (by
            simp [Tr.nodes]
            exact Or.inr (Or.inr (he ▸ hj)))
          simp [setF, h1, h2]
      · intro j hj
        simp [setF, hj]
      · intro j
        exact Or.inl rfl
      · intro j
        by_cases hjp : j = p
        · subst hjp
          simp [setF]
        · simp [setF, hjp]
      · intro j hj
        simp only [ctxParent] at hj
        exact ⟨rfl, by simp [setF, hj]⟩

/-- Every node index of a represented tree is below CAP. -/
theorem mem_nodes_lt {s : ConstLru K V CAP} {t : Tr} {p : Nat}
    (h : TreeRepr s t p) : ∀ j ∈ t.nodes, j < CAP := by
  induction t generalizing p with
  | nil => intro j hj; cases hj
  | node l i r ihl ihr =>
    obtain ⟨hi, _, _, _, hrl, hrr⟩ := h
    intro j hj
    have : j ∈ l.nodes ∨ j = i ∨ j ∈ r.nodes := by
      simpa [Tr.nodes] using hj
    rcases this with h1 | h2 | h3
    · exact ihl hrl j h1
    · omega
    · exact ihr hrr j h3

/-- The combined context index list of a cons context is a permutation
of the frame parent, the sibling nodes, and the outer context indices. -/
theorem ctxAB_cons_perm (d : BstChild) (p : Nat) (sib : Tr) (ctx : Ctx) :
    (ctxA ((d, p, sib) :: ctx) ++ ctxB ((d, p, sib) :: ctx)).Perm
      (p :: (sib.nodes ++ (ctxA ctx ++ ctxB ctx))) := by
  have hstep : ∀ A B C : List Nat, ((A ++ C) ++ B).Perm (C ++ (A ++ B)) := by
    intro A B C
    have h1 : ((A ++ C) ++ B).Perm ((C ++ A) ++ B) :=
      List.Perm.append_right B List.perm_append_comm
    exact List.append_assoc C A B ▸ h1
  cases d with
  | Left =>
    have h1 : ctxA ((BstChild.Left, p, sib) :: ctx) ++
        ctxB ((BstChild.Left, p, sib) :: ctx) =
        ctxA ctx ++ p :: (sib.nodes ++ ctxB ctx) := by
      simp [ctxA, ctxB]
    rw [h1]
    refine List.Perm.trans List.perm_middle (List.Perm.cons p ?_)
    have h3 := hstep (ctxA ctx) (ctxB ctx) sib.nodes
    rw [List.append_assoc] at h3
    exact h3
  | Right =>
    have h1 : ctxA ((BstChild.Right, p, sib) :: ctx) ++
        ctxB ((BstChild.Right, p, sib) :: ctx) =
        (ctxA ctx ++ sib.nodes) ++ p :: ctxB ctx := by
      simp [ctxA, ctxB]
    rw [h1]
    refine List.Perm.trans List.perm_middle (List.Perm.cons p ?_)
    exact hstep (ctxA ctx) (ctxB ctx) sib.nodes

/-- The context index list of a duplicate-free plugged tree is
duplicate-free. -/
theorem nodup_ctxAB {ctx : Ctx} {sub : Tr}
    (h : (plug ctx sub).nodes.Nodup) : (ctxA ctx ++ ctxB ctx).Nodup := by
  rw [plug_nodes] at h
  rw [List.nodup_append] at h
  obtain ⟨h1, h2, h3⟩ := h
  rw [List.nodup_append] at h1
  obtain ⟨hA, _, _⟩ := h1
  rw [List.nodup_append]
  refine ⟨hA, h2, ?_⟩
  intro a ha hb
  exact h3 (List.mem_append.mpr (Or.inl ha)) hb

/-- Unpacking duplicate-freeness of a cons context. -/
theorem nodup_ctxAB_cons {d : BstChild} {p : Nat} {sib : Tr} {ctx : Ctx}
    (h : (ctxA ((d, p, sib) :: ctx) ++ ctxB ((d, p, sib) :: ctx)).Nodup) :
    p ∉ sib.nodes ∧ (∀ a ∈ sib.nodes, a ∉ ctxA ctx ++ ctxB ctx) ∧
      p ∉ ctxA ctx ++ ctxB ctx ∧ (ctxA ctx ++ ctxB ctx).Nodup := by
  have hperm := ctxAB_cons_perm d p sib ctx
  have h2 := hperm.nodup_iff.mp h
  rw [List.nodup_cons] at h2
  obtain ⟨hp, h3⟩ := h2
  rw [List.nodup_append] at h3
  refine ⟨fun hm => hp (List.mem_append.mpr (Or.inl hm)), ?_, ?_, h3.2.1⟩
  · intro a ha
    exact h3.2.2 ha
  · intro hm
    exact hp (List.mem_append.mpr (Or.inr hm))

/-- Specification of `insert_bst_node`: attaching a floating subtree (or
the empty tree) at the hole of a represented context re-establishes the
representation of the plugged tree; the root field is redirected exactly
when the context is empty; nothing else moves. -/
theorem insert_bst_spec (s : ConstLru K V CAP) (ctx : Ctx) (sub : Tr)
    (d : BstChild) (h0 q : Nat)
    (hctx : CtxOK s ctx h0)
    (hsub : TreeRepr s sub q)
    (hsubnd : sub.nodes.Nodup)
    (hABnd : (ctxA ctx ++ ctxB ctx).Nodup)
    (hdir : ctx ≠ [] → d = holeDir ctx)
    (hdisj : ∀ a ∈ ctxA ctx ++ ctxB ctx, a ∉ sub.nodes) :
    CtxOK (s.insert_bst_node (rootIdx CAP sub) (ctxParent CAP ctx, d)) ctx
      (rootIdx CAP sub) ∧
    TreeRepr (s.insert_bst_node (rootIdx CAP sub) (ctxParent CAP ctx, d))
      sub (ctxParent CAP ctx) ∧
    (ctx = [] →
      (s.insert_bst_node (rootIdx CAP sub) (ctxParent CAP ctx, d)).root =
        rootIdx CAP sub) ∧
    (ctx ≠ [] →
      (s.insert_bst_node (rootIdx CAP sub) (ctxParent CAP ctx, d)).root =
        s.root) ∧
    (∀ j, j ≠ rootIdx CAP sub →
      (s.insert_bst_node (rootIdx CAP sub) (ctxParent CAP ctx, d)).parents j =
        s.parents j) ∧
    (∀ j, j ≠ ctxParent CAP ctx →
      (s.insert_bst_node (rootIdx CAP sub) (ctxParent CAP ctx, d)).lefts j =
        s.lefts j ∧
      (s.insert_bst_node (rootIdx CAP sub) (ctxParent CAP ctx, d)).rights j =
        s.rights j) ∧
    (ctx = [] →
      (s.insert_bst_node (rootIdx CAP sub) (ctxParent CAP ctx, d)).lefts =
        s.lefts ∧
      (s.insert_bst_node (rootIdx CAP sub) (ctxParent CAP ctx, d)).rights =
        s.rights) := by
  have hsubrepr : ∀ s' : ConstLru K V CAP,
      (∀ j ∈ sub.nodes, j ≠ rootIdx CAP sub → s'.parents j = s.parents j) →
      (∀ j ∈ sub.nodes, s'.lefts j = s.lefts j ∧ s'.rights j = s.rights j) →
      (sub ≠ Tr.nil → s'.parents (rootIdx CAP sub) = ctxParent CAP ctx) →
      TreeRepr s' sub (ctxParent CAP ctx) := by
    intro s' hpar hlr hroot
    cases sub with
    | nil => trivial
    | node sl si sr =>
      obtain ⟨hsi, _, hsl, hsr, hrl, hrr⟩ := hsub
      have hnd : (sl.nodes ++ si :: sr.nodes).Nodup := hsubnd
      rw [List.nodup_append] at hnd
      have hsil : si ∉ sl.nodes := fun hmem =>
        hnd.2.2 hmem (List.mem_cons_self _ _)
      have hsir : si ∉ sr.nodes := by
        have hc := hnd.2.1
        rw [List.nodup_cons] at hc
        exact hc.1
      refine ⟨hsi, hroot (by intro h; cases h), ?_, ?_, ?_, ?_⟩
      · rw [(hlr si rootIdx_mem_nodes).1, hsl]
      · rw [(hlr si rootIdx_mem_nodes).2, hsr]
      · refine TreeRepr_congr (fun j hj => ?_) hrl
        have hjsub : j ∈ (Tr.node sl si sr).nodes := by
          simp [Tr.nodes]
          exact Or.inl hj
        have hne : j ≠ si := fun he => hsil (he ▸ hj)
        exact ⟨hpar j hjsub hne, (hlr j hjsub).1, (hlr j hjsub).2⟩
      · refine TreeRepr_congr (fun j hj => ?_) hrr
        have hjsub : j ∈ (Tr.node sl si sr).nodes := by
          simp [Tr.nodes]
          exact Or.inr (Or.inr hj)
        have hne : j ≠ si := fun he => hsir (he ▸ hj)
        exact ⟨hpar j hjsub hne, (hlr j hjsub).1, (hlr j hjsub).2⟩
  cases ctx with
  | nil =>
    cases hs : sub with
    | nil =>
      subst hs
      simp only [ConstLru.insert_bst_node, ctxParent, holeDir]
      simp only [ctxParent, rootIdx]
      rw [if_neg (not_not_intro rfl), if_pos trivial]
      exact ⟨trivial, trivial, fun _ => rfl, fun h => absurd rfl h,
        fun j _ => rfl, fun j _ => ⟨rfl, rfl⟩, fun _ => ⟨rfl, rfl⟩⟩
    | node sl si sr =>
      subst hs
      have hsi : si < CAP := hsub.1
      simp only [ConstLru.insert_bst_node, ctxParent, holeDir]
      simp only [ctxParent, rootIdx]
      have hsine : si ≠ CAP := by omega
      rw [if_pos hsine, if_pos trivial]
      refine ⟨trivial, ?_, fun _ => rfl, fun h => absurd rfl h,
        ?_, fun j _ => ⟨rfl, rfl⟩, fun _ => ⟨rfl, rfl⟩⟩
      · refine hsubrepr _ ?_ ?_ ?_
        · intro j _ hne
          simp [setF, show j ≠ si from hne]
        · intro j _
          exact ⟨rfl, rfl⟩
        · intro _
          simp only [rootIdx, ctxParent]
          simp [setF]
      · intro j hj
        simp [setF, show j ≠ si from hj]
  | cons fr ctx' =>
    rcases fr with ⟨d0, p, sib⟩
    obtain ⟨hp, hppar, hdirc, hsibr, hrest⟩ := hctx
    obtain ⟨hpsib, hsibout, hpout, hABnd'⟩ := nodup_ctxAB_cons hABnd
    have hd : d = d0 := by
      have := hdir (by simp)
      simpa [holeDir] using this
    subst hd
    have hpsubn : p ∉ sub.nodes :=
      hdisj p ((mem_ctxAB_cons d p sib ctx' p).mpr (Or.inl rfl))
    have hpne : p ≠ CAP := by omega
    have hsibsub : ∀ j ∈ sib.nodes, j ∉ sub.nodes := fun j hj =>
      hdisj j ((mem_ctxAB_cons d p sib ctx' j).mpr (Or.inr (Or.inl hj)))
    have houtsub : ∀ j ∈ ctxA ctx' ++ ctxB ctx', j ∉ sub.nodes := fun j hj =>
      hdisj j ((mem_ctxAB_cons d p sib ctx' j).mpr (Or.inr (Or.inr hj)))
    by_cases hroot : rootIdx CAP sub = CAP
    · have hsubnil : sub = Tr.nil := eq_nil_of_rootIdx_eq hsub hroot
      subst hsubnil
      simp only [rootIdx]
      cases d with
      | Left =>
        simp only [ConstLru.insert_bst_node, ctxParent, holeDir]
        have hcap : ¬ ((CAP : Nat) ≠ CAP) := fun h => h rfl
        simp only [if_neg hcap, if_neg hpne]
        refine ⟨⟨hp, hppar, ⟨by simp, ?_⟩, ?_, ?_⟩, trivial,
          fun h => List.noConfusion h, fun _ => trivial, fun j _ => trivial,
          ?_, fun h => List.noConfusion h⟩
        · simp [setF]
          exact hdirc.2
        · refine TreeRepr_congr (fun j hj => ?_) hsibr
          have h2 : j ≠ p := fun he => hpsib (he ▸ hj)
          simp [setF, h2]
        · refine CtxOK_congr (fun j hj => ?_) hrest
          have h2 : j ≠ p := fun he => hpout (he ▸ hj)
          simp [setF, h2]
        · intro j hj
          simp [setF, hj]
      | Right =>
        simp only [ConstLru.insert_bst_node, ctxParent, holeDir]
        have hcap : ¬ ((CAP : Nat) ≠ CAP) := fun h => h rfl
        simp only [if_neg hcap, if_neg hpne]
        refine ⟨⟨hp, hppar, ⟨by simp, ?_⟩, ?_, ?_⟩, trivial,
          fun h => List.noConfusion h, fun _ => trivial, fun j _ => trivial,
          ?_, fun h => List.noConfusion h⟩
        · simp [setF]
          exact hdirc.2
        · refine TreeRepr_congr (fun j hj => ?_) hsibr
          have h2 : j ≠ p := fun he => hpsib (he ▸ hj)
          simp [setF, h2]
        · refine CtxOK_congr (fun j hj => ?_) hrest
          have h2 : j ≠ p := fun he => hpout (he ▸ hj)
          simp [setF, h2]
        · intro j hj
          simp [setF, hj]
    · have hrootmem : rootIdx CAP sub ∈ sub.nodes := by
        cases sub with
        | nil => exact absurd rfl hroot
        | node sl si sr => exact rootIdx_mem_nodes
      have hpnroot : p ≠ rootIdx CAP sub :=
        fun he => hpsubn (he ▸ hrootmem)
      cases d with
      | Left =>
        simp only [ConstLru.insert_bst_node, ctxParent, holeDir]
        simp only [if_pos hroot, if_neg hpne]
        refine ⟨⟨hp, ?_, ⟨by simp, ?_⟩, ?_, ?_⟩, ?_,
          fun h => List.noConfusion h, fun _ => trivial, ?_,
          ?_, fun h => List.noConfusion h⟩
        · simp [setF, hpnroot, hppar]
        · simp [setF]
          exact hdirc.2
        · refine TreeRepr_congr (fun j hj => ?_) hsibr
          have h1 : j ≠ rootIdx CAP sub :=
            fun he => hsibsub j hj (he ▸ hrootmem)
          have h2 : j ≠ p := fun he => hpsib (he ▸ hj)
          simp [setF, h1, h2]
        · refine CtxOK_congr (fun j hj => ?_) hrest
          have h1 : j ≠ rootIdx CAP sub :=
            fun he => houtsub j hj (he ▸ hrootmem)
          have h2 : j ≠ p := fun he => hpout (he ▸ hj)
          simp [setF, h1, h2]
        · refine hsubrepr _ ?_ ?_ ?_
          · intro j hjs hne
            simp [setF, hne]
          · intro j hjs
            have h2 : j ≠ p := fun he => hpsubn (he ▸ hjs)
            exact ⟨by simp [setF, h2], rfl⟩
          · intro _
            simp only [ctxParent]
            simp [setF]
        · intro j hj
          simp [setF, hj]
        · intro j hj
          exact ⟨by simp [setF, hj], trivial⟩
      | Right =>
        simp only [ConstLru.insert_bst_node, ctxParent, holeDir]
        simp only [if_pos hroot, if_neg hpne]
        refine ⟨⟨hp, ?_, ⟨by simp, ?_⟩, ?_, ?_⟩, ?_,
          fun h => List.noConfusion h, fun _ => trivial, ?_,
          ?_, fun h => List.noConfusion h⟩
        · simp [setF, hpnroot, hppar]
        · simp [setF]
          exact hdirc.2
        · refine TreeRepr_congr (fun j hj => ?_) hsibr
          have h1 : j ≠ rootIdx CAP sub :=
            fun he => hsibsub j hj (he ▸ hrootmem)
          have h2 : j ≠ p := fun he => hpsib (he ▸ hj)
          simp [setF, h1, h2]
        · refine CtxOK_congr (fun j hj => ?_) hrest
          have h1 : j ≠ rootIdx CAP sub :=
            fun he => houtsub j hj (he ▸ hrootmem)
          have h2 : j ≠ p := fun he => hpout (he ▸ hj)
          simp [setF, h1, h2]
        · refine hsubrepr _ ?_ ?_ ?_
          · intro j hjs hne
            simp [setF, hne]
          · intro j hjs
            have h2 : j ≠ p := fun he => hpsubn (he ▸ hjs)
            exact ⟨rfl, by simp [setF, h2]⟩
          · intro _
            simp only [ctxParent]
            simp [setF]
        · intro j hj
          simp [setF, hj]
        · intro j hj
          exact ⟨trivial, by simp [setF, hj]⟩

@[simp] theorem insert_bst_node_rbColors (s : ConstLru K V CAP) (n : Nat)
    (pi : Nat × BstChild) :
    (s.insert_bst_node n pi).rbColors = s.rbColors := by
  unfold ConstLru.insert_bst_node
  dsimp only
  split <;> split <;> first | rfl | (split <;> rfl)

@[simp] theorem unlink_bst_fst_rbColors (s : ConstLru K V CAP) (n : Nat) :
    (s.unlink_bst_node_from_parent n).1.rbColors = s.rbColors := by
  unfold ConstLru.unlink_bst_node_from_parent
  dsimp only
  split
  · rfl
  · split <;> rfl

@[simp] theorem left_rotate_rbColors (s : ConstLru K V CAP) (i : Nat) :
    (s.left_rotate i).rbColors = s.rbColors := by
  unfold ConstLru.left_rotate
  dsimp only
  split <;> simp

@[simp] theorem right_rotate_rbColors (s : ConstLru K V CAP) (i : Nat) :
    (s.right_rotate i).rbColors = s.rbColors := by
  unfold ConstLru.right_rotate
  dsimp only
  split <;> simp

@[simp] theorem left_right_rotate_rbColors (s : ConstLru K V CAP) (i : Nat) :
    (s.left_right_rotate i).rbColors = s.rbColors := by
  unfold ConstLru.left_right_rotate
  simp

@[simp] theorem right_left_rotate_rbColors (s : ConstLru K V CAP) (i : Nat) :
    (s.right_left_rotate i).rbColors = s.rbColors := by
  unfold ConstLru.right_left_rotate
  simp

/-- Plugging a subtree with a node sublist keeps duplicate-freeness. -/
theorem nodup_plug_of_sublist {ctx : Ctx} {sub sub' : Tr}
    (hsl : sub'.nodes.Sublist sub.nodes)
    (h : (plug ctx sub).nodes.Nodup) : (plug ctx sub').nodes.Nodup := by
  rw [plug_nodes] at h ⊢
  refine List.Nodup.sublist ?_ h
  exact ((hsl.append_left (ctxA ctx)).append_right (ctxB ctx))

/-- Unpacking duplicate-freeness of the two-level node list that appears
in the rotation proofs. -/
theorem nodup_node2_facts {A B C : List Nat} {g rr : Nat}
    (h : (A ++ g :: (B ++ rr :: C)).Nodup) :
    g ∉ A ∧ g ∉ B ∧ g ∉ C ∧ g ≠ rr ∧ rr ∉ A ∧ rr ∉ B ∧ rr ∉ C ∧
      (∀ a ∈ A, a ∉ B) ∧ (∀ a ∈ A, a ∉ C) ∧ (∀ a ∈ B, a ∉ C) ∧
      A.Nodup ∧ B.Nodup ∧ C.Nodup := by
  rw [List.nodup_append] at h
  obtain ⟨hA, h1, dA⟩ := h
  rw [List.nodup_cons] at h1
  obtain ⟨hg, h2⟩ := h1
  rw [List.nodup_append] at h2
  obtain ⟨hB, h3, dB⟩ := h2
  rw [List.nodup_cons] at h3
  obtain ⟨hrrC, hC⟩ := h3
  refine ⟨?_, ?_, ?_, ?_, ?_, ?_, hrrC, ?_, ?_, ?_, hA, hB, hC⟩
  · exact fun hm => dA hm (List.mem_cons_self _ _)
  · exact fun hm => hg (List.mem_append.mpr (Or.inl hm))
  · exact fun hm =>
      hg (List.mem_append.mpr (Or.inr (List.mem_cons_of_mem _ hm)))
  · exact fun he =>
      hg (List.mem_append.mpr (Or.inr (he ▸ List.mem_cons_self _ _)))
  · exact fun hm => dA hm (List.mem_cons_of_mem _
      (List.mem_append.mpr (Or.inr (List.mem_cons_self _ _))))
  · exact fun hm => dB hm (List.mem_cons_self _ _)
  · exact fun a ha hb => dA ha (List.mem_cons_of_mem _
      (List.mem_append.mpr (Or.inl hb)))
  · exact fun a ha hc => dA ha (List.mem_cons_of_mem _
      (List.mem_append.mpr (Or.inr (List.mem_cons_of_mem _ hc))))
  · exact fun a ha hc => dB ha (List.mem_cons_of_mem _ hc)

/-- Every index recorded in a context is a real slot. -/
theorem ctx_mem_lt {s : ConstLru K V CAP} {ctx : Ctx} {h0 : Nat}
    (hc : CtxOK s ctx h0) : ∀ a ∈ ctxA ctx ++ ctxB ctx, a < CAP := by
  induction ctx generalizing h0 with
  | nil => intro a ha; simp [ctxA, ctxB] at ha
  | cons fr ctx ih =>
    rcases fr with ⟨d, p, sib⟩
    obtain ⟨hp, _, _, hsib, hrest⟩ := hc
    intro a ha
    rcases (mem_ctxAB_cons d p sib ctx a).mp ha with rfl | h | h
    · exact hp
    · exact mem_nodes_lt hsib a h
    · exact ih hrest a h

/-- The parent at the hole is the sentinel or one of the context's own
indices. -/
theorem ctxParent_mem (CAP : Nat) (ctx : Ctx) :
    ctxParent CAP ctx = CAP ∨
      ctxParent CAP ctx ∈ ctxA ctx ++ ctxB ctx := by
  cases ctx with
  | nil => exact Or.inl rfl
  | cons fr ctx' =>
    rcases fr with ⟨d, p, sib⟩
    exact Or.inr ((mem_ctxAB_cons d p sib ctx' p).mpr (Or.inl rfl))

/-- Steps two to six of `left_rotate` (everything after the conditional
unlinking of the inner subtree): starting from a state where the inner
subtree B floats free and the hole at its old position is empty, the
remaining unlink and attach calls rebuild the rotated tree. -/
theorem left_rotate_steps (s1 : ConstLru K V CAP) (ctx : Ctx) (A : Tr)
    (g : Nat) (B : Tr) (rr : Nat) (C : Tr)
    (hctx1 : CtxOK s1
      ((BstChild.Left, rr, C) :: (BstChild.Right, g, A) :: ctx) CAP)
    (hBfl : TreeRepr s1 B CAP)
    (hnodup : (plug ctx (Tr.node A g (Tr.node B rr C))).nodes.Nodup) :
    (TreeRepr
      (((((s1.unlink_bst_node_from_parent rr).1.unlink_bst_node_from_parent
            g).1.insert_bst_node rr
          (((s1.unlink_bst_node_from_parent rr).1.unlink_bst_node_from_parent
            g).2)).insert_bst_node (rootIdx CAP B)
          (g, BstChild.Right)).insert_bst_node g (rr, BstChild.Left))
      (plug ctx (Tr.node (Tr.node A g B) rr C)) CAP) ∧
    (ctx = [] →
      (((((s1.unlink_bst_node_from_parent rr).1.unlink_bst_node_from_parent
            g).1.insert_bst_node rr
          (((s1.unlink_bst_node_from_parent rr).1.unlink_bst_node_from_parent
            g).2)).insert_bst_node (rootIdx CAP B)
          (g, BstChild.Right)).insert_bst_node g (rr, BstChild.Left)).root =
        rr) ∧
    (ctx ≠ [] →
      (((((s1.unlink_bst_node_from_parent rr).1.unlink_bst_node_from_parent
            g).1.insert_bst_node rr
          (((s1.unlink_bst_node_from_parent rr).1.unlink_bst_node_from_parent
            g).2)).insert_bst_node (rootIdx CAP B)
          (g, BstChild.Right)).insert_bst_node g (rr, BstChild.Left)).root =
        s1.root) ∧
    (∀ j, j ∉ (plug ctx (Tr.node A g (Tr.node B rr C))).nodes → j ≠ CAP →
      (((((s1.unlink_bst_node_from_parent rr).1.unlink_bst_node_from_parent
            g).1.insert_bst_node rr
          (((s1.unlink_bst_node_from_parent rr).1.unlink_bst_node_from_parent
            g).2)).insert_bst_node (rootIdx CAP B)
          (g, BstChild.Right)).insert_bst_node g
          (rr, BstChild.Left)).parents j = s1.parents j ∧
      (((((s1.unlink_bst_node_from_parent rr).1.unlink_bst_node_from_parent
            g).1.insert_bst_node rr
          (((s1.unlink_bst_node_from_parent rr).1.unlink_bst_node_from_parent
            g).2)).insert_bst_node (rootIdx CAP B)
          (g, BstChild.Right)).insert_bst_node g
          (rr, BstChild.Left)).lefts j = s1.lefts j ∧
      (((((s1.unlink_bst_node_from_parent rr).1.unlink_bst_node_from_parent
            g).1.insert_bst_node rr
          (((s1.unlink_bst_node_from_parent rr).1.unlink_bst_node_from_parent
            g).2)).insert_bst_node (rootIdx CAP B)
          (g, BstChild.Right)).insert_bst_node g
          (rr, BstChild.Left)).rights j = s1.rights j) ∧
    ((((((s1.unlink_bst_node_from_parent rr).1.unlink_bst_node_from_parent
            g).1.insert_bst_node rr
          (((s1.unlink_bst_node_from_parent rr).1.unlink_bst_node_from_parent
            g).2)).insert_bst_node (rootIdx CAP B)
          (g, BstChild.Right)).insert_bst_node g
          (rr, BstChild.Left)).lefts CAP = s1.lefts CAP ∨
      (((((s1.unlink_bst_node_from_parent rr).1.unlink_bst_node_from_parent
            g).1.insert_bst_node rr
          (((s1.unlink_bst_node_from_parent rr).1.unlink_bst_node_from_parent
            g).2)).insert_bst_node (rootIdx CAP B)
          (g, BstChild.Right)).insert_bst_node g
          (rr, BstChild.Left)).lefts CAP = CAP) ∧
    ((((((s1.unlink_bst_node_from_parent rr).1.unlink_bst_node_from_parent
            g).1.insert_bst_node rr
          (((s1.unlink_bst_node_from_parent rr).1.unlink_bst_node_from_parent
            g).2)).insert_bst_node (rootIdx CAP B)
          (g, BstChild.Right)).insert_bst_node g
          (rr, BstChild.Left)).rights CAP = s1.rights CAP ∨
      (((((s1.unlink_bst_node_from_parent rr).1.unlink_bst_node_from_parent
            g).1.insert_bst_node rr
          (((s1.unlink_bst_node_from_parent rr).1.unlink_bst_node_from_parent
            g).2)).insert_bst_node (rootIdx CAP B)
          (g, BstChild.Right)).insert_bst_node g
          (rr, BstChild.Left)).rights CAP = CAP) := by
  obtain ⟨hrrlt, hrrparg, hdir1, hCrep, hctx2⟩ := hctx1
  obtain ⟨hglt, hgparctx, hdir2, hArep, hctxg⟩ := hctx2
  obtain ⟨hrrlCAP, hrrrC⟩ := hdir1
  obtain ⟨hgrrr, hglA⟩ := hdir2
  have hnd0 : (A.nodes ++ g :: (B.nodes ++ rr :: C.nodes)).Nodup :=
    nodup_parts hnodup
  obtain ⟨hgA, hgB, hgC, hgrr, hrrA, hrrB, hrrC2, hAB, hAC, hBC,
    hAnd, hBnd, hCnd⟩ := nodup_node2_facts hnd0
  have hdisjAB : ∀ a ∈ ctxA ctx ++ ctxB ctx,
      a ∉ (Tr.node A g (Tr.node B rr C)).nodes := ctx_sub_disjoint hnodup
  have hABnd0 : (ctxA ctx ++ ctxB ctx).Nodup := nodup_ctxAB hnodup
  have hmemsub : ∀ j, j ∈ (Tr.node A g (Tr.node B rr C)).nodes ↔
      (j ∈ A.nodes ∨ j = g ∨ j ∈ B.nodes ∨ j = rr ∨ j ∈ C.nodes) := by
    intro j
    simp [Tr.nodes]
  have hsublt : ∀ j, j ∈ (Tr.node A g (Tr.node B rr C)).nodes → j < CAP := by
    intro j hj
    rcases (hmemsub j).mp hj with h | h | h | h | h
    · exact mem_nodes_lt hArep j h
    · omega
    · exact mem_nodes_lt hBfl j h
    · omega
    · exact mem_nodes_lt hCrep j h
  have hcpfact : ∀ j, j ∈ (Tr.node A g (Tr.node B rr C)).nodes →
      j ≠ ctxParent CAP ctx := by
    intro j hj he
    rcases ctxParent_mem CAP ctx with h | h
    · have := hsublt j hj
      omega
    · exact hdisjAB _ (he ▸ h) hj
  have hrootBmem : B ≠ Tr.nil → rootIdx CAP B ∈ B.nodes := by
    intro hne
    cases B with
    | nil => exact absurd rfl hne
    | node bl bi br => exact rootIdx_mem_nodes
  have hneBroot : ∀ j, j ∉ B.nodes → j ≠ CAP → j ≠ rootIdx CAP B := by
    intro j hjB hjC he
    cases B with
    | nil => exact hjC (by simpa [rootIdx] using he)
    | node bl bi br => exact hjB (he ▸ rootIdx_mem_nodes)
  -- step 2: unlink rr
  have hrepr2 : TreeRepr s1
      (plug ((BstChild.Right, g, A) :: ctx) (Tr.node Tr.nil rr C)) CAP := by
    refine (treeRepr_plug_iff s1 _ _).mpr ⟨?_, ?_⟩
    · exact ⟨hglt, hgparctx, ⟨hgrrr, hglA⟩, hArep, hctxg⟩
    · exact ⟨hrrlt, hrrparg, hrrlCAP, hrrrC, trivial, hCrep⟩
  have hnodup2 : (plug ((BstChild.Right, g, A) :: ctx)
      (Tr.node Tr.nil rr C)).nodes.Nodup := by
    refine @nodup_plug_of_sublist ((BstChild.Right, g, A) :: ctx)
      (Tr.node B rr C) _ ?_ hnodup
    show (Tr.nil.nodes ++ rr :: C.nodes).Sublist (B.nodes ++ rr :: C.nodes)
    exact List.sublist_append_right B.nodes (rr :: C.nodes)
  obtain ⟨hret2, hctxok2, hfl2, hroot2, hpar2, hLor2, hRor2, hchild2⟩ :=
    unlink_bst_spec s1 ((BstChild.Right, g, A) :: ctx) Tr.nil C rr
      hrepr2 hnodup2
  have hBfl2 : TreeRepr (s1.unlink_bst_node_from_parent rr).1 B CAP := by
    refine TreeRepr_congr (fun j hj => ?_) hBfl
    have h1 : j ≠ rr := fun he => hrrB (he ▸ hj)
    have h2 : j ≠ g := fun he => hgB (he ▸ hj)
    have h3 := hchild2 j (by
      show j ≠ ctxParent CAP ((BstChild.Right, g, A) :: ctx)
      simpa [ctxParent] using h2)
    exact ⟨hpar2 j h1, h3.1, h3.2⟩
  set s2v := (s1.unlink_bst_node_from_parent rr).1 with hs2v
  have hABlt : ∀ a ∈ ctxA ctx ++ ctxB ctx, a < CAP := ctx_mem_lt hctxg
  have hcpne : ctx ≠ [] → ctxParent CAP ctx ≠ CAP := by
    intro hne
    cases ctx with
    | nil => exact absurd rfl hne
    | cons fr ctx' =>
      rcases fr with ⟨d, p, sib⟩
      have hp : p < CAP := hctxg.1
      intro he
      simp [ctxParent] at he
      omega
  -- step 3: unlink g
  obtain ⟨hglt2, hgpar2, hdir2b, hArep2, hctxg2⟩ := hctxok2
  obtain ⟨hgr2, hgl2⟩ := hdir2b
  have hrepr3 : TreeRepr s2v (plug ctx (Tr.node A g Tr.nil)) CAP := by
    refine (treeRepr_plug_iff s2v ctx (Tr.node A g Tr.nil)).mpr ⟨?_, ?_⟩
    · exact hctxg2
    · exact ⟨hglt2, hgpar2, hgl2, hgr2, hArep2, trivial⟩
  have hnodup3 : (plug ctx (Tr.node A g Tr.nil)).nodes.Nodup := by
    refine @nodup_plug_of_sublist ctx (Tr.node A g (Tr.node B rr C)) _ ?_
      hnodup
    show (A.nodes ++ g :: ([] : List Nat)).Sublist
      (A.nodes ++ g :: (B.nodes ++ rr :: C.nodes))
    exact (List.Sublist.cons₂ g (List.nil_sublist _)).append_left A.nodes
  obtain ⟨hret3, hctxok3, hfl3, hroot3, hpar3, hLor3, hRor3, hchild3⟩ :=
    unlink_bst_spec s2v ctx A Tr.nil g hrepr3 hnodup3
  rw [hret3]
  set s3v := (s2v.unlink_bst_node_from_parent g).1 with hs3v
  have hBfl3 : TreeRepr s3v B CAP := by
    refine TreeRepr_congr (fun j hj => ?_) hBfl2
    have h1 : j ≠ g := fun he => hgB (he ▸ hj)
    have h2 : j ≠ ctxParent CAP ctx :=
      hcpfact j ((hmemsub j).mpr (Or.inr (Or.inr (Or.inl hj))))
    exact ⟨hpar3 j h1, (hchild3 j h2).1, (hchild3 j h2).2⟩
  have hrrfl3 : TreeRepr s3v (Tr.node Tr.nil rr C) CAP := by
    refine TreeRepr_congr (fun j hj => ?_) hfl2
    have hj' : j = rr ∨ j ∈ C.nodes := by simpa [Tr.nodes] using hj
    have h1 : j ≠ g := by
      rcases hj' with rfl | h
      · exact fun he => hgrr he.symm
      · exact fun he => hgC (he ▸ h)
    have h2 : j ≠ ctxParent CAP ctx := by
      refine hcpfact j ((hmemsub j).mpr ?_)
      rcases hj' with rfl | h
      · exact Or.inr (Or.inr (Or.inr (Or.inl rfl)))
      · exact Or.inr (Or.inr (Or.inr (Or.inr h)))
    exact ⟨hpar3 j h1, (hchild3 j h2).1, (hchild3 j h2).2⟩
  -- step 4: reattach rr (with C) at the original hole
  have hsubnd4 : (Tr.node Tr.nil rr C).nodes.Nodup := by
    simp only [Tr.nodes, List.nil_append, List.nodup_cons]
    exact ⟨hrrC2, hCnd⟩
  have hdisj4 : ∀ a ∈ ctxA ctx ++ ctxB ctx,
      a ∉ (Tr.node Tr.nil rr C).nodes := by
    intro a ha hmem
    have hm : a = rr ∨ a ∈ C.nodes := by simpa [Tr.nodes] using hmem
    refine hdisjAB a ha ((hmemsub a).mpr ?_)
    rcases hm with rfl | h
    · exact Or.inr (Or.inr (Or.inr (Or.inl rfl)))
    · exact Or.inr (Or.inr (Or.inr (Or.inr h)))
  obtain ⟨hctxok4, hfl4, hrn4, hrc4, hpar4, hchild4, hnil4⟩ :=
    insert_bst_spec s3v ctx (Tr.node Tr.nil rr C) (holeDir ctx) CAP CAP
      hctxok3 hrrfl3 hsubnd4 hABnd0 (fun _ => rfl) hdisj4
  simp only [rootIdx] at hctxok4 hfl4 hrn4 hrc4 hpar4 hchild4 hnil4
  set s4v := s3v.insert_bst_node rr (ctxParent CAP ctx, holeDir ctx)
    with hs4v
  have hBfl4 : TreeRepr s4v B CAP := by
    refine TreeRepr_congr (fun j hj => ?_) hBfl3
    have h1 : j ≠ rr := fun he => hrrB (he ▸ hj)
    have h2 : j ≠ ctxParent CAP ctx :=
      hcpfact j ((hmemsub j).mpr (Or.inr (Or.inr (Or.inl hj))))
    exact ⟨hpar4 j h1, (hchild4 j h2).1, (hchild4 j h2).2⟩
  have hgfl4 : TreeRepr s4v (Tr.node A g Tr.nil) CAP := by
    refine TreeRepr_congr (fun j hj => ?_) hfl3
    have hj' : j ∈ A.nodes ∨ j = g := by
      have := hj
      simp [Tr.nodes] at this
      tauto
    have h1 : j ≠ rr := by
      rcases hj' with h | rfl
      · exact fun he => hrrA (he ▸ h)
      · exact hgrr
    have h2 : j ≠ ctxParent CAP ctx := by
      refine hcpfact j ((hmemsub j).mpr ?_)
      rcases hj' with h | rfl
      · exact Or.inl h
      · exact Or.inr (Or.inl rfl)
    exact ⟨hpar4 j h1, (hchild4 j h2).1, (hchild4 j h2).2⟩
  -- step 5: attach B as the right child of g
  obtain ⟨hg4a, hg4b, hg4c, hg4d, hg4e, _⟩ := hgfl4
  have hctx5 : CtxOK s4v [(BstChild.Right, g, A)] CAP :=
    ⟨hg4a, hg4b, ⟨hg4d, hg4c⟩, hg4e, trivial⟩
  have hABnd5 : (ctxA [(BstChild.Right, g, A)] ++
      ctxB [(BstChild.Right, g, A)]).Nodup := by
    simp only [ctxA, ctxB, List.nil_append, List.append_nil]
    rw [List.nodup_append]
    refine ⟨hAnd, List.nodup_singleton g, ?_⟩
    intro a ha hb
    exact hgA (List.mem_singleton.mp hb ▸ ha)
  have hdisj5 : ∀ a ∈ ctxA [(BstChild.Right, g, A)] ++
      ctxB [(BstChild.Right, g, A)], a ∉ B.nodes := by
    intro a ha
    have hm : a ∈ A.nodes ∨ a = g := by
      simp only [ctxA, ctxB, List.nil_append, List.append_nil,
        List.mem_append, List.mem_singleton] at ha
      exact ha
    rcases hm with h | rfl
    · exact hAB a h
    · exact hgB
  obtain ⟨hctxok5, hBatt5, hrn5, hrc5, hpar5, hchild5, _⟩ :=
    insert_bst_spec s4v [(BstChild.Right, g, A)] B BstChild.Right CAP CAP
      hctx5 hBfl4 hBnd hABnd5 (fun _ => rfl) hdisj5
  simp only [ctxParent] at hctxok5 hBatt5 hrn5 hrc5 hpar5 hchild5
  set s5v := s4v.insert_bst_node (rootIdx CAP B) (g, BstChild.Right)
    with hs5v
  have hgtree5 : TreeRepr s5v (Tr.node A g B) CAP :=
    (treeRepr_plug_iff s5v [(BstChild.Right, g, A)] B).mpr
      ⟨hctxok5, hBatt5⟩
  have hctxok4' : CtxOK s5v ctx rr := by
    refine CtxOK_congr (fun j hj => ?_) hctxok4
    have hjB : j ∉ B.nodes := fun hB =>
      hdisjAB j hj ((hmemsub j).mpr (Or.inr (Or.inr (Or.inl hB))))
    have h1 : j ≠ rootIdx CAP B :=
      hneBroot j hjB (by have := hABlt j hj; omega)
    have h2 : j ≠ g := fun he =>
      hdisjAB j hj ((hmemsub j).mpr (Or.inr (Or.inl he)))
    exact ⟨hpar5 j h1, (hchild5 j h2).1, (hchild5 j h2).2⟩
  have hfl4' : TreeRepr s5v (Tr.node Tr.nil rr C) (ctxParent CAP ctx) := by
    refine TreeRepr_congr (fun j hj => ?_) hfl4
    have hj' : j = rr ∨ j ∈ C.nodes := by simpa [Tr.nodes] using hj
    have hjB : j ∉ B.nodes := by
      rcases hj' with rfl | h
      · exact hrrB
      · exact fun hB => hBC j hB h
    have hjlt : j < CAP := by
      refine hsublt j ((hmemsub j).mpr ?_)
      rcases hj' with rfl | h
      · exact Or.inr (Or.inr (Or.inr (Or.inl rfl)))
      · exact Or.inr (Or.inr (Or.inr (Or.inr h)))
    have h1 : j ≠ rootIdx CAP B := hneBroot j hjB (by omega)
    have h2 : j ≠ g := by
      rcases hj' with rfl | h
      · exact fun he => hgrr he.symm
      · exact fun he => hgC (he ▸ h)
    exact ⟨hpar5 j h1, (hchild5 j h2).1, (hchild5 j h2).2⟩
  -- step 6: attach the g subtree as the left child of rr
  obtain ⟨hr5a, hr5b, hr5c, hr5d, _, hr5f⟩ := hfl4'
  have hctx6 : CtxOK s5v ((BstChild.Left, rr, C) :: ctx) CAP :=
    ⟨hr5a, hr5b, ⟨hr5c, hr5d⟩, hr5f, hctxok4'⟩
  have hsubnd6 : (Tr.node A g B).nodes.Nodup := by
    show (A.nodes ++ g :: B.nodes).Nodup
    rw [List.nodup_append, List.nodup_cons]
    refine ⟨hAnd, ⟨hgB, hBnd⟩, ?_⟩
    intro a ha hb
    rcases List.mem_cons.mp hb with he | hB
    · exact hgA (he ▸ ha)
    · exact hAB a ha hB
  have hABnd6 : (ctxA ((BstChild.Left, rr, C) :: ctx) ++
      ctxB ((BstChild.Left, rr, C) :: ctx)).Nodup := by
    refine (ctxAB_cons_perm BstChild.Left rr C ctx).nodup_iff.mpr ?_
    rw [List.nodup_cons, List.nodup_append]
    refine ⟨?_, hCnd, hABnd0, ?_⟩
    · intro hm
      rcases List.mem_append.mp hm with h | h
      · exact hrrC2 h
      · exact hdisjAB rr h ((hmemsub rr).mpr
          (Or.inr (Or.inr (Or.inr (Or.inl rfl)))))
    · intro a ha hb
      exact hdisjAB a hb ((hmemsub a).mpr
        (Or.inr (Or.inr (Or.inr (Or.inr ha)))))
  have hdisj6 : ∀ a ∈ ctxA ((BstChild.Left, rr, C) :: ctx) ++
      ctxB ((BstChild.Left, rr, C) :: ctx), a ∉ (Tr.node A g B).nodes := by
    intro a ha hmem
    have hm : a ∈ A.nodes ∨ a = g ∨ a ∈ B.nodes := by
      simpa [Tr.nodes] using hmem
    rcases (mem_ctxAB_cons BstChild.Left rr C ctx a).mp ha with
      rfl | hC | hAB'
    · rcases hm with h | h | h
      · exact hrrA h
      · exact hgrr h.symm
      · exact hrrB h
    · rcases hm with h | rfl | h
      · exact hAC a h hC
      · exact hgC hC
      · exact hBC a h hC
    · refine hdisjAB a hAB' ((hmemsub a).mpr ?_)
      rcases hm with h | h | h
      · exact Or.inl h
      · exact Or.inr (Or.inl h)
      · exact Or.inr (Or.inr (Or.inl h))
  obtain ⟨hctxok6, hatt6, hrn6, hrc6, hpar6, hchild6, _⟩ :=
    insert_bst_spec s5v ((BstChild.Left, rr, C) :: ctx) (Tr.node A g B)
      BstChild.Left CAP CAP hctx6 hgtree5 hsubnd6 hABnd6 (fun _ => rfl)
      hdisj6
  simp only [rootIdx, ctxParent] at hctxok6 hatt6 hrn6 hrc6 hpar6 hchild6
  set s6v := s5v.insert_bst_node g (rr, BstChild.Left) with hs6v
  have hne1 : (CAP : Nat) ≠ rr := by omega
  have hne2 : (CAP : Nat) ≠ g := by omega
  refine ⟨?_, ?_, ?_, ?_, ?_, ?_⟩
  · exact (treeRepr_plug_iff s6v ((BstChild.Left, rr, C) :: ctx)
      (Tr.node A g B)).mpr ⟨hctxok6, hatt6⟩
  · intro hce
    rw [hrc6 (List.cons_ne_nil _ _), hrc5 (List.cons_ne_nil _ _)]
    exact hrn4 hce
  · intro hce
    rw [hrc6 (List.cons_ne_nil _ _), hrc5 (List.cons_ne_nil _ _),
      hrc4 hce, hroot3, hroot2]
  · intro j hj hjC
    have hjAB : j ∉ ctxA ctx ++ ctxB ctx := by
      intro hab
      refine hj ?_
      rw [plug_nodes]
      rcases List.mem_append.mp hab with h | h
      · exact List.mem_append.mpr (Or.inl (List.mem_append.mpr (Or.inl h)))
      · exact List.mem_append.mpr (Or.inr h)
    have hjsub : j ∉ (Tr.node A g (Tr.node B rr C)).nodes := by
      intro hmemj
      refine hj ?_
      rw [plug_nodes]
      exact List.mem_append.mpr (Or.inl (List.mem_append.mpr (Or.inr hmemj)))
    have hjg : j ≠ g := fun he =>
      hjsub ((hmemsub j).mpr (Or.inr (Or.inl he)))
    have hjrr : j ≠ rr := fun he =>
      hjsub ((hmemsub j).mpr (Or.inr (Or.inr (Or.inr (Or.inl he)))))
    have hjB : j ∉ B.nodes := fun hB =>
      hjsub ((hmemsub j).mpr (Or.inr (Or.inr (Or.inl hB))))
    have hjrB : j ≠ rootIdx CAP B := hneBroot j hjB hjC
    have hjcp : j ≠ ctxParent CAP ctx := by
      rcases ctxParent_mem CAP ctx with h | h
      · exact fun he => hjC (he.trans h)
      · exact fun he => hjAB (he ▸ h)
    refine ⟨?_, ?_, ?_⟩
    · rw [hpar6 j hjg, hpar5 j hjrB, hpar4 j hjrr, hpar3 j hjg,
        hpar2 j hjrr]
    · rw [(hchild6 j hjrr).1, (hchild5 j hjg).1, (hchild4 j hjcp).1,
        (hchild3 j hjcp).1, (hchild2 j hjg).1]
    · rw [(hchild6 j hjrr).2, (hchild5 j hjg).2, (hchild4 j hjcp).2,
        (hchild3 j hjcp).2, (hchild2 j hjg).2]
  · have h65 : s6v.lefts CAP = s5v.lefts CAP := (hchild6 CAP hne1).1
    have h54 : s5v.lefts CAP = s4v.lefts CAP := (hchild5 CAP hne2).1
    have h43 : s4v.lefts CAP = s3v.lefts CAP := by
      by_cases hce : ctx = []
      · exact congrFun (hnil4 hce).1 CAP
      · exact (hchild4 CAP (fun he => hcpne hce he.symm)).1
    rcases hLor3 CAP with h3 | h3
    · rcases hLor2 CAP with h2 | h2
      · exact Or.inl (by rw [h65, h54, h43, h3, h2])
      · exact Or.inr (by rw [h65, h54, h43, h3, h2])
    · exact Or.inr (by rw [h65, h54, h43, h3])
  · have h65 : s6v.rights CAP = s5v.rights CAP := (hchild6 CAP hne1).2
    have h54 : s5v.rights CAP = s4v.rights CAP := (hchild5 CAP hne2).2
    have h43 : s4v.rights CAP = s3v.rights CAP := by
      by_cases hce : ctx = []
      · exact congrFun (hnil4 hce).2 CAP
      · exact (hchild4 CAP (fun he => hcpne hce he.symm)).2
    rcases hRor3 CAP with h3 | h3
    · rcases hRor2 CAP with h2 | h2
      · exact Or.inl (by rw [h65, h54, h43, h3, h2])
      · exact Or.inr (by rw [h65, h54, h43, h3, h2])
    · exact Or.inr (by rw [h65, h54, h43, h3])

/-- Specification of `left_rotate`: on a represented tree whose node
`g` has right child `rr`, the rotation reshapes the tree from
`node A g (node B rr C)` to `node (node A g B) rr C` in place, keeps
the in-order node sequence, updates the root exactly when `g` was the
root, and touches no array cell outside the tree (the sentinel cell can
only move towards the sentinel value). -/
theorem left_rotate_spec (s : ConstLru K V CAP) (ctx : Ctx) (A : Tr)
    (g : Nat) (B : Tr) (rr : Nat) (C : Tr)
    (hrepr : TreeRepr s (plug ctx (Tr.node A g (Tr.node B rr C))) CAP)
    (hnodup : (plug ctx (Tr.node A g (Tr.node B rr C))).nodes.Nodup) :
    TreeRepr (s.left_rotate g)
      (plug ctx (Tr.node (Tr.node A g B) rr C)) CAP ∧
    (ctx = [] → (s.left_rotate g).root = rr) ∧
    (ctx ≠ [] → (s.left_rotate g).root = s.root) ∧
    (∀ j, j ∉ (plug ctx (Tr.node A g (Tr.node B rr C))).nodes → j ≠ CAP →
      (s.left_rotate g).parents j = s.parents j ∧
      (s.left_rotate g).lefts j = s.lefts j ∧
      (s.left_rotate g).rights j = s.rights j) ∧
    ((s.left_rotate g).lefts CAP = s.lefts CAP ∨
      (s.left_rotate g).lefts CAP = CAP) ∧
    ((s.left_rotate g).rights CAP = s.rights CAP ∨
      (s.left_rotate g).rights CAP = CAP) := by
  obtain ⟨hctxd, hsubd⟩ :=
    (treeRepr_plug_iff s ctx (Tr.node A g (Tr.node B rr C))).mp hrepr
  obtain ⟨hglt, hgpar, hgl, hgr, hArep, hBCrep⟩ := hsubd
  obtain ⟨hrrlt, hrrpar, hrrl, hrrr, hBrep, hCrep⟩ := hBCrep
  have hgr' : s.rights g = rr := by rw [hgr]; rfl
  simp only [ConstLru.left_rotate]
  rw [hgr', hrrl]
  cases B with
  | nil =>
    rw [if_neg (not_not_intro (by simp [rootIdx]))]
    have hctx1 : CtxOK s
        ((BstChild.Left, rr, C) :: (BstChild.Right, g, A) :: ctx) CAP :=
      ((treeRepr_plug_iff s
        ((BstChild.Left, rr, C) :: (BstChild.Right, g, A) :: ctx)
        Tr.nil).mp hrepr).1
    exact left_rotate_steps s ctx A g Tr.nil rr C hctx1 trivial hnodup
  | node bl bi br =>
    have hbilt : bi < CAP := hBrep.1
    simp only [rootIdx]
    rw [if_pos (by omega : bi ≠ CAP)]
    obtain ⟨hret1, hctxok1, hfl1, hroot1, hpar1, hLor1, hRor1, hchild1⟩ :=
      unlink_bst_spec s
        ((BstChild.Left, rr, C) :: (BstChild.Right, g, A) :: ctx)
        bl br bi hrepr hnodup
    obtain ⟨c1, c2, c3, c4, c5, c6⟩ :=
      left_rotate_steps (s.unlink_bst_node_from_parent bi).1 ctx A g
        (Tr.node bl bi br) rr C hctxok1 hfl1 hnodup
    simp only [rootIdx] at c1 c2 c3 c4 c5 c6
    have hbimem : bi ∈
        (Tr.node A g (Tr.node (Tr.node bl bi br) rr C)).nodes := by
      simp [Tr.nodes]
    refine ⟨c1, c2, ?_, ?_, ?_, ?_⟩
    · intro hce
      rw [c3 hce, hroot1]
    · intro j hj hjC
      have hjsub : j ∉
          (Tr.node A g (Tr.node (Tr.node bl bi br) rr C)).nodes := by
        intro hmemj
        refine hj ?_
        rw [plug_nodes]
        exact List.mem_append.mpr
          (Or.inl (List.mem_append.mpr (Or.inr hmemj)))
      have hjbi : j ≠ bi := fun he => hjsub (he ▸ hbimem)
      have hjrr : j ≠ rr := fun he => hjsub (by
        subst he
        simp [Tr.nodes])
      obtain ⟨cp, cl, cr⟩ := c4 j hj hjC
      exact ⟨cp.trans (hpar1 j hjbi), cl.trans (hchild1 j hjrr).1,
        cr.trans (hchild1 j hjrr).2⟩
    · rcases c5 with h | h
      · rcases hLor1 CAP with h1 | h1
        · exact Or.inl (h.trans h1)
        · exact Or.inr (h.trans h1)
      · exact Or.inr h
    · rcases c6 with h | h
      · rcases hRor1 CAP with h1 | h1
        · exact Or.inl (h.trans h1)
        · exact Or.inr (h.trans h1)
      · exact Or.inr h

/-- Steps two to six of `right_rotate`, mirror of `left_rotate_steps`:
with the inner subtree B floating free, the remaining unlink and attach
calls rebuild the rotated tree `node A g (node B rr C)`. -/
theorem right_rotate_steps (s1 : ConstLru K V CAP) (ctx : Ctx) (A : Tr)
    (g : Nat) (B : Tr) (rr : Nat) (C : Tr)
    (hctx1 : CtxOK s1
      ((BstChild.Right, g, A) :: (BstChild.Left, rr, C) :: ctx) CAP)
    (hBfl : TreeRepr s1 B CAP)
    (hnodup : (plug ctx (Tr.node (Tr.node A g B) rr C)).nodes.Nodup) :
    (TreeRepr
      (((((s1.unlink_bst_node_from_parent g).1.unlink_bst_node_from_parent
            rr).1.insert_bst_node g
          (((s1.unlink_bst_node_from_parent g).1.unlink_bst_node_from_parent
            rr).2)).insert_bst_node (rootIdx CAP B)
          (rr, BstChild.Left)).insert_bst_node rr (g, BstChild.Right))
      (plug ctx (Tr.node A g (Tr.node B rr C))) CAP) ∧
    (ctx = [] →
      (((((s1.unlink_bst_node_from_parent g).1.unlink_bst_node_from_parent
            rr).1.insert_bst_node g
          (((s1.unlink_bst_node_from_parent g).1.unlink_bst_node_from_parent
            rr).2)).insert_bst_node (rootIdx CAP B)
          (rr, BstChild.Left)).insert_bst_node rr (g, BstChild.Right)).root =
        g) ∧
    (ctx ≠ [] →
      (((((s1.unlink_bst_node_from_parent g).1.unlink_bst_node_from_parent
            rr).1.insert_bst_node g
          (((s1.unlink_bst_node_from_parent g).1.unlink_bst_node_from_parent
            rr).2)).insert_bst_node (rootIdx CAP B)
          (rr, BstChild.Left)).insert_bst_node rr (g, BstChild.Right)).root =
        s1.root) ∧
    (∀ j, j ∉ (plug ctx (Tr.node (Tr.node A g B) rr C)).nodes → j ≠ CAP →
      (((((s1.unlink_bst_node_from_parent g).1.unlink_bst_node_from_parent
            rr).1.insert_bst_node g
          (((s1.unlink_bst_node_from_parent g).1.unlink_bst_node_from_parent
            rr).2)).insert_bst_node (rootIdx CAP B)
          (rr, BstChild.Left)).insert_bst_node rr
          (g, BstChild.Right)).parents j = s1.parents j ∧
      (((((s1.unlink_bst_node_from_parent g).1.unlink_bst_node_from_parent
            rr).1.insert_bst_node g
          (((s1.unlink_bst_node_from_parent g).1.unlink_bst_node_from_parent
            rr).2)).insert_bst_node (rootIdx CAP B)
          (rr, BstChild.Left)).insert_bst_node rr
          (g, BstChild.Right)).lefts j = s1.lefts j ∧
      (((((s1.unlink_bst_node_from_parent g).1.unlink_bst_node_from_parent
            rr).1.insert_bst_node g
          (((s1.unlink_bst_node_from_parent g).1.unlink_bst_node_from_parent
            rr).2)).insert_bst_node (rootIdx CAP B)
          (rr, BstChild.Left)).insert_bst_node rr
          (g, BstChild.Right)).rights j = s1.rights j) ∧
    ((((((s1.unlink_bst_node_from_parent g).1.unlink_bst_node_from_parent
            rr).1.insert_bst_node g
          (((s1.unlink_bst_node_from_parent g).1.unlink_bst_node_from_parent
            rr).2)).insert_bst_node (rootIdx CAP B)
          (rr, BstChild.Left)).insert_bst_node rr
          (g, BstChild.Right)).lefts CAP = s1.lefts CAP ∨
      (((((s1.unlink_bst_node_from_parent g).1.unlink_bst_node_from_parent
            rr).1.insert_bst_node g
          (((s1.unlink_bst_node_from_parent g).1.unlink_bst_node_from_parent
            rr).2)).insert_bst_node (rootIdx CAP B)
          (rr, BstChild.Left)).insert_bst_node rr
          (g, BstChild.Right)).lefts CAP = CAP) ∧
    ((((((s1.unlink_bst_node_from_parent g).1.unlink_bst_node_from_parent
            rr).1.insert_bst_node g
          (((s1.unlink_bst_node_from_parent g).1.unlink_bst_node_from_parent
            rr).2)).insert_bst_node (rootIdx CAP B)
          (rr, BstChild.Left)).insert_bst_node rr
          (g, BstChild.Right)).rights CAP = s1.rights CAP ∨
      (((((s1.unlink_bst_node_from_parent g).1.unlink_bst_node_from_parent
            rr).1.insert_bst_node g
          (((s1.unlink_bst_node_from_parent g).1.unlink_bst_node_from_parent
            rr).2)).insert_bst_node (rootIdx CAP B)
          (rr, BstChild.Left)).insert_bst_node rr
          (g, BstChild.Right)).rights CAP = CAP) := by
  obtain ⟨hglt, hgparrr, hdir1, hArep, hctx2⟩ := hctx1
  obtain ⟨hrrlt, hrrparctx, hdir2, hCrep, hctxrr⟩ := hctx2
  obtain ⟨hgrCAP, hglA⟩ := hdir1
  obtain ⟨hrrlg, hrrrC⟩ := hdir2
  have hnd0 : (A.nodes ++ g :: (B.nodes ++ rr :: C.nodes)).Nodup := by
    have h := nodup_parts hnodup
    simp only [Tr.nodes] at h
    rw [List.append_assoc] at h
    exact h
  obtain ⟨hgA, hgB, hgC, hgrr, hrrA, hrrB, hrrC2, hAB, hAC, hBC,
    hAnd, hBnd, hCnd⟩ := nodup_node2_facts hnd0
  have hdisjAB : ∀ a ∈ ctxA ctx ++ ctxB ctx,
      a ∉ (Tr.node (Tr.node A g B) rr C).nodes := ctx_sub_disjoint hnodup
  have hABnd0 : (ctxA ctx ++ ctxB ctx).Nodup := nodup_ctxAB hnodup
  have hmemsub : ∀ j, j ∈ (Tr.node (Tr.node A g B) rr C).nodes ↔
      (j ∈ A.nodes ∨ j = g ∨ j ∈ B.nodes ∨ j = rr ∨ j ∈ C.nodes) := by
    intro j
    simp only [Tr.nodes, List.mem_append, List.mem_cons]
    tauto
  have hsublt : ∀ j, j ∈ (Tr.node (Tr.node A g B) rr C).nodes →
      j < CAP := by
    intro j hj
    rcases (hmemsub j).mp hj with h | h | h | h | h
    · exact mem_nodes_lt hArep j h
    · omega
    · exact mem_nodes_lt hBfl j h
    · omega
    · exact mem_nodes_lt hCrep j h
  have hcpfact : ∀ j, j ∈ (Tr.node (Tr.node A g B) rr C).nodes →
      j ≠ ctxParent CAP ctx := by
    intro j hj he
    rcases ctxParent_mem CAP ctx with h | h
    · have := hsublt j hj
      omega
    · exact hdisjAB _ (he ▸ h) hj
  have hneBroot : ∀ j, j ∉ B.nodes → j ≠ CAP → j ≠ rootIdx CAP B := by
    intro j hjB hjC he
    cases B with
    | nil => exact hjC (by simpa [rootIdx] using he)
    | node bl bi br => exact hjB (he ▸ rootIdx_mem_nodes)
  -- step 2: unlink g
  have hrepr2 : TreeRepr s1
      (plug ((BstChild.Left, rr, C) :: ctx) (Tr.node A g Tr.nil)) CAP := by
    refine (treeRepr_plug_iff s1 _ _).mpr ⟨?_, ?_⟩
    · exact ⟨hrrlt, hrrparctx, ⟨hrrlg, hrrrC⟩, hCrep, hctxrr⟩
    · exact ⟨hglt, hgparrr, hglA, hgrCAP, hArep, trivial⟩
  have hnodup2 : (plug ((BstChild.Left, rr, C) :: ctx)
      (Tr.node A g Tr.nil)).nodes.Nodup := by
    refine @nodup_plug_of_sublist ((BstChild.Left, rr, C) :: ctx)
      (Tr.node A g B) _ ?_
      hnodup
    show (A.nodes ++ g :: ([] : List Nat)).Sublist (A.nodes ++ g :: B.nodes)
    exact (List.Sublist.cons₂ g (List.nil_sublist _)).append_left A.nodes
  obtain ⟨hret2, hctxok2, hfl2, hroot2, hpar2, hLor2, hRor2, hchild2⟩ :=
    unlink_bst_spec s1 ((BstChild.Left, rr, C) :: ctx) A Tr.nil g
      hrepr2 hnodup2
  have hBfl2 : TreeRepr (s1.unlink_bst_node_from_parent g).1 B CAP := by
    refine TreeRepr_congr (fun j hj => ?_) hBfl
    have h1 : j ≠ g := fun he => hgB (he ▸ hj)
    have h2 : j ≠ rr := fun he => hrrB (he ▸ hj)
    have h3 := hchild2 j h2
    exact ⟨hpar2 j h1, h3.1, h3.2⟩
  set s2v := (s1.unlink_bst_node_from_parent g).1 with hs2v
  have hABlt : ∀ a ∈ ctxA ctx ++ ctxB ctx, a < CAP := ctx_mem_lt hctxrr
  have hcpne : ctx ≠ [] → ctxParent CAP ctx ≠ CAP := by
    intro hne
    cases ctx with
    | nil => exact absurd rfl hne
    | cons fr ctx' =>
      rcases fr with ⟨d, p, sib⟩
      have hp : p < CAP := hctxrr.1
      intro he
      simp [ctxParent] at he
      omega
  -- step 3: unlink rr
  obtain ⟨hrrlt2, hrrpar2, hdir2b, hCrep2, hctxrr2⟩ := hctxok2
  obtain ⟨hrrl2, hrrr2⟩ := hdir2b
  have hrepr3 : TreeRepr s2v (plug ctx (Tr.node Tr.nil rr C)) CAP := by
    refine (treeRepr_plug_iff s2v ctx (Tr.node Tr.nil rr C)).mpr ⟨?_, ?_⟩
    · exact hctxrr2
    · exact ⟨hrrlt2, hrrpar2, hrrl2, hrrr2, trivial, hCrep2⟩
  have hnodup3 : (plug ctx (Tr.node Tr.nil rr C)).nodes.Nodup := by
    refine @nodup_plug_of_sublist ctx (Tr.node (Tr.node A g B) rr C) _ ?_
      hnodup
    show (Tr.nil.nodes ++ rr :: C.nodes).Sublist
      ((A.nodes ++ g :: B.nodes) ++ rr :: C.nodes)
    exact List.sublist_append_right _ (rr :: C.nodes)
  obtain ⟨hret3, hctxok3, hfl3, hroot3, hpar3, hLor3, hRor3, hchild3⟩ :=
    unlink_bst_spec s2v ctx Tr.nil C rr hrepr3 hnodup3
  rw [hret3]
  set s3v := (s2v.unlink_bst_node_from_parent rr).1 with hs3v
  have hBfl3 : TreeRepr s3v B CAP := by
    refine TreeRepr_congr (fun j hj => ?_) hBfl2
    have h1 : j ≠ rr := fun he => hrrB (he ▸ hj)
    have h2 : j ≠ ctxParent CAP ctx :=
      hcpfact j ((hmemsub j).mpr (Or.inr (Or.inr (Or.inl hj))))
    exact ⟨hpar3 j h1, (hchild3 j h2).1, (hchild3 j h2).2⟩
  have hgfl3 : TreeRepr s3v (Tr.node A g Tr.nil) CAP := by
    refine TreeRepr_congr (fun j hj => ?_) hfl2
    have hj' : j ∈ A.nodes ∨ j = g := by
      have := hj
      simp [Tr.nodes] at this
      tauto
    have h1 : j ≠ rr := by
      rcases hj' with h | rfl
      · exact fun he => hrrA (he ▸ h)
      · exact hgrr
    have h2 : j ≠ ctxParent CAP ctx := by
      refine hcpfact j ((hmemsub j).mpr ?_)
      rcases hj' with h | rfl
      · exact Or.inl h
      · exact Or.inr (Or.inl rfl)
    exact ⟨hpar3 j h1, (hchild3 j h2).1, (hchild3 j h2).2⟩
  -- step 4: reattach g (with A) at the original hole
  have hsubnd4 : (Tr.node A g Tr.nil).nodes.Nodup := by
    simp only [Tr.nodes]
    rw [List.nodup_append]
    refine ⟨hAnd, List.nodup_singleton g, ?_⟩
    intro a ha hb
    exact hgA (List.mem_singleton.mp hb ▸ ha)
  have hdisj4 : ∀ a ∈ ctxA ctx ++ ctxB ctx,
      a ∉ (Tr.node A g Tr.nil).nodes := by
    intro a ha hmem
    have hm : a ∈ A.nodes ∨ a = g := by
      simp [Tr.nodes] at hmem
      tauto
    refine hdisjAB a ha ((hmemsub a).mpr ?_)
    rcases hm with h | rfl
    · exact Or.inl h
    · exact Or.inr (Or.inl rfl)
  obtain ⟨hctxok4, hfl4, hrn4, hrc4, hpar4, hchild4, hnil4⟩ :=
    insert_bst_spec s3v ctx (Tr.node A g Tr.nil) (holeDir ctx) CAP CAP
      hctxok3 hgfl3 hsubnd4 hABnd0 (fun _ => rfl) hdisj4
  simp only [rootIdx] at hctxok4 hfl4 hrn4 hrc4 hpar4 hchild4 hnil4
  set s4v := s3v.insert_bst_node g (ctxParent CAP ctx, holeDir ctx)
    with hs4v
  have hBfl4 : TreeRepr s4v B CAP := by
    refine TreeRepr_congr (fun j hj => ?_) hBfl3
    have h1 : j ≠ g := fun he => hgB (he ▸ hj)
    have h2 : j ≠ ctxParent CAP ctx :=
      hcpfact j ((hmemsub j).mpr (Or.inr (Or.inr (Or.inl hj))))
    exact ⟨hpar4 j h1, (hchild4 j h2).1, (hchild4 j h2).2⟩
  have hrrfl4 : TreeRepr s4v (Tr.node Tr.nil rr C) CAP := by
    refine TreeRepr_congr (fun j hj => ?_) hfl3
    have hj' : j = rr ∨ j ∈ C.nodes := by simpa [Tr.nodes] using hj
    have h1 : j ≠ g := by
      rcases hj' with rfl | h
      · exact fun he => hgrr he.symm
      · exact fun he => hgC (he ▸ h)
    have h2 : j ≠ ctxParent CAP ctx := by
      refine hcpfact j ((hmemsub j).mpr ?_)
      rcases hj' with rfl | h
      · exact Or.inr (Or.inr (Or.inr (Or.inl rfl)))
      · exact Or.inr (Or.inr (Or.inr (Or.inr h)))
    exact ⟨hpar4 j h1, (hchild4 j h2).1, (hchild4 j h2).2⟩
  -- step 5: attach B as the left child of rr
  obtain ⟨hr4a, hr4b, hr4c, hr4d, _, hr4f⟩ := hrrfl4
  have hctx5 : CtxOK s4v [(BstChild.Left, rr, C)] CAP :=
    ⟨hr4a, hr4b, ⟨hr4c, hr4d⟩, hr4f, trivial⟩
  have hABnd5 : (ctxA [(BstChild.Left, rr, C)] ++
      ctxB [(BstChild.Left, rr, C)]).Nodup := by
    simp only [ctxA, ctxB, List.nil_append, List.append_nil]
    rw [List.nodup_cons]
    exact ⟨hrrC2, hCnd⟩
  have hdisj5 : ∀ a ∈ ctxA [(BstChild.Left, rr, C)] ++
      ctxB [(BstChild.Left, rr, C)], a ∉ B.nodes := by
    intro a ha
    have hm : a = rr ∨ a ∈ C.nodes := by
      simp only [ctxA, ctxB, List.nil_append, List.append_nil,
        List.mem_cons] at ha
      exact ha
    rcases hm with rfl | h
    · exact hrrB
    · exact fun hB => hBC a hB h
  obtain ⟨hctxok5, hBatt5, hrn5, hrc5, hpar5, hchild5, _⟩ :=
    insert_bst_spec s4v [(BstChild.Left, rr, C)] B BstChild.Left CAP CAP
      hctx5 hBfl4 hBnd hABnd5 (fun _ => rfl) hdisj5
  simp only [ctxParent] at hctxok5 hBatt5 hrn5 hrc5 hpar5 hchild5
  set s5v := s4v.insert_bst_node (rootIdx CAP B) (rr, BstChild.Left)
    with hs5v
  have hrrtree5 : TreeRepr s5v (Tr.node B rr C) CAP :=
    (treeRepr_plug_iff s5v [(BstChild.Left, rr, C)] B).mpr
      ⟨hctxok5, hBatt5⟩
  have hctxok4' : CtxOK s5v ctx g := by
    refine CtxOK_congr (fun j hj => ?_) hctxok4
    have hjB : j ∉ B.nodes := fun hB =>
      hdisjAB j hj ((hmemsub j).mpr (Or.inr (Or.inr (Or.inl hB))))
    have h1 : j ≠ rootIdx CAP B :=
      hneBroot j hjB (by have := hABlt j hj; omega)
    have h2 : j ≠ rr := fun he =>
      hdisjAB j hj ((hmemsub j).mpr
        (Or.inr (Or.inr (Or.inr (Or.inl he)))))
    exact ⟨hpar5 j h1, (hchild5 j h2).1, (hchild5 j h2).2⟩
  have hfl4' : TreeRepr s5v (Tr.node A g Tr.nil) (ctxParent CAP ctx) := by
    refine TreeRepr_congr (fun j hj => ?_) hfl4
    have hj' : j ∈ A.nodes ∨ j = g := by
      have := hj
      simp [Tr.nodes] at this
      tauto
    have hjB : j ∉ B.nodes := by
      rcases hj' with h | rfl
      · exact fun hB => hAB j h hB
      · exact hgB
    have hjlt : j < CAP := by
      refine hsublt j ((hmemsub j).mpr ?_)
      rcases hj' with h | rfl
      · exact Or.inl h
      · exact Or.inr (Or.inl rfl)
    have h1 : j ≠ rootIdx CAP B := hneBroot j hjB (by omega)
    have h2 : j ≠ rr := by
      rcases hj' with h | rfl
      · exact fun he => hrrA (he ▸ h)
      · exact hgrr
    exact ⟨hpar5 j h1, (hchild5 j h2).1, (hchild5 j h2).2⟩
  -- step 6: attach the rr subtree as the right child of g
  obtain ⟨hg5a, hg5b, hg5c, hg5d, hg5e, _⟩ := hfl4'
  have hctx6 : CtxOK s5v ((BstChild.Right, g, A) :: ctx) CAP :=
    ⟨hg5a, hg5b, ⟨hg5d, hg5c⟩, hg5e, hctxok4'⟩
  have hsubnd6 : (Tr.node B rr C).nodes.Nodup := by
    show (B.nodes ++ rr :: C.nodes).Nodup
    rw [List.nodup_append, List.nodup_cons]
    refine ⟨hBnd, ⟨hrrC2, hCnd⟩, ?_⟩
    intro a ha hb
    rcases List.mem_cons.mp hb with he | hC
    · exact hrrB (he ▸ ha)
    · exact hBC a ha hC
  have hABnd6 : (ctxA ((BstChild.Right, g, A) :: ctx) ++
      ctxB ((BstChild.Right, g, A) :: ctx)).Nodup := by
    refine (ctxAB_cons_perm BstChild.Right g A ctx).nodup_iff.mpr ?_
    rw [List.nodup_cons, List.nodup_append]
    refine ⟨?_, hAnd, hABnd0, ?_⟩
    · intro hm
      rcases List.mem_append.mp hm with h | h
      · exact hgA h
      · exact hdisjAB g h ((hmemsub g).mpr (Or.inr (Or.inl rfl)))
    · intro a ha hb
      exact hdisjAB a hb ((hmemsub a).mpr (Or.inl ha))
  have hdisj6 : ∀ a ∈ ctxA ((BstChild.Right, g, A) :: ctx) ++
      ctxB ((BstChild.Right, g, A) :: ctx),
      a ∉ (Tr.node B rr C).nodes := by
    intro a ha hmem
    have hm : a ∈ B.nodes ∨ a = rr ∨ a ∈ C.nodes := by
      simpa [Tr.nodes] using hmem
    rcases (mem_ctxAB_cons BstChild.Right g A ctx a).mp ha with
      rfl | hA | hAB'
    · rcases hm with h | h | h
      · exact hgB h
      · exact hgrr h
      · exact hgC h
    · rcases hm with h | rfl | h
      · exact hAB a hA h
      · exact hrrA hA
      · exact hAC a hA h
    · refine hdisjAB a hAB' ((hmemsub a).mpr ?_)
      rcases hm with h | h | h
      · exact Or.inr (Or.inr (Or.inl h))
      · exact Or.inr (Or.inr (Or.inr (Or.inl h)))
      · exact Or.inr (Or.inr (Or.inr (Or.inr h)))
  obtain ⟨hctxok6, hatt6, hrn6, hrc6, hpar6, hchild6, _⟩ :=
    insert_bst_spec s5v ((BstChild.Right, g, A) :: ctx) (Tr.node B rr C)
      BstChild.Right CAP CAP hctx6 hrrtree5 hsubnd6 hABnd6 (fun _ => rfl)
      hdisj6
  simp only [rootIdx, ctxParent] at hctxok6 hatt6 hrn6 hrc6 hpar6 hchild6
  set s6v := s5v.insert_bst_node rr (g, BstChild.Right) with hs6v
  have hne1 : (CAP : Nat) ≠ g := by omega
  have hne2 : (CAP : Nat) ≠ rr := by omega
  refine ⟨?_, ?_, ?_, ?_, ?_, ?_⟩
  · exact (treeRepr_plug_iff s6v ((BstChild.Right, g, A) :: ctx)
      (Tr.node B rr C)).mpr ⟨hctxok6, hatt6⟩
  · intro hce
    rw [hrc6 (List.cons_ne_nil _ _), hrc5 (List.cons_ne_nil _ _)]
    exact hrn4 hce
  · intro hce
    rw [hrc6 (List.cons_ne_nil _ _), hrc5 (List.cons_ne_nil _ _),
      hrc4 hce, hroot3, hroot2]
  · intro j hj hjC
    have hjAB : j ∉ ctxA ctx ++ ctxB ctx := by
      intro hab
      refine hj ?_
      rw [plug_nodes]
      rcases List.mem_append.mp hab with h | h
      · exact List.mem_append.mpr (Or.inl (List.mem_append.mpr (Or.inl h)))
      · exact List.mem_append.mpr (Or.inr h)
    have hjsub : j ∉ (Tr.node (Tr.node A g B) rr C).nodes := by
      intro hmemj
      refine hj ?_
      rw [plug_nodes]
      exact List.mem_append.mpr (Or.inl (List.mem_append.mpr (Or.inr hmemj)))
    have hjg : j ≠ g := fun he =>
      hjsub ((hmemsub j).mpr (Or.inr (Or.inl he)))
    have hjrr : j ≠ rr := fun he =>
      hjsub ((hmemsub j).mpr (Or.inr (Or.inr (Or.inr (Or.inl he)))))
    have hjB : j ∉ B.nodes := fun hB =>
      hjsub ((hmemsub j).mpr (Or.inr (Or.inr (Or.inl hB))))
    have hjrB : j ≠ rootIdx CAP B := hneBroot j hjB hjC
    have hjcp : j ≠ ctxParent CAP ctx := by
      rcases ctxParent_mem CAP ctx with h | h
      · exact fun he => hjC (he.trans h)
      · exact fun he => hjAB (he ▸ h)
    refine ⟨?_, ?_, ?_⟩
    · rw [hpar6 j hjrr, hpar5 j hjrB, hpar4 j hjg, hpar3 j hjrr,
        hpar2 j hjg]
    · rw [(hchild6 j hjg).1, (hchild5 j hjrr).1, (hchild4 j hjcp).1,
        (hchild3 j hjcp).1, (hchild2 j hjrr).1]
    · rw [(hchild6 j hjg).2, (hchild5 j hjrr).2, (hchild4 j hjcp).2,
        (hchild3 j hjcp).2, (hchild2 j hjrr).2]
  · have h65 : s6v.lefts CAP = s5v.lefts CAP := (hchild6 CAP hne1).1
    have h54 : s5v.lefts CAP = s4v.lefts CAP := (hchild5 CAP hne2).1
    have h43 : s4v.lefts CAP = s3v.lefts CAP := by
      by_cases hce : ctx = []
      · exact congrFun (hnil4 hce).1 CAP
      · exact (hchild4 CAP (fun he => hcpne hce he.symm)).1
    rcases hLor3 CAP with h3 | h3
    · rcases hLor2 CAP with h2 | h2
      · exact Or.inl (by rw [h65, h54, h43, h3, h2])
      · exact Or.inr (by rw [h65, h54, h43, h3, h2])
    · exact Or.inr (by rw [h65, h54, h43, h3])
  · have h65 : s6v.rights CAP = s5v.rights CAP := (hchild6 CAP hne1).2
    have h54 : s5v.rights CAP = s4v.rights CAP := (hchild5 CAP hne2).2
    have h43 : s4v.rights CAP = s3v.rights CAP := by
      by_cases hce : ctx = []
      · exact congrFun (hnil4 hce).2 CAP
      · exact (hchild4 CAP (fun he => hcpne hce he.symm)).2
    rcases hRor3 CAP with h3 | h3
    · rcases hRor2 CAP with h2 | h2
      · exact Or.inl (by rw [h65, h54, h43, h3, h2])
      · exact Or.inr (by rw [h65, h54, h43, h3, h2])
    · exact Or.inr (by rw [h65, h54, h43, h3])

/-- Specification of `right_rotate`, mirror of `left_rotate_spec`: the
rotation reshapes `node (node A g B) rr C` into `node A g (node B rr C)`
in place. -/
theorem right_rotate_spec (s : ConstLru K V CAP) (ctx : Ctx) (A : Tr)
    (g : Nat) (B : Tr) (rr : Nat) (C : Tr)
    (hrepr : TreeRepr s (plug ctx (Tr.node (Tr.node A g B) rr C)) CAP)
    (hnodup : (plug ctx (Tr.node (Tr.node A g B) rr C)).nodes.Nodup) :
    TreeRepr (s.right_rotate rr)
      (plug ctx (Tr.node A g (Tr.node B rr C))) CAP ∧
    (ctx = [] → (s.right_rotate rr).root = g) ∧
    (ctx ≠ [] → (s.right_rotate rr).root = s.root) ∧
    (∀ j, j ∉ (plug ctx (Tr.node (Tr.node A g B) rr C)).nodes → j ≠ CAP →
      (s.right_rotate rr).parents j = s.parents j ∧
      (s.right_rotate rr).lefts j = s.lefts j ∧
      (s.right_rotate rr).rights j = s.rights j) ∧
    ((s.right_rotate rr).lefts CAP = s.lefts CAP ∨
      (s.right_rotate rr).lefts CAP = CAP) ∧
    ((s.right_rotate rr).rights CAP = s.rights CAP ∨
      (s.right_rotate rr).rights CAP = CAP) := by
  obtain ⟨hctxd, hsubd⟩ :=
    (treeRepr_plug_iff s ctx (Tr.node (Tr.node A g B) rr C)).mp hrepr
  obtain ⟨hrrlt, hrrpar, hrrl, hrrr, hABgrep, hCrep⟩ := hsubd
  obtain ⟨hglt, hgpar, hgl, hgr, hArep, hBrep⟩ := hABgrep
  have hrrl' : s.lefts rr = g := by rw [hrrl]; rfl
  simp only [ConstLru.right_rotate]
  rw [hrrl', hgr]
  cases B with
  | nil =>
    rw [if_neg (not_not_intro (by simp [rootIdx]))]
    have hctx1 : CtxOK s
        ((BstChild.Right, g, A) :: (BstChild.Left, rr, C) :: ctx) CAP :=
      ((treeRepr_plug_iff s
        ((BstChild.Right, g, A) :: (BstChild.Left, rr, C) :: ctx)
        Tr.nil).mp hrepr).1
    exact right_rotate_steps s ctx A g Tr.nil rr C hctx1 trivial hnodup
  | node bl bi br =>
    have hbilt : bi < CAP := hBrep.1
    simp only [rootIdx]
    rw [if_pos (by omega : bi ≠ CAP)]
    obtain ⟨hret1, hctxok1, hfl1, hroot1, hpar1, hLor1, hRor1, hchild1⟩ :=
      unlink_bst_spec s
        ((BstChild.Right, g, A) :: (BstChild.Left, rr, C) :: ctx)
        bl br bi hrepr hnodup
    obtain ⟨c1, c2, c3, c4, c5, c6⟩ :=
      right_rotate_steps (s.unlink_bst_node_from_parent bi).1 ctx A g
        (Tr.node bl bi br) rr C hctxok1 hfl1 hnodup
    simp only [rootIdx] at c1 c2 c3 c4 c5 c6
    have hbimem : bi ∈
        (Tr.node (Tr.node A g (Tr.node bl bi br)) rr C).nodes := by
      simp [Tr.nodes]
    refine ⟨c1, c2, ?_, ?_, ?_, ?_⟩
    · intro hce
      rw [c3 hce, hroot1]
    · intro j hj hjC
      have hjsub : j ∉
          (Tr.node (Tr.node A g (Tr.node bl bi br)) rr C).nodes := by
        intro hmemj
        refine hj ?_
        rw [plug_nodes]
        exact List.mem_append.mpr
          (Or.inl (List.mem_append.mpr (Or.inr hmemj)))
      have hjbi : j ≠ bi := fun he => hjsub (he ▸ hbimem)
      have hjg : j ≠ g := fun he => hjsub (by
        subst he
        simp [Tr.nodes])
      obtain ⟨cp, cl, cr⟩ := c4 j hj hjC
      exact ⟨cp.trans (hpar1 j hjbi), cl.trans (hchild1 j hjg).1,
        cr.trans (hchild1 j hjg).2⟩
    · rcases c5 with h | h
      · rcases hLor1 CAP with h1 | h1
        · exact Or.inl (h.trans h1)
        · exact Or.inr (h.trans h1)
      · exact Or.inr h
    · rcases c6 with h | h
      · rcases hRor1 CAP with h1 | h1
        · exact Or.inl (h.trans h1)
        · exact Or.inr (h.trans h1)
      · exact Or.inr h

/-- Trees with equal in-order node lists plug to equal node lists. -/
theorem plug_nodes_congr {ctx : Ctx} {sub sub' : Tr}
    (h : sub.nodes = sub'.nodes) :
    (plug ctx sub).nodes = (plug ctx sub').nodes := by
  rw [plug_nodes, plug_nodes, h]

/-- Rotations keep the in-order node list: left-to-right reassociation. -/
theorem rotate_nodes_eq (A : Tr) (g : Nat) (B : Tr) (rr : Nat) (C : Tr) :
    (Tr.node A g (Tr.node B rr C)).nodes =
      (Tr.node (Tr.node A g B) rr C).nodes := by
  simp [Tr.nodes]

/-- Specification of `left_right_rotate`: reshapes
`node (node A x (node B y C)) z D` into
`node (node A x B) y (node C z D)` in place. -/
theorem left_right_rotate_spec (s : ConstLru K V CAP) (ctx : Ctx)
    (A : Tr) (x : Nat) (B : Tr) (y : Nat) (C : Tr) (z : Nat) (D : Tr)
    (hrepr : TreeRepr s
      (plug ctx (Tr.node (Tr.node A x (Tr.node B y C)) z D)) CAP)
    (hnodup :
      (plug ctx (Tr.node (Tr.node A x (Tr.node B y C)) z D)).nodes.Nodup) :
    TreeRepr (s.left_right_rotate z)
      (plug ctx (Tr.node (Tr.node A x B) y (Tr.node C z D))) CAP ∧
    (ctx = [] → (s.left_right_rotate z).root = y) ∧
    (ctx ≠ [] → (s.left_right_rotate z).root = s.root) ∧
    (∀ j, j ∉ (plug ctx (Tr.node (Tr.node A x (Tr.node B y C)) z D)).nodes →
      j ≠ CAP →
      (s.left_right_rotate z).parents j = s.parents j ∧
      (s.left_right_rotate z).lefts j = s.lefts j ∧
      (s.left_right_rotate z).rights j = s.rights j) ∧
    ((s.left_right_rotate z).lefts CAP = s.lefts CAP ∨
      (s.left_right_rotate z).lefts CAP = CAP) ∧
    ((s.left_right_rotate z).rights CAP = s.rights CAP ∨
      (s.left_right_rotate z).rights CAP = CAP) := by
  obtain ⟨hctxd, hsubd⟩ := (treeRepr_plug_iff s ctx _).mp hrepr
  obtain ⟨hzlt, hzpar, hzl, hzr, hxrep, hDrep⟩ := hsubd
  have hzl' : s.lefts z = x := by rw [hzl]; rfl
  simp only [ConstLru.left_right_rotate]
  rw [hzl']
  obtain ⟨l1, l2, l3, l4, l5, l6⟩ :=
    left_rotate_spec s ((BstChild.Left, z, D) :: ctx) A x B y C
      hrepr hnodup
  have hnodes1 : (plug ((BstChild.Left, z, D) :: ctx)
      (Tr.node A x (Tr.node B y C))).nodes =
      (plug ((BstChild.Left, z, D) :: ctx)
        (Tr.node (Tr.node A x B) y C)).nodes :=
    plug_nodes_congr (rotate_nodes_eq A x B y C)
  have hnodup2 : (plug ((BstChild.Left, z, D) :: ctx)
      (Tr.node (Tr.node A x B) y C)).nodes.Nodup := hnodes1 ▸ hnodup
  obtain ⟨r1, r2, r3, r4, r5, r6⟩ :=
    right_rotate_spec (s.left_rotate x) ctx (Tr.node A x B) y C z D
      l1 hnodup2
  refine ⟨r1, r2, ?_, ?_, ?_, ?_⟩
  · intro hce
    rw [r3 hce, l3 (List.cons_ne_nil _ _)]
  · intro j hj hjC
    have hj2 : j ∉ (plug ((BstChild.Left, z, D) :: ctx)
        (Tr.node (Tr.node A x B) y C)).nodes := fun hm =>
      hj (hnodes1 ▸ hm)
    obtain ⟨rp, rl, rrw⟩ := r4 j hj2 hjC
    obtain ⟨lp, ll, lr⟩ := l4 j hj hjC
    exact ⟨rp.trans lp, rl.trans ll, rrw.trans lr⟩
  · rcases r5 with h | h
    · rcases l5 with h1 | h1
      · exact Or.inl (h.trans h1)
      · exact Or.inr (h.trans h1)
    · exact Or.inr h
  · rcases r6 with h | h
    · rcases l6 with h1 | h1
      · exact Or.inl (h.trans h1)
      · exact Or.inr (h.trans h1)
    · exact Or.inr h

/-- Specification of `right_left_rotate`: reshapes
`node A z (node (node B y C) x D)` into
`node (node A z B) y (node C x D)` in place. -/
theorem right_left_rotate_spec (s : ConstLru K V CAP) (ctx : Ctx)
    (A : Tr) (z : Nat) (B : Tr) (y : Nat) (C : Tr) (x : Nat) (D : Tr)
    (hrepr : TreeRepr s
      (plug ctx (Tr.node A z (Tr.node (Tr.node B y C) x D))) CAP)
    (hnodup :
      (plug ctx (Tr.node A z (Tr.node (Tr.node B y C) x D))).nodes.Nodup) :
    TreeRepr (s.right_left_rotate z)
      (plug ctx (Tr.node (Tr.node A z B) y (Tr.node C x D))) CAP ∧
    (ctx = [] → (s.right_left_rotate z).root = y) ∧
    (ctx ≠ [] → (s.right_left_rotate z).root = s.root) ∧
    (∀ j, j ∉ (plug ctx (Tr.node A z (Tr.node (Tr.node B y C) x D))).nodes →
      j ≠ CAP →
      (s.right_left_rotate z).parents j = s.parents j ∧
      (s.right_left_rotate z).lefts j = s.lefts j ∧
      (s.right_left_rotate z).rights j = s.rights j) ∧
    ((s.right_left_rotate z).lefts CAP = s.lefts CAP ∨
      (s.right_left_rotate z).lefts CAP = CAP) ∧
    ((s.right_left_rotate z).rights CAP = s.rights CAP ∨
      (s.right_left_rotate z).rights CAP = CAP) := by
  obtain ⟨hctxd, hsubd⟩ := (treeRepr_plug_iff s ctx _).mp hrepr
  obtain ⟨hzlt, hzpar, hzl, hzr, hArep, hxrep⟩ := hsubd
  have hzr' : s.rights z = x := by rw [hzr]; rfl
  simp only [ConstLru.right_left_rotate]
  rw [hzr']
  obtain ⟨r1, r2, r3, r4, r5, r6⟩ :=
    right_rotate_spec s ((BstChild.Right, z, A) :: ctx) B y C x D
      hrepr hnodup
  have hnodes1 : (plug ((BstChild.Right, z, A) :: ctx)
      (Tr.node (Tr.node B y C) x D)).nodes =
      (plug ((BstChild.Right, z, A) :: ctx)
        (Tr.node B y (Tr.node C x D))).nodes :=
    plug_nodes_congr (rotate_nodes_eq B y C x D).symm
  have hnodup2 : (plug ((BstChild.Right, z, A) :: ctx)
      (Tr.node B y (Tr.node C x D))).nodes.Nodup := hnodes1 ▸ hnodup
  obtain ⟨l1, l2, l3, l4, l5, l6⟩ :=
    left_rotate_spec (s.right_rotate x) ctx A z B y (Tr.node C x D)
      r1 hnodup2
  refine ⟨l1, l2, ?_, ?_, ?_, ?_⟩
  · intro hce
    rw [l3 hce, r3 (List.cons_ne_nil _ _)]
  · intro j hj hjC
    have hj2 : j ∉ (plug ((BstChild.Right, z, A) :: ctx)
        (Tr.node B y (Tr.node C x D))).nodes := fun hm =>
      hj (hnodes1 ▸ hm)
    obtain ⟨lp, ll, lr⟩ := l4 j hj2 hjC
    obtain ⟨rp, rl, rrw⟩ := r4 j hj hjC
    exact ⟨lp.trans rp, ll.trans rl, lr.trans rrw⟩
  · rcases l5 with h | h
    · rcases r5 with h1 | h1
      · exact Or.inl (h.trans h1)
      · exact Or.inr (h.trans h1)
    · exact Or.inr h
  · rcases l6 with h | h
    · rcases r6 with h1 | h1
      · exact Or.inl (h.trans h1)
      · exact Or.inr (h.trans h1)
    · exact Or.inr h

/-- The in-order index sequence of the tree, read through the state's
key array, is strictly increasing. -/
def SortedTree [LinearOrder K] (s : ConstLru K V CAP) (t : Tr) : Prop :=
  t.nodes.Pairwise (fun a b => s.keys a < s.keys b)

/-- The joint invariant of the red-black-tree index as maintained by the
code between public operations: the arrays represent some tree `t` with
no duplicate slot, the root pointer matches, in-order keys strictly
increase, every slot outside the tree has sentinel child links, and the
root is black. -/
def RbOk [LinearOrder K] (s : ConstLru K V CAP) (t : Tr) : Prop :=
  TreeRepr s t CAP ∧ t.nodes.Nodup ∧ s.root = rootIdx CAP t ∧
  SortedTree s t ∧
  (∀ j, j ∉ t.nodes → s.lefts j = CAP ∧ s.rights j = CAP) ∧
  (t ≠ Tr.nil → s.rbColors (rootIdx CAP t) = RbColor.Black)

/-- A subtree of a sorted tree is sorted. -/
theorem sortedTree_of_plug [LinearOrder K] {s : ConstLru K V CAP}
    {ctx : Ctx} {sub : Tr} (h : SortedTree s (plug ctx sub)) :
    sub.nodes.Pairwise (fun a b => s.keys a < s.keys b) := by
  have hsl : sub.nodes.Sublist (plug ctx sub).nodes := by
    rw [plug_nodes]
    have h1 : sub.nodes.Sublist (sub.nodes ++ ctxB ctx) :=
      List.sublist_append_left _ _
    have h2 : (sub.nodes ++ ctxB ctx).Sublist
        (ctxA ctx ++ (sub.nodes ++ ctxB ctx)) :=
      List.sublist_append_right _ _
    have h3 := h1.trans h2
    rwa [← List.append_assoc] at h3
  exact h.sublist hsl

/-- Correctness of the search loop `find_in_bst_go`: starting at the
root of a focused subtree whose search window contains `k`, it either
finds the unique slot holding `k` or returns a valid empty insertion
position for `k`. -/
theorem find_go_spec [LinearOrder K] (s : ConstLru K V CAP) (k : K) :
    ∀ (fuel : Nat) (ctx : Ctx) (sub : Tr),
    TreeRepr s (plug ctx sub) CAP →
    SortedTree s (plug ctx sub) →
    (∀ a ∈ ctxA ctx, s.keys a < k) →
    (∀ b ∈ ctxB ctx, k < s.keys b) →
    sub ≠ Tr.nil →
    sub.nodes.length < fuel →
    (∀ i, s.find_in_bst_go k fuel (rootIdx CAP sub) = FindResult.found i →
      i ∈ sub.nodes ∧ s.keys i = k) ∧
    (∀ p d,
      s.find_in_bst_go k fuel (rootIdx CAP sub) = FindResult.missing p d →
      ∃ ctx2, plug ctx2 Tr.nil = plug ctx sub ∧ p = ctxParent CAP ctx2 ∧
        d = holeDir ctx2 ∧ (∀ a ∈ ctxA ctx2, s.keys a < k) ∧
        (∀ b ∈ ctxB ctx2, k < s.keys b)) := by
  intro fuel
  induction fuel with
  | zero =>
    intro ctx sub _ _ _ _ _ hlen
    omega
  | succ n ih =>
    intro ctx sub hrepr hsorted hA hB hne hlen
    cases sub with
    | nil => exact absurd rfl hne
    | node l i r =>
      obtain ⟨hctxd, hsubd⟩ :=
        (treeRepr_plug_iff s ctx (Tr.node l i r)).mp hrepr
      obtain ⟨hilt, hipar, hil, hir, hlrep, hrrep⟩ := hsubd
      have hsub_pw : (Tr.node l i r).nodes.Pairwise
          (fun a b => s.keys a < s.keys b) := sortedTree_of_plug hsorted
      have hpw : (l.nodes ++ i :: r.nodes).Pairwise
          (fun a b => s.keys a < s.keys b) := hsub_pw
      rw [List.pairwise_append] at hpw
      obtain ⟨hpwl, hpwir, hpwcross⟩ := hpw
      rw [List.pairwise_cons] at hpwir
      obtain ⟨hir_lt, hpwr⟩ := hpwir
      have hli_lt : ∀ a ∈ l.nodes, s.keys a < s.keys i := fun a ha =>
        hpwcross a ha i (List.mem_cons_self _ _)
      have hlen' : l.nodes.length + 1 + r.nodes.length = 
          (Tr.node l i r).nodes.length := by
        simp [Tr.nodes]
        omega
      cases hc : compare (s.keys i) k with
      | eq =>
        constructor
        · intro i0 hfind
          simp only [ConstLru.find_in_bst_go, rootIdx, hc] at hfind
          cases hfind
          exact ⟨rootIdx_mem_nodes, compare_eq_iff_eq.mp hc⟩
        · intro p d hfind
          simp only [ConstLru.find_in_bst_go, rootIdx, hc] at hfind
          cases hfind
      | lt =>
        have hik : s.keys i < k := compare_lt_iff_lt.mp hc
        have hA2 : ∀ a ∈ ctxA ((BstChild.Right, i, l) :: ctx),
            s.keys a < k := by
          intro a ha
          simp only [ctxA, List.mem_append, List.mem_singleton] at ha
          rcases ha with ha | ha | rfl
          · exact hA a ha
          · exact (hli_lt a ha).trans hik
          · exact hik
        have hB2 : ∀ b ∈ ctxB ((BstChild.Right, i, l) :: ctx),
            k < s.keys b := hB
        cases r with
        | nil =>
          constructor
          · intro i0 hfind
            simp only [ConstLru.find_in_bst_go, rootIdx, hc, hir,
              if_true] at hfind
            cases hfind
          · intro p d hfind
            simp only [ConstLru.find_in_bst_go, rootIdx, hc, hir,
              if_true, FindResult.missing.injEq] at hfind
            obtain ⟨hp, hd⟩ := hfind
            refine ⟨(BstChild.Right, i, l) :: ctx, rfl, hp.symm, hd.symm,
              hA2, hB2⟩
        | node rl ri rr =>
          have hrne : ri ≠ CAP := rootIdx_ne_cap hrrep
          have hih := ih ((BstChild.Right, i, l) :: ctx) (Tr.node rl ri rr)
            hrepr hsorted hA2 hB2 (by intro h; cases h) (by
              rw [← hlen'] at hlen
              simp only [Tr.nodes] at *
              omega)
          constructor
          · intro i0 hfind
            simp only [ConstLru.find_in_bst_go, rootIdx, hc, hir,
              if_neg hrne] at hfind
            have := hih.1 i0 (by
              simpa [rootIdx] using hfind)
            refine ⟨?_, this.2⟩
            have hmem := this.1
            simp only [Tr.nodes, List.mem_append, List.mem_cons] at *
            tauto
          · intro p d hfind
            simp only [ConstLru.find_in_bst_go, rootIdx, hc, hir,
              if_neg hrne] at hfind
            exact hih.2 p d (by simpa [rootIdx] using hfind)
      | gt =>
        have hik : k < s.keys i := compare_gt_iff_gt.mp hc
        have hB2 : ∀ b ∈ ctxB ((BstChild.Left, i, r) :: ctx),
            k < s.keys b := by
          intro b hb
          simp only [ctxB, List.mem_append, List.mem_cons] at hb
          rcases hb with (rfl | hb) | hb
          · exact hik
          · exact hik.trans (hir_lt b hb)
          · exact hB b hb
        have hA2 : ∀ a ∈ ctxA ((BstChild.Left, i, r) :: ctx),
            s.keys a < k := hA
        cases l with
        | nil =>
          constructor
          · intro i0 hfind
            simp only [ConstLru.find_in_bst_go, rootIdx, hc, hil,
              if_true] at hfind
            cases hfind
          · intro p d hfind
            simp only [ConstLru.find_in_bst_go, rootIdx, hc, hil,
              if_true, FindResult.missing.injEq] at hfind
            obtain ⟨hp, hd⟩ := hfind
            refine ⟨(BstChild.Left, i, r) :: ctx, rfl, hp.symm, hd.symm,
              hA2, hB2⟩
        | node ll li lr =>
          have hlne : li ≠ CAP := rootIdx_ne_cap hlrep
          have hih := ih ((BstChild.Left, i, r) :: ctx) (Tr.node ll li lr)
            hrepr hsorted hA2 hB2 (by intro h; cases h) (by
              rw [← hlen'] at hlen
              simp only [Tr.nodes] at *
              omega)
          constructor
          · intro i0 hfind
            simp only [ConstLru.find_in_bst_go, rootIdx, hc, hil,
              if_neg hlne] at hfind
            have := hih.1 i0 (by simpa [rootIdx] using hfind)
            refine ⟨?_, this.2⟩
            have hmem := this.1
            simp only [Tr.nodes, List.mem_append, List.mem_cons] at *
            tauto
          · intro p d hfind
            simp only [ConstLru.find_in_bst_go, rootIdx, hc, hil,
              if_neg hlne] at hfind
            exact hih.2 p d (by simpa [rootIdx] using hfind)

/-- A duplicate-free list of slots below `CAP` has at most `CAP`
entries. -/
theorem nodes_length_le_cap {l : List Nat} (hnd : l.Nodup)
    (hlt : ∀ j ∈ l, j < CAP) : l.length ≤ CAP := by
  have hsub : l ⊆ List.range CAP := fun j hj =>
    List.mem_range.mpr (hlt j hj)
  have := (List.subperm_of_subset hnd hsub).length_le
  simpa using this

/-- Strictly increasing keys make the key map injective on the tree. -/
theorem sorted_key_inj [LinearOrder K] {s : ConstLru K V CAP} {l : List Nat}
    (h : l.Pairwise (fun a b => s.keys a < s.keys b)) :
    ∀ i ∈ l, ∀ j ∈ l, s.keys i = s.keys j → i = j := by
  intro i hi j hj he
  by_contra hne
  have h2 : l.Pairwise
      (fun a b => s.keys a < s.keys b ∨ s.keys b < s.keys a) :=
    h.imp (fun hab => Or.inl hab)
  have hsym : Symmetric
      (fun a b : Nat => s.keys a < s.keys b ∨ s.keys b < s.keys a) :=
    fun x y hxy => hxy.symm
  have h3 := h2.forall hsym
  rcases h3 hi hj hne with h4 | h4
  · exact absurd he (ne_of_lt h4)
  · exact absurd he.symm (ne_of_lt h4)

/-- Correctness of `find_in_bst` on a well-formed tree: a `found` result
names the unique slot holding the key, and a `missing` result certifies
the key is absent and designates a valid sorted insertion position. -/
theorem find_in_bst_spec [LinearOrder K] (s : ConstLru K V CAP) (t : Tr)
    (k : K) (hok : RbOk s t) :
    (∀ i, s.find_in_bst k = FindResult.found i →
      i ∈ t.nodes ∧ s.keys i = k) ∧
    (∀ p d, s.find_in_bst k = FindResult.missing p d →
      (∀ j ∈ t.nodes, s.keys j ≠ k) ∧
      ∃ ctx2, plug ctx2 Tr.nil = t ∧ p = ctxParent CAP ctx2 ∧
        d = holeDir ctx2 ∧ (∀ a ∈ ctxA ctx2, s.keys a < k) ∧
        (∀ b ∈ ctxB ctx2, k < s.keys b)) := by
  obtain ⟨hrepr, hnd, hroot, hsorted, hvac, hblack⟩ := hok
  by_cases hr : s.root = CAP
  · have htnil : t = Tr.nil :=
      eq_nil_of_rootIdx_eq hrepr (hroot ▸ hr)
    subst htnil
    constructor
    · intro i hfind
      simp [ConstLru.find_in_bst, hr] at hfind
    · intro p d hfind
      simp [ConstLru.find_in_bst, hr, FindResult.missing.injEq] at hfind
      refine ⟨fun j hj => absurd hj (by simp [Tr.nodes]), [], rfl, ?_, ?_,
        ?_, ?_⟩
      · simpa [ctxParent] using hfind.1.symm
      · simpa [holeDir] using hfind.2.symm
      · intro a ha; simp [ctxA] at ha
      · intro b hb; simp [ctxB] at hb
  · have htne : t ≠ Tr.nil := by
      intro he
      subst he
      exact hr (by simpa [rootIdx] using hroot)
    have hlen : t.nodes.length < CAP + 1 := by
      have := nodes_length_le_cap hnd (mem_nodes_lt hrepr)
      omega
    have hgo := find_go_spec s k (CAP + 1) [] t hrepr hsorted
      (by intro a ha; simp [ctxA] at ha)
      (by intro b hb; simp [ctxB] at hb) htne hlen
    have hunf : s.find_in_bst k = s.find_in_bst_go k (CAP + 1) s.root := by
      simp [ConstLru.find_in_bst, hr]
    have hgoeq : s.find_in_bst k =
        s.find_in_bst_go k (CAP + 1) (rootIdx CAP t) := by
      rw [hunf, hroot]
    constructor
    · intro i hfind
      exact hgo.1 i (by rw [← hgoeq]; exact hfind)
    · intro p d hfind
      have h2 := hgo.2 p d (by rw [← hgoeq]; exact hfind)
      obtain ⟨ctx2, hpl, hp, hd, hA2, hB2⟩ := h2
      simp only [plug] at hpl
      refine ⟨?_, ctx2, hpl, hp, hd, hA2, hB2⟩
      intro j hj he
      have : j ∈ ctxA ctx2 ++ ctxB ctx2 := by
        rw [← hpl] at hj
        rw [plug_nodes] at hj
        simpa [Tr.nodes] using hj
      rcases List.mem_append.mp this with h | h
      · exact absurd he (ne_of_lt (hA2 j h))
      · exact absurd he.symm (ne_of_lt (hB2 j h))

/-- On a well-formed tree, a slot holding the key is found by
`find_in_bst`. -/
theorem find_found_of_mem [LinearOrder K] {s : ConstLru K V CAP} {t : Tr}
    {k : K} (hok : RbOk s t) {j : Nat} (hj : j ∈ t.nodes)
    (hk : s.keys j = k) : s.find_in_bst k = FindResult.found j := by
  have hspec := find_in_bst_spec s t k hok
  cases hfind : s.find_in_bst k with
  | found i =>
    obtain ⟨hi, hik⟩ := hspec.1 i hfind
    have := sorted_key_inj hok.2.2.2.1 i hi j hj (by rw [hik, hk])
    rw [← this]
  | missing p d =>
    exact absurd hk ((hspec.2 p d hfind).1 j hj)

@[simp] theorem set_rb_color_lefts (s : ConstLru K V CAP) (i : Nat)
    (c : RbColor) : (s.set_rb_color i c).lefts = s.lefts := rfl

@[simp] theorem set_rb_color_rights (s : ConstLru K V CAP) (i : Nat)
    (c : RbColor) : (s.set_rb_color i c).rights = s.rights := rfl

@[simp] theorem set_rb_color_parents (s : ConstLru K V CAP) (i : Nat)
    (c : RbColor) : (s.set_rb_color i c).parents = s.parents := rfl

@[simp] theorem set_rb_color_root (s : ConstLru K V CAP) (i : Nat)
    (c : RbColor) : (s.set_rb_color i c).root = s.root := rfl

@[simp] theorem set_rb_color_rbColors (s : ConstLru K V CAP) (i : Nat)
    (c : RbColor) :
    (s.set_rb_color i c).rbColors = setF s.rbColors i c := rfl

/-- Recoloring does not disturb a tree representation. -/
theorem TreeRepr_set_rb_color {s : ConstLru K V CAP} {t : Tr} {p : Nat}
    (i : Nat) (c : RbColor) (h : TreeRepr s t p) :
    TreeRepr (s.set_rb_color i c) t p := by
  refine TreeRepr_congr (fun j _ => ?_) h
  exact ⟨rfl, rfl, rfl⟩

/-- Plugging a concatenated context plugs in two stages. -/
theorem plug_append (c1 c2 : Ctx) (t : Tr) :
    plug (c1 ++ c2) t = plug c2 (plug c1 t) := by
  induction c1 generalizing t with
  | nil => rfl
  | cons fr c1 ih =>
    rcases fr with ⟨d, p, sib⟩
    cases d <;> simp [plug, ih]

/-- Every member of a tree sits at some zipper position. -/
theorem exists_ctx_of_mem {t : Tr} {n : Nat} (hm : n ∈ t.nodes) :
    ∃ ctx l r, plug ctx (Tr.node l n r) = t := by
  induction t with
  | nil => cases hm
  | node L i R ihl ihr =>
    have hm' : n ∈ L.nodes ∨ n = i ∨ n ∈ R.nodes := by
      simpa [Tr.nodes] using hm
    rcases hm' with h | rfl | h
    · obtain ⟨ctx, a, b, hab⟩ := ihl h
      refine ⟨ctx ++ [(BstChild.Left, i, R)], a, b, ?_⟩
      rw [plug_append, hab]
      rfl
    · exact ⟨[], L, R, rfl⟩
    · obtain ⟨ctx, a, b, hab⟩ := ihr h
      refine ⟨ctx ++ [(BstChild.Right, i, L)], a, b, ?_⟩
      rw [plug_append, hab]
      rfl

/-- With a nonempty context the root of the plugged tree is a context
index. -/
theorem rootIdx_plug_mem (CAP : Nat) :
    ∀ (ctx : Ctx) (sub : Tr), ctx ≠ [] →
    rootIdx CAP (plug ctx sub) ∈ ctxA ctx ++ ctxB ctx := by
  intro ctx
  induction ctx with
  | nil => intro sub h; exact absurd rfl h
  | cons fr ctx ih =>
    rcases fr with ⟨d, p, sib⟩
    intro sub _
    by_cases hc : ctx = []
    · subst hc
      refine (mem_ctxAB_cons d p sib [] _).mpr (Or.inl ?_)
      cases d <;> rfl
    · refine (mem_ctxAB_cons d p sib ctx _).mpr (Or.inr (Or.inr ?_))
      have h2 : plug ((d, p, sib) :: ctx) sub =
          plug ctx (match d with
            | BstChild.Left => Tr.node sub p sib
            | BstChild.Right => Tr.node sib p sub) := by
        cases d <;> rfl
      rw [h2]
      exact ih _ hc

/-- A context never has more frames than recorded indices. -/
theorem ctx_length_le (ctx : Ctx) :
    ctx.length ≤ (ctxA ctx ++ ctxB ctx).length := by
  induction ctx with
  | nil => simp
  | cons fr ctx ih =>
    rcases fr with ⟨d, p, sib⟩
    have := (ctxAB_cons_perm d p sib ctx).length_eq
    simp only [List.length_cons, List.length_append] at *
    omega

/-- The shape of the tree index after a structural operation completes,
relative to the fixed in-order slot list `L`: some tree over exactly
those slots is represented, with matching root pointer, clean vacant
slots and a black root.  Key order is not tracked here because the
operations concerned never touch the key array. -/
def TreeOkNC (s : ConstLru K V CAP) (L : List Nat) : Prop :=
  ∃ t, TreeRepr s t CAP ∧ t.nodes = L ∧ L.Nodup ∧
    s.root = rootIdx CAP t ∧
    (∀ j, j ∉ L → s.lefts j = CAP ∧ s.rights j = CAP) ∧
    (L ≠ [] → s.rbColors (rootIdx CAP t) = RbColor.Black)

/-- Invariant of the `insert_rb` fixup loop: the arrays represent a tree
over the slots `L` in order, the examined node `n` sits at depth `dep`,
and the root is black unless it is `n` itself. -/
def InsFixInv (s : ConstLru K V CAP) (L : List Nat) (n : Nat)
    (dep : Nat) : Prop :=
  ∃ t ctx l r, plug ctx (Tr.node l n r) = t ∧ TreeRepr s t CAP ∧
    t.nodes = L ∧ L.Nodup ∧ s.root = rootIdx CAP t ∧
    (∀ j, j ∉ L → s.lefts j = CAP ∧ s.rights j = CAP) ∧
    (s.rbColors (rootIdx CAP t) = RbColor.Black ∨ rootIdx CAP t = n) ∧
    ctx.length = dep

/-- Shared closing argument of the rotation branches of
`insert_rb_fixup`: after an in-order-preserving reshaping followed by
painting the new subtree root black and the old grandparent red, the
tree invariant holds relative to the unchanged slot list. -/
theorem rotate_recolor_TreeOkNC (s s1 : ConstLru K V CAP) (ctx2 : Ctx)
    (told tnew : Tr) (b rd : Nat)
    (hTR : TreeRepr s1 (plug ctx2 tnew) CAP)
    (hnodeseq : tnew.nodes = told.nodes)
    (hrootn : ctx2 = [] → s1.root = rootIdx CAP tnew)
    (hrootc : ctx2 ≠ [] → s1.root = s.root)
    (hframe : ∀ j, j ∉ (plug ctx2 told).nodes → j ≠ CAP →
      s1.lefts j = s.lefts j ∧ s1.rights j = s.rights j)
    (hcapL : s1.lefts CAP = s.lefts CAP ∨ s1.lefts CAP = CAP)
    (hcapR : s1.rights CAP = s.rights CAP ∨ s1.rights CAP = CAP)
    (hcolors : s1.rbColors = s.rbColors)
    (hrootold : s.root = rootIdx CAP (plug ctx2 told))
    (hnd : (plug ctx2 told).nodes.Nodup)
    (hvac : ∀ j, j ∉ (plug ctx2 told).nodes →
      s.lefts j = CAP ∧ s.rights j = CAP)
    (hrootblack : s.rbColors (rootIdx CAP (plug ctx2 told)) = RbColor.Black)
    (hb : b = rootIdx CAP tnew)
    (hbrd : b ≠ rd)
    (hrdmem : rd ∈ tnew.nodes) :
    TreeOkNC ((s1.set_rb_color b RbColor.Black).set_rb_color rd RbColor.Red)
      (plug ctx2 told).nodes := by
  have hpnodes : (plug ctx2 tnew).nodes = (plug ctx2 told).nodes :=
    plug_nodes_congr hnodeseq
  have hCAPnot : CAP ∉ (plug ctx2 told).nodes := by
    intro hm
    exact absurd (mem_nodes_lt hTR CAP (hpnodes ▸ hm)) (lt_irrefl CAP)
  refine ⟨plug ctx2 tnew,
    TreeRepr_set_rb_color _ _ (TreeRepr_set_rb_color _ _ hTR),
    hpnodes, hpnodes ▸ hnd, ?_, ?_, ?_⟩
  · show s1.root = rootIdx CAP (plug ctx2 tnew)
    by_cases hc2 : ctx2 = []
    · subst hc2
      exact hrootn rfl
    · rw [hrootc hc2, hrootold]
      exact rootIdx_plug ctx2 told tnew hc2
  · intro j hj
    show s1.lefts j = CAP ∧ s1.rights j = CAP
    by_cases hjC : j = CAP
    · rw [hjC]
      have hv := hvac CAP hCAPnot
      constructor
      · rcases hcapL with h | h
        · rw [h, hv.1]
        · exact h
      · rcases hcapR with h | h
        · rw [h, hv.2]
        · exact h
    · obtain ⟨h1, h2⟩ := hframe j hj hjC
      have hv := hvac j hj
      exact ⟨h1.trans hv.1, h2.trans hv.2⟩
  · intro _
    show setF (setF s1.rbColors b RbColor.Black) rd RbColor.Red
      (rootIdx CAP (plug ctx2 tnew)) = RbColor.Black
    by_cases hc2 : ctx2 = []
    · subst hc2
      show setF (setF s1.rbColors b RbColor.Black) rd RbColor.Red
        (rootIdx CAP tnew) = RbColor.Black
      rw [← hb]
      simp [setF, hbrd]
    · have hR : rootIdx CAP (plug ctx2 tnew) =
          rootIdx CAP (plug ctx2 told) :=
        rootIdx_plug ctx2 tnew told hc2
      have hRAB : rootIdx CAP (plug ctx2 told) ∈ ctxA ctx2 ++ ctxB ctx2 :=
        rootIdx_plug_mem CAP ctx2 told hc2
      have hdisj := ctx_sub_disjoint hnd
      have hRnot : rootIdx CAP (plug ctx2 told) ∉ told.nodes :=
        hdisj _ hRAB
      have hbmem : b ∈ tnew.nodes := by
        cases tnew with
        | nil => cases hrdmem
        | node a i c =>
          rw [hb]
          exact rootIdx_mem_nodes
      have hRb : rootIdx CAP (plug ctx2 told) ≠ b := fun he =>
        hRnot (he ▸ (hnodeseq ▸ hbmem))
      have hRrd : rootIdx CAP (plug ctx2 told) ≠ rd := fun he =>
        hRnot (he ▸ (hnodeseq ▸ hrdmem))
      rw [hR]
      simp only [setF, if_neg hRrd, if_neg hRb]
      rw [congrFun hcolors _]
      exact hrootblack

/-- Shared closing argument of the recoloring branch of
`insert_rb_fixup`: blackening the uncle and parent and reddening the
grandparent re-establishes the loop invariant focused at the
grandparent. -/
theorem recolor_InsFixInv (s : ConstLru K V CAP) (ctx2 : Ctx)
    (lw rw : Tr) (p gp u dp : Nat)
    (hrepr : TreeRepr s (plug ctx2 (Tr.node lw gp rw)) CAP)
    (hnd : (plug ctx2 (Tr.node lw gp rw)).nodes.Nodup)
    (hroot : s.root = rootIdx CAP (plug ctx2 (Tr.node lw gp rw)))
    (hvac : ∀ j, j ∉ (plug ctx2 (Tr.node lw gp rw)).nodes →
      s.lefts j = CAP ∧ s.rights j = CAP)
    (hrootblack : s.rbColors (rootIdx CAP (plug ctx2 (Tr.node lw gp rw))) =
      RbColor.Black)
    (hpmem : p ∈ (Tr.node lw gp rw).nodes)
    (humem : u ∈ (Tr.node lw gp rw).nodes)
    (hdp : ctx2.length = dp) :
    InsFixInv
      (((s.set_rb_color u RbColor.Black).set_rb_color p
        RbColor.Black).set_rb_color gp RbColor.Red)
      (plug ctx2 (Tr.node lw gp rw)).nodes gp dp := by
  refine ⟨plug ctx2 (Tr.node lw gp rw), ctx2, lw, rw, rfl,
    TreeRepr_set_rb_color _ _ (TreeRepr_set_rb_color _ _
      (TreeRepr_set_rb_color _ _ hrepr)), rfl, hnd, ?_, ?_, ?_, hdp⟩
  · simpa using hroot
  · intro j hj
    simpa using hvac j hj
  · by_cases hRgp : rootIdx CAP (plug ctx2 (Tr.node lw gp rw)) = gp
    · exact Or.inr hRgp
    · refine Or.inl ?_
      have hc2 : ctx2 ≠ [] := by
        intro he
        subst he
        exact hRgp rfl
      have hRAB := rootIdx_plug_mem CAP ctx2 (Tr.node lw gp rw) hc2
      have hdisj := ctx_sub_disjoint hnd
      have hRnot := hdisj _ hRAB
      have hRp : rootIdx CAP (plug ctx2 (Tr.node lw gp rw)) ≠ p :=
        fun he => hRnot (he ▸ hpmem)
      have hRu : rootIdx CAP (plug ctx2 (Tr.node lw gp rw)) ≠ u :=
        fun he => hRnot (he ▸ humem)
      show setF (setF (setF s.rbColors u RbColor.Black) p RbColor.Black)
        gp RbColor.Red (rootIdx CAP (plug ctx2 (Tr.node lw gp rw))) =
        RbColor.Black
      simp only [setF, if_neg hRgp, if_neg hRp, if_neg hRu]
      exact hrootblack

/-- One step of the insertion fixup loop: with the loop invariant at
node `n` and depth `dep`, the step either terminates with the tree
invariant restored, or continues at the grandparent two levels up. -/
theorem insert_rb_fixup_spec (s : ConstLru K V CAP) (L : List Nat)
    (n dep : Nat) (hinv : InsFixInv s L n dep) :
    ((s.insert_rb_fixup n).2 = none → TreeOkNC (s.insert_rb_fixup n).1 L) ∧
    (∀ g, (s.insert_rb_fixup n).2 = some g →
      2 ≤ dep ∧ InsFixInv (s.insert_rb_fixup n).1 L g (dep - 2)) := by
  obtain ⟨t, ctx, l, r, hplug, hrepr, hLn, hLnd, hroot, hvac, hrb, hdep⟩ :=
    hinv
  subst hplug
  subst hLn
  obtain ⟨hctxd, hsubd⟩ :=
    (treeRepr_plug_iff s ctx (Tr.node l n r)).mp hrepr
  obtain ⟨hnlt, hnpar, hnl, hnr, hlrep, hrrep⟩ := hsubd
  by_cases hnroot : n = s.root
  · have hfix : s.insert_rb_fixup n =
        (s.set_rb_color n RbColor.Black, none) := by
      simp only [ConstLru.insert_rb_fixup]
      rw [if_pos hnroot]
    rw [hfix]
    constructor
    · intro _
      refine ⟨plug ctx (Tr.node l n r), TreeRepr_set_rb_color _ _ hrepr,
        rfl, hLnd, ?_, ?_, ?_⟩
      · simpa using hroot
      · intro j hj
        simpa using hvac j hj
      · intro _
        have hreq : rootIdx CAP (plug ctx (Tr.node l n r)) = n := by
          rw [← hroot, ← hnroot]
        rw [hreq]
        simp [setF]
    · intro g hg
      exact Option.noConfusion hg
  · have hctxne : ctx ≠ [] := by
      intro he
      subst he
      exact hnroot (by rw [hroot]; rfl)
    cases ctx with
    | nil => exact absurd rfl hctxne
    | cons fr1 ctx1 =>
    rcases fr1 with ⟨d1, p, sib1⟩
    obtain ⟨hplt, hppar0, hpdir, hsib1rep, hctx1ok⟩ := hctxd
    have hnpar' : s.parents n = p := by
      simpa [ctxParent] using hnpar
    have hpne : p ≠ CAP := by omega
    have hnne : n ≠ CAP := by omega
    have hgcp : s.get_rb_color p = s.rbColors p := by
      simp [ConstLru.get_rb_color, hpne]
    have hgcn : s.get_rb_color n = s.rbColors n := by
      simp [ConstLru.get_rb_color, hnne]
    by_cases hred : s.rbColors p = RbColor.Red ∧ s.rbColors n = RbColor.Red
    · -- both the node and its parent are red: active fixup
      have hrootblack : s.rbColors
          (rootIdx CAP (plug ((d1, p, sib1) :: ctx1) (Tr.node l n r))) =
          RbColor.Black := by
        rcases hrb with h | h
        · exact h
        · exact absurd (hroot.trans h).symm hnroot
      have hproot : p ≠
          rootIdx CAP (plug ((d1, p, sib1) :: ctx1) (Tr.node l n r)) := by
        intro he
        rw [← he, hred.1] at hrootblack
        cases hrootblack
      have hctx1ne : ctx1 ≠ [] := by
        intro he
        subst he
        apply hproot
        cases d1 <;> rfl
      cases ctx1 with
      | nil => exact absurd rfl hctx1ne
      | cons fr2 ctx2 =>
      rcases fr2 with ⟨d2, gp, sib2⟩
      obtain ⟨hgplt, hgppar0, hgpdir, hsib2rep, hctx2ok⟩ := hctx1ok
      have hppar : s.parents p = gp := by
        simpa [ctxParent] using hppar0
      by_cases hu : s.get_rb_color (rootIdx CAP sib2) = RbColor.Red
      · -- red uncle: recolor and continue at the grandparent
        have hexX : ∃ X : Tr,
            (∀ ctx' : Ctx, plug ((d1, p, sib1) :: ctx') (Tr.node l n r) =
              plug ctx' X) ∧ p ∈ X.nodes ∧ n ∈ X.nodes := by
          cases d1
          · exact ⟨Tr.node (Tr.node l n r) p sib1, fun _ => rfl,
              by simp [Tr.nodes], by simp [Tr.nodes]⟩
          · exact ⟨Tr.node sib1 p (Tr.node l n r), fun _ => rfl,
              by simp [Tr.nodes], by simp [Tr.nodes]⟩
        obtain ⟨X, hXeq, hpX, hnX⟩ := hexX
        rw [hXeq] at hrepr hLnd hroot hvac hrootblack hproot ⊢
        have hsib2ne : sib2 ≠ Tr.nil := by
          intro he
          subst he
          simp [ConstLru.get_rb_color, rootIdx] at hu
        have humem : rootIdx CAP sib2 ∈ sib2.nodes := by
          cases sib2 with
          | nil => exact absurd rfl hsib2ne
          | node a i c => exact rootIdx_mem_nodes
        have hlen2 : ((d1, p, sib1) :: (d2, gp, sib2) :: ctx2).length =
            dep := hdep
        cases d2 with
        | Left =>
          obtain ⟨hgpd1, hgpd2⟩ := hgpdir
          have ht2 : (if s.lefts gp = p then
              (BstChild.Left, s.rights gp)
              else (BstChild.Right, s.lefts gp)) =
              (BstChild.Left, rootIdx CAP sib2) := by
            rw [if_pos hgpd1, hgpd2]
          have hfix : s.insert_rb_fixup n =
              (((s.set_rb_color (rootIdx CAP sib2)
                RbColor.Black).set_rb_color p
                RbColor.Black).set_rb_color gp RbColor.Red, some gp) := by
            simp only [ConstLru.insert_rb_fixup]
            rw [if_neg hnroot, hnpar', hgcp, hgcn,
              if_neg (not_not_intro hred), hppar, ht2]
            dsimp only
            rw [if_pos hu]
          rw [hfix]
          refine ⟨fun h => Option.noConfusion h, fun g hg => ?_⟩
          have hgeq := Option.some.inj hg
          subst hgeq
          refine ⟨by simp at hlen2; omega, ?_⟩
          have := recolor_InsFixInv s ctx2 _ sib2 p gp (rootIdx CAP sib2)
            (dep - 2) hrepr hLnd hroot hvac hrootblack
            (by simp only [Tr.nodes, List.mem_append]; exact Or.inl hpX)
            (by
              simp only [Tr.nodes, List.mem_append, List.mem_cons]
              exact Or.inr (Or.inr humem))
            (by simp at hlen2; omega)
          exact this
        | Right =>
          obtain ⟨hgpd1, hgpd2⟩ := hgpdir
          have hnd2 : (sib2.nodes ++ gp :: X.nodes).Nodup :=
            @nodup_parts ctx2 (Tr.node sib2 gp X) hLnd
          have hgpdisj : ∀ a ∈ sib2.nodes, a ∉ gp :: X.nodes := by
            rw [List.nodup_append] at hnd2
            exact fun a ha hb => hnd2.2.2 ha hb
          have hs2p : rootIdx CAP sib2 ≠ p := by
            cases sib2 with
            | nil =>
              intro he
              simp only [rootIdx] at he
              omega
            | node a i c =>
              intro he
              have hi : i = p := by simpa [rootIdx] using he
              refine hgpdisj i rootIdx_mem_nodes ?_
              rw [hi]
              exact List.mem_cons_of_mem _ hpX
          have ht2 : (if s.lefts gp = p then
              (BstChild.Left, s.rights gp)
              else (BstChild.Right, s.lefts gp)) =
              (BstChild.Right, rootIdx CAP sib2) := by
            rw [if_neg (fun he => hs2p (hgpd2 ▸ he)), hgpd2]
          have hfix : s.insert_rb_fixup n =
              (((s.set_rb_color (rootIdx CAP sib2)
                RbColor.Black).set_rb_color p
                RbColor.Black).set_rb_color gp RbColor.Red, some gp) := by
            simp only [ConstLru.insert_rb_fixup]
            rw [if_neg hnroot, hnpar', hgcp, hgcn,
              if_neg (not_not_intro hred), hppar, ht2]
            dsimp only
            rw [if_pos hu]
          rw [hfix]
          refine ⟨fun h => Option.noConfusion h, fun g hg => ?_⟩
          have hgeq := Option.some.inj hg
          subst hgeq
          refine ⟨by simp at hdep; omega, ?_⟩
          have := recolor_InsFixInv s ctx2 sib2 _ p gp (rootIdx CAP sib2)
            (dep - 2) hrepr hLnd hroot hvac hrootblack
            (by
              simp only [Tr.nodes, List.mem_append, List.mem_cons]
              exact Or.inr (Or.inr hpX))
            (by simp only [Tr.nodes, List.mem_append]; exact Or.inl humem)
            (by simp at hdep; omega)
          exact this
      · -- black uncle: one or two rotations finish the repair
        cases d1 with
        | Left =>
          obtain ⟨hpd1, hpd2⟩ := hpdir
          simp only [rootIdx] at hpd1
          cases d2 with
          | Left =>
            obtain ⟨hgpd1, hgpd2⟩ := hgpdir
            have hnd2 : ((Tr.node (Tr.node l n r) p sib1).nodes ++
                gp :: sib2.nodes).Nodup :=
              @nodup_parts ctx2
                (Tr.node (Tr.node (Tr.node l n r) p sib1) gp sib2) hLnd
            have hpgp : p ≠ gp := by
              rw [List.nodup_append] at hnd2
              intro he
              exact hnd2.2.2
                (show p ∈ (Tr.node (Tr.node l n r) p sib1).nodes by
                  simp [Tr.nodes])
                (show p ∈ gp :: sib2.nodes by
                  rw [he]; exact List.mem_cons_self _ _)
            have hfix : s.insert_rb_fixup n =
                (((s.right_rotate gp).set_rb_color p
                  RbColor.Black).set_rb_color gp RbColor.Red, none) := by
              simp only [ConstLru.insert_rb_fixup]
              rw [if_neg hnroot, hnpar', hgcp, hgcn,
                if_neg (not_not_intro hred), hppar, if_pos hpd1,
                if_pos hgpd1, hgpd2]
              dsimp only
              rw [if_neg hu, if_neg (by simp), if_neg (by simp)]
            rw [hfix]
            refine ⟨fun _ => ?_, fun g hg => Option.noConfusion hg⟩
            obtain ⟨r1, r2, r3, r4, r5, r6⟩ :=
              right_rotate_spec s ctx2 (Tr.node l n r) p sib1 gp sib2
                hrepr hLnd
            exact rotate_recolor_TreeOkNC s (s.right_rotate gp) ctx2
              (Tr.node (Tr.node (Tr.node l n r) p sib1) gp sib2)
              (Tr.node (Tr.node l n r) p (Tr.node sib1 gp sib2)) p gp
              r1 (by simp [Tr.nodes]) r2 r3
              (fun j hj hjC => ⟨(r4 j hj hjC).2.1, (r4 j hj hjC).2.2⟩)
              r5 r6 (right_rotate_rbColors s gp) hroot hLnd hvac
              hrootblack rfl hpgp (by simp [Tr.nodes])
          | Right =>
            obtain ⟨hgpd1, hgpd2⟩ := hgpdir
            have hnd2 : (sib2.nodes ++
                gp :: (Tr.node (Tr.node l n r) p sib1).nodes).Nodup :=
              @nodup_parts ctx2
                (Tr.node sib2 gp (Tr.node (Tr.node l n r) p sib1)) hLnd
            have hgpnot : gp ∉ (Tr.node (Tr.node l n r) p sib1).nodes := by
              rw [List.nodup_append, List.nodup_cons] at hnd2
              exact hnd2.2.1.1
            have hs2p : rootIdx CAP sib2 ≠ p := by
              cases sib2 with
              | nil =>
                intro he
                simp only [rootIdx] at he
                omega
              | node a i c =>
                intro he
                have hi : i = p := by simpa [rootIdx] using he
                rw [List.nodup_append] at hnd2
                refine hnd2.2.2 rootIdx_mem_nodes ?_
                rw [hi]
                exact List.mem_cons_of_mem _ (by simp [Tr.nodes])
            have hngp : n ≠ gp := by
              intro he
              exact hgpnot (he ▸ (by simp [Tr.nodes] :
                n ∈ (Tr.node (Tr.node l n r) p sib1).nodes))
            have hfix : s.insert_rb_fixup n =
                (((s.right_left_rotate gp).set_rb_color n
                  RbColor.Black).set_rb_color gp RbColor.Red, none) := by
              simp only [ConstLru.insert_rb_fixup]
              rw [if_neg hnroot, hnpar', hgcp, hgcn,
                if_neg (not_not_intro hred), hppar, if_pos hpd1,
                if_neg (fun he => hs2p (hgpd2 ▸ he)), hgpd2]
              dsimp only
              rw [if_neg hu, if_pos (by simp), if_pos (by simp)]
            rw [hfix]
            refine ⟨fun _ => ?_, fun g hg => Option.noConfusion hg⟩
            obtain ⟨r1, r2, r3, r4, r5, r6⟩ :=
              right_left_rotate_spec s ctx2 sib2 gp l n r p sib1
                hrepr hLnd
            exact rotate_recolor_TreeOkNC s (s.right_left_rotate gp) ctx2
              (Tr.node sib2 gp (Tr.node (Tr.node l n r) p sib1))
              (Tr.node (Tr.node sib2 gp l) n (Tr.node r p sib1)) n gp
              r1 (by simp [Tr.nodes]) r2 r3
              (fun j hj hjC => ⟨(r4 j hj hjC).2.1, (r4 j hj hjC).2.2⟩)
              r5 r6 (right_left_rotate_rbColors s gp) hroot hLnd hvac
              hrootblack rfl hngp (by simp [Tr.nodes])
        | Right =>
          obtain ⟨hpd1, hpd2⟩ := hpdir
          have hnd1 : (sib1.nodes ++
              p :: (Tr.node l n r).nodes).Nodup :=
            @nodup_parts ((d2, gp, sib2) :: ctx2)
              (Tr.node sib1 p (Tr.node l n r)) hLnd
          have hs1n : rootIdx CAP sib1 ≠ n := by
            cases sib1 with
            | nil =>
              intro he
              simp only [rootIdx] at he
              omega
            | node a i c =>
              intro he
              have hi : i = n := by simpa [rootIdx] using he
              rw [List.nodup_append] at hnd1
              refine hnd1.2.2 rootIdx_mem_nodes ?_
              rw [hi]
              exact List.mem_cons_of_mem _ (by simp [Tr.nodes])
          have hlp_ne : ¬ s.lefts p = n := fun he => hs1n (hpd2 ▸ he)
          cases d2 with
          | Left =>
            obtain ⟨hgpd1, hgpd2⟩ := hgpdir
            have hnd2 : ((Tr.node sib1 p (Tr.node l n r)).nodes ++
                gp :: sib2.nodes).Nodup :=
              @nodup_parts ctx2
                (Tr.node (Tr.node sib1 p (Tr.node l n r)) gp sib2) hLnd
            have hngp : n ≠ gp := by
              rw [List.nodup_append] at hnd2
              intro he
              exact hnd2.2.2
                (show n ∈ (Tr.node sib1 p (Tr.node l n r)).nodes by
                  simp [Tr.nodes])
                (show n ∈ gp :: sib2.nodes by
                  rw [he]; exact List.mem_cons_self _ _)
            have hfix : s.insert_rb_fixup n =
                (((s.left_right_rotate gp).set_rb_color n
                  RbColor.Black).set_rb_color gp RbColor.Red, none) := by
              simp only [ConstLru.insert_rb_fixup]
              rw [if_neg hnroot, hnpar', hgcp, hgcn,
                if_neg (not_not_intro hred), hppar, if_neg hlp_ne,
                if_pos hgpd1, hgpd2]
              dsimp only
              rw [if_neg hu, if_pos (by simp), if_neg (by simp)]
            rw [hfix]
            refine ⟨fun _ => ?_, fun g hg => Option.noConfusion hg⟩
            obtain ⟨r1, r2, r3, r4, r5, r6⟩ :=
              left_right_rotate_spec s ctx2 sib1 p l n r gp sib2
                hrepr hLnd
            exact rotate_recolor_TreeOkNC s (s.left_right_rotate gp) ctx2
              (Tr.node (Tr.node sib1 p (Tr.node l n r)) gp sib2)
              (Tr.node (Tr.node sib1 p l) n (Tr.node r gp sib2)) n gp
              r1 (by simp [Tr.nodes]) r2 r3
              (fun j hj hjC => ⟨(r4 j hj hjC).2.1, (r4 j hj hjC).2.2⟩)
              r5 r6 (left_right_rotate_rbColors s gp) hroot hLnd hvac
              hrootblack rfl hngp (by simp [Tr.nodes])
          | Right =>
            obtain ⟨hgpd1, hgpd2⟩ := hgpdir
            have hnd2 : (sib2.nodes ++
                gp :: (Tr.node sib1 p (Tr.node l n r)).nodes).Nodup :=
              @nodup_parts ctx2
                (Tr.node sib2 gp (Tr.node sib1 p (Tr.node l n r))) hLnd
            have hgpnot : gp ∉ (Tr.node sib1 p (Tr.node l n r)).nodes := by
              rw [List.nodup_append, List.nodup_cons] at hnd2
              exact hnd2.2.1.1
            have hs2p : rootIdx CAP sib2 ≠ p := by
              cases sib2 with
              | nil =>
                intro he
                simp only [rootIdx] at he
                omega
              | node a i c =>
                intro he
                have hi : i = p := by simpa [rootIdx] using he
                rw [List.nodup_append] at hnd2
                refine hnd2.2.2 rootIdx_mem_nodes ?_
                rw [hi]
                exact List.mem_cons_of_mem _ (by simp [Tr.nodes])
            have hpgp : p ≠ gp := by
              intro he
              exact hgpnot (he ▸ (by simp [Tr.nodes] :
                p ∈ (Tr.node sib1 p (Tr.node l n r)).nodes))
            have hfix : s.insert_rb_fixup n =
                (((s.left_rotate gp).set_rb_color p
                  RbColor.Black).set_rb_color gp RbColor.Red, none) := by
              simp only [ConstLru.insert_rb_fixup]
              rw [if_neg hnroot, hnpar', hgcp, hgcn,
                if_neg (not_not_intro hred), hppar, if_neg hlp_ne,
                if_neg (fun he => hs2p (hgpd2 ▸ he)), hgpd2]
              dsimp only
              rw [if_neg hu, if_neg (by simp), if_pos (by simp)]
            rw [hfix]
            refine ⟨fun _ => ?_, fun g hg => Option.noConfusion hg⟩
            obtain ⟨r1, r2, r3, r4, r5, r6⟩ :=
              left_rotate_spec s ctx2 sib2 gp sib1 p (Tr.node l n r)
                hrepr hLnd
            exact rotate_recolor_TreeOkNC s (s.left_rotate gp) ctx2
              (Tr.node sib2 gp (Tr.node sib1 p (Tr.node l n r)))
              (Tr.node (Tr.node sib2 gp sib1) p (Tr.node l n r)) p gp
              r1 (by simp [Tr.nodes]) r2 r3
              (fun j hj hjC => ⟨(r4 j hj hjC).2.1, (r4 j hj hjC).2.2⟩)
              r5 r6 (left_rotate_rbColors s gp) hroot hLnd hvac
              hrootblack rfl hpgp (by simp [Tr.nodes])
    · -- inactive: nothing to repair
      have hfix : s.insert_rb_fixup n = (s, none) := by
        simp only [ConstLru.insert_rb_fixup]
        rw [if_neg hnroot, hnpar', hgcp, hgcn, if_pos hred]
      rw [hfix]
      constructor
      · intro _
        refine ⟨plug ((d1, p, sib1) :: ctx1) (Tr.node l n r), hrepr, rfl,
          hLnd, hroot, hvac, ?_⟩
        intro _
        rcases hrb with h | h
        · exact h
        · exact absurd (hroot.trans h).symm hnroot
      · intro g hg
        exact Option.noConfusion hg

/-- The fixup loop terminates within any fuel exceeding the focus depth
and restores the tree invariant. -/
theorem insert_rb_loop_spec :
    ∀ (fuel : Nat) (s : ConstLru K V CAP) (L : List Nat) (n dep : Nat),
    InsFixInv s L n dep → dep < fuel →
    TreeOkNC (s.insert_rb_loop fuel n) L := by
  intro fuel
  induction fuel with
  | zero =>
    intro s L n dep hinv hlt
    omega
  | succ f ih =>
    intro s L n dep hinv hlt
    obtain ⟨h1, h2⟩ := insert_rb_fixup_spec s L n dep hinv
    cases hfix : s.insert_rb_fixup n with
    | mk s' onext =>
    cases onext with
    | none =>
      have hok := h1 (by rw [hfix])
      rw [hfix] at hok
      simp only [ConstLru.insert_rb_loop]
      rw [hfix]
      exact hok
    | some g =>
      have hg := h2 g (by rw [hfix])
      rw [hfix] at hg
      simp only [ConstLru.insert_rb_loop]
      rw [hfix]
      exact ih s' L g (dep - 2) hg.2 (by omega)

/-- Specification of `insert_rb`: attaching a fresh slot at a valid
empty position and running the repair loop yields a tree over exactly
the old slots plus the new one, in position. -/
theorem insert_rb_spec (s : ConstLru K V CAP) (ctx2 : Ctx) (n : Nat)
    (hrepr : TreeRepr s (plug ctx2 Tr.nil) CAP)
    (hroot : s.root = rootIdx CAP (plug ctx2 Tr.nil))
    (hnd : (plug ctx2 (Tr.node Tr.nil n Tr.nil)).nodes.Nodup)
    (hnlt : n < CAP)
    (hvac : ∀ j, j ∉ (plug ctx2 Tr.nil).nodes →
      s.lefts j = CAP ∧ s.rights j = CAP)
    (hblack : (plug ctx2 Tr.nil).nodes ≠ [] →
      s.rbColors (rootIdx CAP (plug ctx2 Tr.nil)) = RbColor.Black) :
    TreeOkNC (s.insert_rb n (ctxParent CAP ctx2, holeDir ctx2))
      (plug ctx2 (Tr.node Tr.nil n Tr.nil)).nodes := by
  have hnewnodes : (plug ctx2 (Tr.node Tr.nil n Tr.nil)).nodes =
      ctxA ctx2 ++ [n] ++ ctxB ctx2 := by
    rw [plug_nodes]
    simp [Tr.nodes]
  have holdnodes : (plug ctx2 Tr.nil).nodes = ctxA ctx2 ++ ctxB ctx2 := by
    rw [plug_nodes]
    simp [Tr.nodes]
  have hnAB : n ∉ ctxA ctx2 ++ ctxB ctx2 := by
    intro hm
    rw [hnewnodes] at hnd
    rcases List.mem_append.mp hm with h | h
    · rw [List.append_assoc, List.nodup_append] at hnd
      exact hnd.2.2 h (by simp)
    · rw [List.nodup_append] at hnd
      exact hnd.2.2 (by simp) h
  have hn_old : n ∉ (plug ctx2 Tr.nil).nodes := by
    rw [holdnodes]
    exact hnAB
  have hvacn := hvac n hn_old
  have hctxok : CtxOK s ctx2 CAP :=
    ((treeRepr_plug_iff s ctx2 Tr.nil).mp hrepr).1
  have hsub : TreeRepr s (Tr.node Tr.nil n Tr.nil) (s.parents n) :=
    ⟨hnlt, rfl, hvacn.1, hvacn.2, trivial, trivial⟩
  have hsubnd : (Tr.node Tr.nil n Tr.nil).nodes.Nodup := by
    simp [Tr.nodes]
  have hABnd : (ctxA ctx2 ++ ctxB ctx2).Nodup := nodup_ctxAB hnd
  have hdisj : ∀ a ∈ ctxA ctx2 ++ ctxB ctx2,
      a ∉ (Tr.node Tr.nil n Tr.nil).nodes := by
    intro a ha hm
    have : a = n := by simpa [Tr.nodes] using hm
    exact hnAB (this ▸ ha)
  obtain ⟨hctxok', hsubrep, hrn, hrc, hpar, hchild, hnil⟩ :=
    insert_bst_spec s ctx2 (Tr.node Tr.nil n Tr.nil) (holeDir ctx2)
      CAP (s.parents n) hctxok hsub hsubnd hABnd (fun _ => rfl) hdisj
  simp only [rootIdx] at hctxok' hsubrep hrn hrc hpar hchild hnil
  have hTR1 : TreeRepr
      (s.insert_bst_node n (ctxParent CAP ctx2, holeDir ctx2))
      (plug ctx2 (Tr.node Tr.nil n Tr.nil)) CAP :=
    (treeRepr_plug_iff _ ctx2 _).mpr ⟨hctxok', hsubrep⟩
  have hcpm : ctx2 ≠ [] → ctxParent CAP ctx2 ∈ ctxA ctx2 ++ ctxB ctx2 := by
    intro hne
    rcases ctxParent_mem CAP ctx2 with h | h
    · exfalso
      cases ctx2 with
      | nil => exact hne rfl
      | cons fr ctx' =>
        rcases fr with ⟨d, p, sib⟩
        have hp : p < CAP := hctxok.1
        simp only [ctxParent] at h
        omega
    · exact h
  set s2 := (s.insert_bst_node n
    (ctxParent CAP ctx2, holeDir ctx2)).set_rb_color n RbColor.Red with hs2
  have hinv : InsFixInv s2 (plug ctx2 (Tr.node Tr.nil n Tr.nil)).nodes n
      ctx2.length := by
    refine ⟨plug ctx2 (Tr.node Tr.nil n Tr.nil), ctx2, Tr.nil, Tr.nil,
      rfl, TreeRepr_set_rb_color _ _ hTR1, rfl, hnd, ?_, ?_, ?_, rfl⟩
    · show (s.insert_bst_node n (ctxParent CAP ctx2, holeDir ctx2)).root =
        rootIdx CAP (plug ctx2 (Tr.node Tr.nil n Tr.nil))
      by_cases hc : ctx2 = []
      · subst hc
        exact hrn rfl
      · rw [hrc hc, hroot]
        exact rootIdx_plug ctx2 Tr.nil (Tr.node Tr.nil n Tr.nil) hc
    · intro j hj
      show (s.insert_bst_node n (ctxParent CAP ctx2, holeDir ctx2)).lefts
          j = CAP ∧
        (s.insert_bst_node n (ctxParent CAP ctx2, holeDir ctx2)).rights
          j = CAP
      have hjold : j ∉ (plug ctx2 Tr.nil).nodes := by
        rw [holdnodes]
        intro hm
        refine hj ?_
        rw [hnewnodes]
        rcases List.mem_append.mp hm with h | h
        · exact List.mem_append.mpr (Or.inl (List.mem_append.mpr (Or.inl h)))
        · exact List.mem_append.mpr (Or.inr h)
      have hv := hvac j hjold
      by_cases hc : ctx2 = []
      · obtain ⟨he1, he2⟩ := hnil hc
        rw [he1, he2]
        exact hv
      · have hjcp : j ≠ ctxParent CAP ctx2 := by
          intro he
          refine hj ?_
          rw [hnewnodes]
          rcases List.mem_append.mp (hcpm hc) with h | h
          · exact List.mem_append.mpr
              (Or.inl (List.mem_append.mpr (Or.inl (he ▸ h))))
          · exact List.mem_append.mpr (Or.inr (he ▸ h))
        obtain ⟨he1, he2⟩ := hchild j hjcp
        rw [he1, he2]
        exact hv
    · by_cases hc : ctx2 = []
      · refine Or.inr ?_
        subst hc
        rfl
      · refine Or.inl ?_
        have hreq : rootIdx CAP (plug ctx2 (Tr.node Tr.nil n Tr.nil)) =
            rootIdx CAP (plug ctx2 Tr.nil) :=
          rootIdx_plug ctx2 _ _ hc
        rw [hreq]
        have hrm := rootIdx_plug_mem CAP ctx2 Tr.nil hc
        have hrn' : rootIdx CAP (plug ctx2 Tr.nil) ≠ n := by
          intro he
          exact hnAB (he ▸ hrm)
        show setF (s.insert_bst_node n
            (ctxParent CAP ctx2, holeDir ctx2)).rbColors n RbColor.Red
            (rootIdx CAP (plug ctx2 Tr.nil)) = RbColor.Black
        simp only [setF, if_neg hrn', insert_bst_node_rbColors]
        refine hblack ?_
        rw [holdnodes]
        intro he
        cases ctx2 with
        | nil => exact hc rfl
        | cons fr ctx' =>
          rcases fr with ⟨d, p, sib⟩
          have : p ∈ ctxA ((d, p, sib) :: ctx') ++
              ctxB ((d, p, sib) :: ctx') :=
            (mem_ctxAB_cons d p sib ctx' p).mpr (Or.inl rfl)
          rw [he] at this
          cases this
  have hdeplt : ctx2.length < CAP + 1 := by
    have h1 := ctx_length_le ctx2
    have h2 : (plug ctx2 (Tr.node Tr.nil n Tr.nil)).nodes.length ≤ CAP :=
      nodes_length_le_cap hnd (mem_nodes_lt hTR1)
    rw [hnewnodes] at h2
    simp only [List.length_append, List.length_singleton] at h2 h1 ⊢
    omega
  have := insert_rb_loop_spec (CAP + 1) s2
    (plug ctx2 (Tr.node Tr.nil n Tr.nil)).nodes n ctx2.length hinv hdeplt
  simpa only [ConstLru.insert_rb] using this

/-- Appending a left frame to a context with no left part keeps the
in-order prefix empty. -/
theorem ctxA_append_left {c1 : Ctx} (hA : ctxA c1 = []) (i : Nat)
    (b : Tr) : ctxA (c1 ++ [(BstChild.Left, i, b)]) = [] := by
  induction c1 with
  | nil => rfl
  | cons fr c1 ih =>
    rcases fr with ⟨d, p, sib⟩
    cases d with
    | Left => exact ih hA
    | Right =>
      exfalso
      simp only [ctxA] at hA
      exact absurd hA (by simp)

/-- The leftmost-descent loop finds the in-order first node of a
represented subtree, at a position with an empty left child whose
in-order prefix inside the subtree is empty. -/
theorem find_leftmost_go_spec (s : ConstLru K V CAP) :
    ∀ (fuel : Nat) (sub : Tr) (q : Nat), TreeRepr s sub q →
    sub ≠ Tr.nil → sub.nodes.length < fuel →
    ∃ ctxL rR, plug ctxL (Tr.node Tr.nil
      (s.find_leftmost_go fuel (rootIdx CAP sub)) rR) = sub ∧
      ctxA ctxL = [] := by
  intro fuel
  induction fuel with
  | zero =>
    intro sub q _ _ h
    omega
  | succ f ih =>
    intro sub q hrepr hne hlen
    cases sub with
    | nil => exact absurd rfl hne
    | node a i b =>
      obtain ⟨hilt, _, hil, _, harep, _⟩ := hrepr
      cases a with
      | nil =>
        have hstop : s.lefts i = CAP := by rw [hil]; rfl
        refine ⟨[], b, ?_, rfl⟩
        show plug [] (Tr.node Tr.nil
          (s.find_leftmost_go (f + 1) i) b) = Tr.node Tr.nil i b
        simp only [ConstLru.find_leftmost_go, hstop, if_true, plug]
      | node a1 j a2 =>
        have hjlt : j < CAP := harep.1
        have hil' : s.lefts i = j := by rw [hil]; rfl
        have hjne : ¬ (j = CAP) := by omega
        have hlena : (Tr.node a1 j a2).nodes.length < f := by
          simp only [Tr.nodes, List.length_append, List.length_cons] at *
          omega
        obtain ⟨ctxL, rR, hpl, hA⟩ :=
          ih (Tr.node a1 j a2) i harep (by intro h; cases h) hlena
        have hgo : s.find_leftmost_go (f + 1) i =
            s.find_leftmost_go f j := by
          simp only [ConstLru.find_leftmost_go, hil', if_neg hjne]
        refine ⟨ctxL ++ [(BstChild.Left, i, b)], rR, ?_,
          ctxA_append_left hA i b⟩
        show plug (ctxL ++ [(BstChild.Left, i, b)]) (Tr.node Tr.nil
          (s.find_leftmost_go (f + 1) i) rR) = Tr.node (Tr.node a1 j a2) i b
        rw [hgo, plug_append]
        show plug [(BstChild.Left, i, b)]
          (plug ctxL (Tr.node Tr.nil (s.find_leftmost_go f
            (rootIdx CAP (Tr.node a1 j a2))) rR)) = Tr.node (Tr.node a1 j a2) i b
        rw [hpl]
        rfl

/-- Unlinking the node currently plugged at the hole of a valid context:
only the node's parent link and the hole parent's child link change.
Unlike `unlink_bst_spec` this does not assume the node's own subtree is
intact, which the two-children deletion surgery needs. -/
theorem unlink_hole_spec (s : ConstLru K V CAP) (ctx : Ctx) (n : Nat)
    (hctx : CtxOK s ctx n)
    (hpar : s.parents n = ctxParent CAP ctx)
    (hnAB : n ∉ ctxA ctx ++ ctxB ctx)
    (hnCAP : n ≠ CAP)
    (hABnd : (ctxA ctx ++ ctxB ctx).Nodup) :
    (s.unlink_bst_node_from_parent n).2 = (ctxParent CAP ctx, holeDir ctx) ∧
    CtxOK (s.unlink_bst_node_from_parent n).1 ctx CAP ∧
    (s.unlink_bst_node_from_parent n).1.root = s.root ∧
    (∀ j, j ≠ n → (s.unlink_bst_node_from_parent n).1.parents j =
      s.parents j) ∧
    (s.unlink_bst_node_from_parent n).1.parents n = CAP ∧
    (∀ j, j ≠ ctxParent CAP ctx →
      (s.unlink_bst_node_from_parent n).1.lefts j = s.lefts j ∧
      (s.unlink_bst_node_from_parent n).1.rights j = s.rights j) ∧
    (∀ j, (s.unlink_bst_node_from_parent n).1.lefts j = s.lefts j ∨
      (s.unlink_bst_node_from_parent n).1.lefts j = CAP) ∧
    (∀ j, (s.unlink_bst_node_from_parent n).1.rights j = s.rights j ∨
      (s.unlink_bst_node_from_parent n).1.rights j = CAP) := by
  cases ctx with
  | nil =>
    simp only [ctxParent] at hpar
    unfold ConstLru.unlink_bst_node_from_parent
    simp only [hpar, if_pos rfl]
    refine ⟨rfl, trivial, rfl, ?_, ?_, fun j _ => ⟨rfl, rfl⟩,
      fun j => Or.inl rfl, fun j => Or.inl rfl⟩
    · intro j hj
      simp [setF, hj]
    · simp [setF]
  | cons fr ctx' =>
    rcases fr with ⟨d, P, sib⟩
    obtain ⟨hPlt, hPpar, hdir, hsibrep, hrest⟩ := hctx
    simp only [ctxParent] at hpar
    have hPne : P ≠ CAP := by omega
    obtain ⟨hPsib, hsibAB, hPAB, hABnd'⟩ := nodup_ctxAB_cons hABnd
    have hnsib : n ∉ sib.nodes := fun hm =>
      hnAB ((mem_ctxAB_cons d P sib ctx' n).mpr (Or.inr (Or.inl hm)))
    have hnP : n ≠ P := fun he =>
      hnAB ((mem_ctxAB_cons d P sib ctx' n).mpr (Or.inl he))
    have hPn : P ≠ n := fun he => hnP he.symm
    have hrsib : rootIdx CAP sib ≠ n := by
      cases sib with
      | nil => exact fun he => hnCAP he.symm
      | node a i c => exact fun he => hnsib (he ▸ rootIdx_mem_nodes)
    have hctxn : ∀ a ∈ ctxA ctx' ++ ctxB ctx', a ≠ n ∧ a ≠ P := by
      intro a ha
      refine ⟨?_, ?_⟩
      · intro he
        refine hnAB ((mem_ctxAB_cons d P sib ctx' n).mpr
          (Or.inr (Or.inr ?_)))
        rw [← he]
        exact ha
      · exact fun he => hPAB (he ▸ ha)
    unfold ConstLru.unlink_bst_node_from_parent
    simp only [hpar, if_neg hPne]
    cases d with
    | Left =>
      have hcond :
          ({ s with parents := setF s.parents n CAP } :
            ConstLru K V CAP).lefts P = n := hdir.1
      rw [if_pos hcond]
      refine ⟨by simp [ctxParent, holeDir], ?_, rfl, ?_, ?_, ?_, ?_, ?_⟩
      · refine ⟨hPlt, ?_, ⟨by simp, ?_⟩, ?_, ?_⟩
        · simp [setF, hPn, hPpar]
        · simp [setF]
          exact hdir.2
        · refine TreeRepr_congr (fun j hj => ?_) hsibrep
          have h1 : j ≠ n := fun he => hnsib (he ▸ hj)
          have h2 : j ≠ P := fun he => hPsib (he ▸ hj)
          simp [setF, h1, h2]
        · refine CtxOK_congr (fun j hj => ?_) hrest
          obtain ⟨h1, h2⟩ := hctxn j hj
          simp [setF, h1, h2]
      · intro j hj
        simp [setF, hj]
      · simp [setF]
      · intro j hj
        simp only [ctxParent] at hj
        exact ⟨by simp [setF, hj], rfl⟩
      · intro j
        by_cases hjp : j = P
        · subst hjp
          simp [setF]
        · simp [setF, hjp]
      · intro j
        exact Or.inl rfl
    | Right =>
      have hcond :
          ¬ ({ s with parents := setF s.parents n CAP } :
            ConstLru K V CAP).lefts P = n := by
        show ¬ s.lefts P = n
        rw [hdir.2]
        exact hrsib
      rw [if_neg hcond]
      refine ⟨by simp [ctxParent, holeDir], ?_, rfl, ?_, ?_, ?_, ?_, ?_⟩
      · refine ⟨hPlt, ?_, ⟨by simp, ?_⟩, ?_, ?_⟩
        · simp [setF, hPn, hPpar]
        · simp [setF]
          exact hdir.2
        · refine TreeRepr_congr (fun j hj => ?_) hsibrep
          have h1 : j ≠ n := fun he => hnsib (he ▸ hj)
          have h2 : j ≠ P := fun he => hPsib (he ▸ hj)
          simp [setF, h1, h2]
        · refine CtxOK_congr (fun j hj => ?_) hrest
          obtain ⟨h1, h2⟩ := hctxn j hj
          simp [setF, h1, h2]
      · intro j hj
        simp [setF, hj]
      · simp [setF]
      · intro j hj
        simp only [ctxParent] at hj
        exact ⟨rfl, by simp [setF, hj]⟩
      · intro j
        exact Or.inl rfl
      · intro j
        by_cases hjp : j = P
        · subst hjp
          simp [setF]
        · simp [setF, hjp]

/-- The clearing epilogue of `remove_rbt_node`: wiping the removed
slot's links and blackening it does not disturb a tree that no longer
contains the slot. -/
theorem remove_epilogue (sA : ConstLru K V CAP) (n : Nat) (t' : Tr)
    (hTR : TreeRepr sA t' CAP) (hnmem : n ∉ t'.nodes)
    (hroot : sA.root = rootIdx CAP t')
    (hvac : ∀ j, j ∉ t'.nodes → j ≠ n →
      sA.lefts j = CAP ∧ sA.rights j = CAP) :
    TreeRepr (({ sA with
      parents := setF sA.parents n CAP,
      lefts := setF sA.lefts n CAP,
      rights := setF sA.rights n CAP } :
      ConstLru K V CAP).set_rb_color n RbColor.Black)
      t' CAP ∧
    (({ sA with
      parents := setF sA.parents n CAP,
      lefts := setF sA.lefts n CAP,
      rights := setF sA.rights n CAP } :
      ConstLru K V CAP).set_rb_color n
        RbColor.Black).root = rootIdx CAP t' ∧
    (∀ j, j ∉ t'.nodes →
      (({ sA with
        parents := setF sA.parents n CAP,
        lefts := setF sA.lefts n CAP,
        rights := setF sA.rights n CAP } :
        ConstLru K V CAP).set_rb_color n
          RbColor.Black).lefts j = CAP ∧
      (({ sA with
        parents := setF sA.parents n CAP,
        lefts := setF sA.lefts n CAP,
        rights := setF sA.rights n CAP } :
        ConstLru K V CAP).set_rb_color n
          RbColor.Black).rights j = CAP) := by
  refine ⟨?_, hroot, ?_⟩
  · refine TreeRepr_congr (fun j hj => ?_) hTR
    have hjn : j ≠ n := fun he => hnmem (he ▸ hj)
    refine ⟨?_, ?_, ?_⟩ <;> simp [setF, hjn]
  · intro j hj
    by_cases hjn : j = n
    · subst hjn
      constructor <;> simp [setF]
    · have hv := hvac j hj hjn
      constructor <;> simp [setF, hjn, hv.1, hv.2]


/-- Removing one interior element of a concatenation leaves a sublist. -/
theorem excise_sublist (A B L R : List Nat) (n i : Nat) :
    List.Sublist (A ++ (L ++ n :: R) ++ B) (A ++ (L ++ n :: i :: R) ++ B) := by
  refine List.Sublist.append ?_ (List.Sublist.refl B)
  refine List.Sublist.append (List.Sublist.refl A) ?_
  refine List.Sublist.append (List.Sublist.refl L) ?_
  exact List.Sublist.cons₂ n ((List.Sublist.refl R).cons i)

/-- An element excised from a duplicate-free concatenation no longer
occurs in the remainder. -/
theorem nodup_excise_not_mem {A B L R : List Nat} {n i : Nat}
    (h : (A ++ (L ++ n :: i :: R) ++ B).Nodup) :
    i ∉ (A ++ (L ++ n :: R) ++ B) := by
  have hc := List.nodup_iff_count_le_one.mp h i
  intro hm
  have hm2 : 0 < List.count i (A ++ (L ++ n :: R) ++ B) :=
    List.count_pos_iff.mpr hm
  by_cases hin : i = n
  · simp [hin, List.count_append, List.count_cons] at hc
    omega
  · simp only [List.count_append, List.count_cons_self,
      List.count_cons_of_ne hin] at hc hm2
    omega

/-- In a represented nonempty context the hole parent is one of the
context's own indices. -/
theorem ctxok_parent_mem {s : ConstLru K V CAP} {ctx : Ctx} {h0 : Nat}
    (hok : CtxOK s ctx h0) (hne : ctx ≠ []) :
    ctxParent CAP ctx ∈ ctxA ctx ++ ctxB ctx := by
  rcases ctxParent_mem CAP ctx with hc | hc
  · exfalso
    cases ctx with
    | nil => exact hne rfl
    | cons fr ctx2 =>
      rcases fr with ⟨d, p, sib⟩
      have hp : p < CAP := hok.1
      simp only [ctxParent] at hc
      omega
  · exact hc

set_option maxHeartbeats 6400000 in
/-- Steps three to eight of the two-children branch of
`remove_rbt_node`: once the in-order successor has been excised to a
bare slot, attaching the removed node's two subtrees beneath it,
unlinking the removed node, recoloring the successor with the removed
node's color, reinserting the successor at the removed position and
clearing the removed slot yield the tree with the successor standing in
the removed node's place. -/
theorem remove_two_child_finish (sc : ConstLru K V CAP) (ctx : Ctx)
    (L R' : Tr) (n ios : Nat) (c0 : RbColor)
    (hrepr2 : TreeRepr sc (plug ctx (Tr.node L n R')) CAP)
    (hnd2 : (plug ctx (Tr.node L n R')).nodes.Nodup)
    (hroot2 : sc.root = rootIdx CAP (plug ctx (Tr.node L n R')))
    (hvac2 : ∀ j, j ∉ (plug ctx (Tr.node L n R')).nodes → j ≠ ios →
      sc.lefts j = CAP ∧ sc.rights j = CAP)
    (hbareP : sc.parents ios = CAP)
    (hbareL : sc.lefts ios = CAP)
    (hbareR : sc.rights ios = CAP)
    (hioslt : ios < CAP)
    (hiosnm : ios ∉ (plug ctx (Tr.node L n R')).nodes)
    (hblack2 : sc.rbColors (rootIdx CAP (plug ctx (Tr.node L n R'))) =
      RbColor.Black)
    (hc0 : ctx = [] → c0 = RbColor.Black) :
    TreeRepr (({ (((((sc.insert_bst_node (rootIdx CAP L) (ios, BstChild.Left)).insert_bst_node ((sc.insert_bst_node (rootIdx CAP L) (ios, BstChild.Left)).rights n) (ios, BstChild.Right)).unlink_bst_node_from_parent n).1.set_rb_color ios c0).insert_bst_node ios (ctxParent CAP ctx, (((sc.insert_bst_node (rootIdx CAP L) (ios, BstChild.Left)).insert_bst_node ((sc.insert_bst_node (rootIdx CAP L) (ios, BstChild.Left)).rights n) (ios, BstChild.Right)).unlink_bst_node_from_parent n).2.2)) with
  parents := setF (((((sc.insert_bst_node (rootIdx CAP L) (ios, BstChild.Left)).insert_bst_node ((sc.insert_bst_node (rootIdx CAP L) (ios, BstChild.Left)).rights n) (ios, BstChild.Right)).unlink_bst_node_from_parent n).1.set_rb_color ios c0).insert_bst_node ios (ctxParent CAP ctx, (((sc.insert_bst_node (rootIdx CAP L) (ios, BstChild.Left)).insert_bst_node ((sc.insert_bst_node (rootIdx CAP L) (ios, BstChild.Left)).rights n) (ios, BstChild.Right)).unlink_bst_node_from_parent n).2.2)).parents n CAP,
  lefts := setF (((((sc.insert_bst_node (rootIdx CAP L) (ios, BstChild.Left)).insert_bst_node ((sc.insert_bst_node (rootIdx CAP L) (ios, BstChild.Left)).rights n) (ios, BstChild.Right)).unlink_bst_node_from_parent n).1.set_rb_color ios c0).insert_bst_node ios (ctxParent CAP ctx, (((sc.insert_bst_node (rootIdx CAP L) (ios, BstChild.Left)).insert_bst_node ((sc.insert_bst_node (rootIdx CAP L) (ios, BstChild.Left)).rights n) (ios, BstChild.Right)).unlink_bst_node_from_parent n).2.2)).lefts n CAP,
  rights := setF (((((sc.insert_bst_node (rootIdx CAP L) (ios, BstChild.Left)).insert_bst_node ((sc.insert_bst_node (rootIdx CAP L) (ios, BstChild.Left)).rights n) (ios, BstChild.Right)).unlink_bst_node_from_parent n).1.set_rb_color ios c0).insert_bst_node ios (ctxParent CAP ctx, (((sc.insert_bst_node (rootIdx CAP L) (ios, BstChild.Left)).insert_bst_node ((sc.insert_bst_node (rootIdx CAP L) (ios, BstChild.Left)).rights n) (ios, BstChild.Right)).unlink_bst_node_from_parent n).2.2)).rights n CAP } : ConstLru K V CAP).set_rb_color n RbColor.Black) (plug ctx (Tr.node L ios R')) CAP ∧
    (({ (((((sc.insert_bst_node (rootIdx CAP L) (ios, BstChild.Left)).insert_bst_node ((sc.insert_bst_node (rootIdx CAP L) (ios, BstChild.Left)).rights n) (ios, BstChild.Right)).unlink_bst_node_from_parent n).1.set_rb_color ios c0).insert_bst_node ios (ctxParent CAP ctx, (((sc.insert_bst_node (rootIdx CAP L) (ios, BstChild.Left)).insert_bst_node ((sc.insert_bst_node (rootIdx CAP L) (ios, BstChild.Left)).rights n) (ios, BstChild.Right)).unlink_bst_node_from_parent n).2.2)) with
  parents := setF (((((sc.insert_bst_node (rootIdx CAP L) (ios, BstChild.Left)).insert_bst_node ((sc.insert_bst_node (rootIdx CAP L) (ios, BstChild.Left)).rights n) (ios, BstChild.Right)).unlink_bst_node_from_parent n).1.set_rb_color ios c0).insert_bst_node ios (ctxParent CAP ctx, (((sc.insert_bst_node (rootIdx CAP L) (ios, BstChild.Left)).insert_bst_node ((sc.insert_bst_node (rootIdx CAP L) (ios, BstChild.Left)).rights n) (ios, BstChild.Right)).unlink_bst_node_from_parent n).2.2)).parents n CAP,
  lefts := setF (((((sc.insert_bst_node (rootIdx CAP L) (ios, BstChild.Left)).insert_bst_node ((sc.insert_bst_node (rootIdx CAP L) (ios, BstChild.Left)).rights n) (ios, BstChild.Right)).unlink_bst_node_from_parent n).1.set_rb_color ios c0).insert_bst_node ios (ctxParent CAP ctx, (((sc.insert_bst_node (rootIdx CAP L) (ios, BstChild.Left)).insert_bst_node ((sc.insert_bst_node (rootIdx CAP L) (ios, BstChild.Left)).rights n) (ios, BstChild.Right)).unlink_bst_node_from_parent n).2.2)).lefts n CAP,
  rights := setF (((((sc.insert_bst_node (rootIdx CAP L) (ios, BstChild.Left)).insert_bst_node ((sc.insert_bst_node (rootIdx CAP L) (ios, BstChild.Left)).rights n) (ios, BstChild.Right)).unlink_bst_node_from_parent n).1.set_rb_color ios c0).insert_bst_node ios (ctxParent CAP ctx, (((sc.insert_bst_node (rootIdx CAP L) (ios, BstChild.Left)).insert_bst_node ((sc.insert_bst_node (rootIdx CAP L) (ios, BstChild.Left)).rights n) (ios, BstChild.Right)).unlink_bst_node_from_parent n).2.2)).rights n CAP } : ConstLru K V CAP).set_rb_color n RbColor.Black).root = rootIdx CAP (plug ctx (Tr.node L ios R')) ∧
    (∀ j, j ∉ (plug ctx (Tr.node L ios R')).nodes →
      (({ (((((sc.insert_bst_node (rootIdx CAP L) (ios, BstChild.Left)).insert_bst_node ((sc.insert_bst_node (rootIdx CAP L) (ios, BstChild.Left)).rights n) (ios, BstChild.Right)).unlink_bst_node_from_parent n).1.set_rb_color ios c0).insert_bst_node ios (ctxParent CAP ctx, (((sc.insert_bst_node (rootIdx CAP L) (ios, BstChild.Left)).insert_bst_node ((sc.insert_bst_node (rootIdx CAP L) (ios, BstChild.Left)).rights n) (ios, BstChild.Right)).unlink_bst_node_from_parent n).2.2)) with
  parents := setF (((((sc.insert_bst_node (rootIdx CAP L) (ios, BstChild.Left)).insert_bst_node ((sc.insert_bst_node (rootIdx CAP L) (ios, BstChild.Left)).rights n) (ios, BstChild.Right)).unlink_bst_node_from_parent n).1.set_rb_color ios c0).insert_bst_node ios (ctxParent CAP ctx, (((sc.insert_bst_node (rootIdx CAP L) (ios, BstChild.Left)).insert_bst_node ((sc.insert_bst_node (rootIdx CAP L) (ios, BstChild.Left)).rights n) (ios, BstChild.Right)).unlink_bst_node_from_parent n).2.2)).parents n CAP,
  lefts := setF (((((sc.insert_bst_node (rootIdx CAP L) (ios, BstChild.Left)).insert_bst_node ((sc.insert_bst_node (rootIdx CAP L) (ios, BstChild.Left)).rights n) (ios, BstChild.Right)).unlink_bst_node_from_parent n).1.set_rb_color ios c0).insert_bst_node ios (ctxParent CAP ctx, (((sc.insert_bst_node (rootIdx CAP L) (ios, BstChild.Left)).insert_bst_node ((sc.insert_bst_node (rootIdx CAP L) (ios, BstChild.Left)).rights n) (ios, BstChild.Right)).unlink_bst_node_from_parent n).2.2)).lefts n CAP,
  rights := setF (((((sc.insert_bst_node (rootIdx CAP L) (ios, BstChild.Left)).insert_bst_node ((sc.insert_bst_node (rootIdx CAP L) (ios, BstChild.Left)).rights n) (ios, BstChild.Right)).unlink_bst_node_from_parent n).1.set_rb_color ios c0).insert_bst_node ios (ctxParent CAP ctx, (((sc.insert_bst_node (rootIdx CAP L) (ios, BstChild.Left)).insert_bst_node ((sc.insert_bst_node (rootIdx CAP L) (ios, BstChild.Left)).rights n) (ios, BstChild.Right)).unlink_bst_node_from_parent n).2.2)).rights n CAP } : ConstLru K V CAP).set_rb_color n RbColor.Black).lefts j = CAP ∧ (({ (((((sc.insert_bst_node (rootIdx CAP L) (ios, BstChild.Left)).insert_bst_node ((sc.insert_bst_node (rootIdx CAP L) (ios, BstChild.Left)).rights n) (ios, BstChild.Right)).unlink_bst_node_from_parent n).1.set_rb_color ios c0).insert_bst_node ios (ctxParent CAP ctx, (((sc.insert_bst_node (rootIdx CAP L) (ios, BstChild.Left)).insert_bst_node ((sc.insert_bst_node (rootIdx CAP L) (ios, BstChild.Left)).rights n) (ios, BstChild.Right)).unlink_bst_node_from_parent n).2.2)) with
  parents := setF (((((sc.insert_bst_node (rootIdx CAP L) (ios, BstChild.Left)).insert_bst_node ((sc.insert_bst_node (rootIdx CAP L) (ios, BstChild.Left)).rights n) (ios, BstChild.Right)).unlink_bst_node_from_parent n).1.set_rb_color ios c0).insert_bst_node ios (ctxParent CAP ctx, (((sc.insert_bst_node (rootIdx CAP L) (ios, BstChild.Left)).insert_bst_node ((sc.insert_bst_node (rootIdx CAP L) (ios, BstChild.Left)).rights n) (ios, BstChild.Right)).unlink_bst_node_from_parent n).2.2)).parents n CAP,
  lefts := setF (((((sc.insert_bst_node (rootIdx CAP L) (ios, BstChild.Left)).insert_bst_node ((sc.insert_bst_node (rootIdx CAP L) (ios, BstChild.Left)).rights n) (ios, BstChild.Right)).unlink_bst_node_from_parent n).1.set_rb_color ios c0).insert_bst_node ios (ctxParent CAP ctx, (((sc.insert_bst_node (rootIdx CAP L) (ios, BstChild.Left)).insert_bst_node ((sc.insert_bst_node (rootIdx CAP L) (ios, BstChild.Left)).rights n) (ios, BstChild.Right)).unlink_bst_node_from_parent n).2.2)).lefts n CAP,
  rights := setF (((((sc.insert_bst_node (rootIdx CAP L) (ios, BstChild.Left)).insert_bst_node ((sc.insert_bst_node (rootIdx CAP L) (ios, BstChild.Left)).rights n) (ios, BstChild.Right)).unlink_bst_node_from_parent n).1.set_rb_color ios c0).insert_bst_node ios (ctxParent CAP ctx, (((sc.insert_bst_node (rootIdx CAP L) (ios, BstChild.Left)).insert_bst_node ((sc.insert_bst_node (rootIdx CAP L) (ios, BstChild.Left)).rights n) (ios, BstChild.Right)).unlink_bst_node_from_parent n).2.2)).rights n CAP } : ConstLru K V CAP).set_rb_color n RbColor.Black).rights j = CAP) ∧
    (({ (((((sc.insert_bst_node (rootIdx CAP L) (ios, BstChild.Left)).insert_bst_node ((sc.insert_bst_node (rootIdx CAP L) (ios, BstChild.Left)).rights n) (ios, BstChild.Right)).unlink_bst_node_from_parent n).1.set_rb_color ios c0).insert_bst_node ios (ctxParent CAP ctx, (((sc.insert_bst_node (rootIdx CAP L) (ios, BstChild.Left)).insert_bst_node ((sc.insert_bst_node (rootIdx CAP L) (ios, BstChild.Left)).rights n) (ios, BstChild.Right)).unlink_bst_node_from_parent n).2.2)) with
  parents := setF (((((sc.insert_bst_node (rootIdx CAP L) (ios, BstChild.Left)).insert_bst_node ((sc.insert_bst_node (rootIdx CAP L) (ios, BstChild.Left)).rights n) (ios, BstChild.Right)).unlink_bst_node_from_parent n).1.set_rb_color ios c0).insert_bst_node ios (ctxParent CAP ctx, (((sc.insert_bst_node (rootIdx CAP L) (ios, BstChild.Left)).insert_bst_node ((sc.insert_bst_node (rootIdx CAP L) (ios, BstChild.Left)).rights n) (ios, BstChild.Right)).unlink_bst_node_from_parent n).2.2)).parents n CAP,
  lefts := setF (((((sc.insert_bst_node (rootIdx CAP L) (ios, BstChild.Left)).insert_bst_node ((sc.insert_bst_node (rootIdx CAP L) (ios, BstChild.Left)).rights n) (ios, BstChild.Right)).unlink_bst_node_from_parent n).1.set_rb_color ios c0).insert_bst_node ios (ctxParent CAP ctx, (((sc.insert_bst_node (rootIdx CAP L) (ios, BstChild.Left)).insert_bst_node ((sc.insert_bst_node (rootIdx CAP L) (ios, BstChild.Left)).rights n) (ios, BstChild.Right)).unlink_bst_node_from_parent n).2.2)).lefts n CAP,
  rights := setF (((((sc.insert_bst_node (rootIdx CAP L) (ios, BstChild.Left)).insert_bst_node ((sc.insert_bst_node (rootIdx CAP L) (ios, BstChild.Left)).rights n) (ios, BstChild.Right)).unlink_bst_node_from_parent n).1.set_rb_color ios c0).insert_bst_node ios (ctxParent CAP ctx, (((sc.insert_bst_node (rootIdx CAP L) (ios, BstChild.Left)).insert_bst_node ((sc.insert_bst_node (rootIdx CAP L) (ios, BstChild.Left)).rights n) (ios, BstChild.Right)).unlink_bst_node_from_parent n).2.2)).rights n CAP } : ConstLru K V CAP).set_rb_color n RbColor.Black).rbColors (rootIdx CAP (plug ctx (Tr.node L ios R'))) =
      RbColor.Black := by
  obtain ⟨hctx2, hsub2⟩ :=
    (treeRepr_plug_iff sc ctx (Tr.node L n R')).mp hrepr2
  obtain ⟨hnlt, hnpar2, hnL2, hnR2, hLrep, hR'rep⟩ := hsub2
  have hnne : n ≠ CAP := by omega
  have hsubnd : (L.nodes ++ n :: R'.nodes).Nodup := nodup_parts hnd2
  have hABnd : (ctxA ctx ++ ctxB ctx).Nodup := nodup_ctxAB hnd2
  have hdisj : ∀ a ∈ ctxA ctx ++ ctxB ctx, a ∉ (Tr.node L n R').nodes :=
    ctx_sub_disjoint hnd2
  have htn : (plug ctx (Tr.node L n R')).nodes =
      ctxA ctx ++ (L.nodes ++ n :: R'.nodes) ++ ctxB ctx :=
    plug_nodes ctx _
  have htn2 : (plug ctx (Tr.node L ios R')).nodes =
      ctxA ctx ++ (L.nodes ++ ios :: R'.nodes) ++ ctxB ctx :=
    plug_nodes ctx _
  have hLnd : L.nodes.Nodup := (List.nodup_append.mp hsubnd).1
  have hLdisj : ∀ a ∈ L.nodes, a ∉ n :: R'.nodes :=
    fun a ha => (List.nodup_append.mp hsubnd).2.2 ha
  have hnR'cons : (n :: R'.nodes).Nodup := (List.nodup_append.mp hsubnd).2.1
  have hnR'm : n ∉ R'.nodes := (List.nodup_cons.mp hnR'cons).1
  have hR'nd : R'.nodes.Nodup := (List.nodup_cons.mp hnR'cons).2
  have hnLm : n ∉ L.nodes := fun hm => hLdisj n hm (List.mem_cons_self _ _)
  have hLR' : ∀ a ∈ L.nodes, a ∉ R'.nodes := fun a ha hm =>
    hLdisj a ha (List.mem_cons_of_mem _ hm)
  have hmemS : ∀ x, x ∈ L.nodes ∨ x = n ∨ x ∈ R'.nodes →
      x ∈ (Tr.node L n R').nodes := by
    intro x hx
    simp only [Tr.nodes, List.mem_append, List.mem_cons]
    tauto
  have hmemT : ∀ x, x ∈ L.nodes ∨ x = n ∨ x ∈ R'.nodes ∨
      x ∈ ctxA ctx ++ ctxB ctx →
      x ∈ (plug ctx (Tr.node L n R')).nodes := by
    intro x hx
    rw [htn]
    simp only [List.mem_append, List.mem_cons]
    simp only [List.mem_append] at hx
    tauto
  have hmemT2 : ∀ x, x ∈ L.nodes ∨ x = ios ∨ x ∈ R'.nodes ∨
      x ∈ ctxA ctx ++ ctxB ctx →
      x ∈ (plug ctx (Tr.node L ios R')).nodes := by
    intro x hx
    rw [htn2]
    simp only [List.mem_append, List.mem_cons]
    simp only [List.mem_append] at hx
    tauto
  have hiosA : ios ∉ ctxA ctx ++ ctxB ctx := fun hm =>
    hiosnm (hmemT ios (Or.inr (Or.inr (Or.inr hm))))
  have hiosL : ios ∉ L.nodes := fun hm => hiosnm (hmemT ios (Or.inl hm))
  have hiosn : ios ≠ n := fun he => hiosnm (hmemT ios (Or.inr (Or.inl he)))
  have hiosR' : ios ∉ R'.nodes := fun hm =>
    hiosnm (hmemT ios (Or.inr (Or.inr (Or.inl hm))))
  have hnios : n ≠ ios := fun he => hiosn he.symm
  have hnAB : n ∉ ctxA ctx ++ ctxB ctx := fun hm =>
    hdisj n hm rootIdx_mem_nodes
  have hTABdisj : ∀ x ∈ ctxA ctx ++ ctxB ctx,
      x ∉ (Tr.node L ios R').nodes := by
    intro x hx hm
    have hm2 : x ∈ L.nodes ∨ x = ios ∨ x ∈ R'.nodes := by
      simpa [Tr.nodes] using hm
    rcases hm2 with h | h | h
    · exact hdisj x hx (hmemS x (Or.inl h))
    · exact hiosA (h ▸ hx)
    · exact hdisj x hx (hmemS x (Or.inr (Or.inr h)))
  have hctxL1 : CtxOK sc [(BstChild.Left, ios, Tr.nil)] CAP := by
    refine ⟨hioslt, hbareP, ⟨hbareL, hbareR⟩, trivial, trivial⟩
  obtain ⟨hctxokA, hLA, _, hrcA, hparA, hchildA, _⟩ :=
    insert_bst_spec sc [(BstChild.Left, ios, Tr.nil)] L BstChild.Left CAP
      n hctxL1 hLrep hLnd (by simp [ctxA, ctxB, Tr.nodes]) (fun _ => rfl)
      (by
        intro a ha
        have ha2 : a = ios := by
          simpa [ctxA, ctxB, Tr.nodes] using ha
        rw [ha2]
        exact hiosL)
  simp only [ctxParent] at hctxokA hLA hrcA hparA hchildA
  have hrootA : (sc.insert_bst_node (rootIdx CAP L) (ios, BstChild.Left)).root = sc.root := hrcA (by simp)
  have hArn : (sc.insert_bst_node (rootIdx CAP L) (ios, BstChild.Left)).rights n = rootIdx CAP R' := by
    rw [(hchildA n hnios).2, hnR2]
  rw [hArn]
  have hiosrL : ios ≠ rootIdx CAP L := by
    cases L with
    | nil =>
      simp only [rootIdx]
      omega
    | node a b c =>
      exact fun he => hiosL (by rw [he]; exact rootIdx_mem_nodes)
  have hApios : (sc.insert_bst_node (rootIdx CAP L) (ios, BstChild.Left)).parents ios = CAP := by
    rw [hparA ios hiosrL, hbareP]
  obtain ⟨_, _, hdirA, _, _⟩ := hctxokA
  have hctxR1 : CtxOK (sc.insert_bst_node (rootIdx CAP L) (ios, BstChild.Left)) [(BstChild.Right, ios, L)] CAP := by
    refine ⟨hioslt, hApios, ⟨hdirA.2, hdirA.1⟩, hLA, trivial⟩
  have hR'A : TreeRepr (sc.insert_bst_node (rootIdx CAP L) (ios, BstChild.Left)) R' n := by
    refine TreeRepr_congr (fun j hj => ?_) hR'rep
    have hjios : j ≠ ios := fun he => hiosR' (he ▸ hj)
    have hjrL : j ≠ rootIdx CAP L := by
      cases L with
      | nil =>
        have hjlt : j < CAP := mem_nodes_lt hR'rep j hj
        simp only [rootIdx]
        omega
      | node a b c =>
        exact fun he => hLR' j (by rw [he]; exact rootIdx_mem_nodes) hj
    exact ⟨hparA j hjrL, (hchildA j hjios).1, (hchildA j hjios).2⟩
  have hABndR1 : (ctxA [(BstChild.Right, ios, L)] ++
      ctxB [(BstChild.Right, ios, L)]).Nodup := by
    simp only [ctxA, ctxB, List.append_nil, List.nil_append]
    rw [List.nodup_append]
    refine ⟨hLnd, List.nodup_singleton ios, ?_⟩
    intro a ha hm
    rw [List.mem_singleton] at hm
    exact hiosL (hm ▸ ha)
  obtain ⟨hctxokB, hR'B, _, hrcB, hparB, hchildB, _⟩ :=
    insert_bst_spec (sc.insert_bst_node (rootIdx CAP L) (ios, BstChild.Left)) [(BstChild.Right, ios, L)] R' BstChild.Right CAP
      n hctxR1 hR'A hR'nd hABndR1 (fun _ => rfl)
      (by
        intro a ha
        have ha2 : a ∈ L.nodes ∨ a = ios := by
          simpa [ctxA, ctxB] using ha
        rcases ha2 with h | h
        · exact hLR' a h
        · rw [h]
          exact hiosR')
  simp only [ctxParent] at hctxokB hR'B hrcB hparB hchildB
  have hrootB : ((sc.insert_bst_node (rootIdx CAP L) (ios, BstChild.Left)).insert_bst_node (rootIdx CAP R') (ios, BstChild.Right)).root = (sc.insert_bst_node (rootIdx CAP L) (ios, BstChild.Left)).root := hrcB (by simp)
  have hTiosB : TreeRepr ((sc.insert_bst_node (rootIdx CAP L) (ios, BstChild.Left)).insert_bst_node (rootIdx CAP R') (ios, BstChild.Right)) (Tr.node L ios R') CAP :=
    (treeRepr_plug_iff ((sc.insert_bst_node (rootIdx CAP L) (ios, BstChild.Left)).insert_bst_node (rootIdx CAP R') (ios, BstChild.Right)) [(BstChild.Right, ios, L)] R').mpr
      ⟨hctxokB, hR'B⟩
  have hnrR' : n ≠ rootIdx CAP R' := by
    cases R' with
    | nil =>
      simp only [rootIdx]
      omega
    | node a b c =>
      exact fun he => hnR'm (by rw [he]; exact rootIdx_mem_nodes)
  have hnrL : n ≠ rootIdx CAP L := by
    cases L with
    | nil =>
      simp only [rootIdx]
      omega
    | node a b c =>
      exact fun he => hnLm (by rw [he]; exact rootIdx_mem_nodes)
  have hparnB : ((sc.insert_bst_node (rootIdx CAP L) (ios, BstChild.Left)).insert_bst_node (rootIdx CAP R') (ios, BstChild.Right)).parents n = ctxParent CAP ctx := by
    rw [hparB n hnrR', hparA n hnrL, hnpar2]
  have hctxnB : CtxOK ((sc.insert_bst_node (rootIdx CAP L) (ios, BstChild.Left)).insert_bst_node (rootIdx CAP R') (ios, BstChild.Right)) ctx n := by
    refine CtxOK_congr (fun j hj => ?_) hctx2
    have hjios : j ≠ ios := fun he => hiosA (he ▸ hj)
    have hjrL : j ≠ rootIdx CAP L := by
      cases L with
      | nil =>
        have hjlt : j < CAP := ctx_mem_lt hctx2 j hj
        simp only [rootIdx]
        omega
      | node a b c =>
        exact fun he => hdisj j hj
          (hmemS j (Or.inl (by rw [he]; exact rootIdx_mem_nodes)))
    have hjrR' : j ≠ rootIdx CAP R' := by
      cases R' with
      | nil =>
        have hjlt : j < CAP := ctx_mem_lt hctx2 j hj
        simp only [rootIdx]
        omega
      | node a b c =>
        exact fun he => hdisj j hj
          (hmemS j (Or.inr (Or.inr (by rw [he]; exact rootIdx_mem_nodes))))
    exact ⟨(hparB j hjrR').trans (hparA j hjrL),
      ((hchildB j hjios).1).trans ((hchildA j hjios).1),
      ((hchildB j hjios).2).trans ((hchildA j hjios).2)⟩
  obtain ⟨hretU, hctxU, hrootU, hparU, hparnU, hchildU, hLorU, hRorU⟩ :=
    unlink_hole_spec ((sc.insert_bst_node (rootIdx CAP L) (ios, BstChild.Left)).insert_bst_node (rootIdx CAP R') (ios, BstChild.Right)) ctx n hctxnB hparnB hnAB hnne hABnd
  rw [hretU]
  have hTiosU : TreeRepr (((sc.insert_bst_node (rootIdx CAP L) (ios, BstChild.Left)).insert_bst_node (rootIdx CAP R') (ios, BstChild.Right)).unlink_bst_node_from_parent n).1 (Tr.node L ios R') CAP := by
    refine TreeRepr_congr (fun j hj => ?_) hTiosB
    have hjn : j ≠ n := by
      intro he
      subst he
      have hm2 : j ∈ L.nodes ∨ j = ios ∨ j ∈ R'.nodes := by
        simpa [Tr.nodes] using hj
      rcases hm2 with h | h | h
      · exact hnLm h
      · exact hiosn h.symm
      · exact hnR'm h
    have hjcp : j ≠ ctxParent CAP ctx := by
      rcases ctxParent_mem CAP ctx with hc | hc
      · rw [hc]
        exact Nat.ne_of_lt (mem_nodes_lt hTiosB j hj)
      · exact fun he => hTABdisj _ hc (he ▸ hj)
    exact ⟨hparU j hjn, (hchildU j hjcp).1, (hchildU j hjcp).2⟩
  have hctxC : CtxOK ((((sc.insert_bst_node (rootIdx CAP L) (ios, BstChild.Left)).insert_bst_node (rootIdx CAP R') (ios, BstChild.Right)).unlink_bst_node_from_parent n).1.set_rb_color ios c0) ctx CAP := by
    refine CtxOK_congr (fun j hj => ?_) hctxU
    exact ⟨rfl, rfl, rfl⟩
  have hTiosC : TreeRepr ((((sc.insert_bst_node (rootIdx CAP L) (ios, BstChild.Left)).insert_bst_node (rootIdx CAP R') (ios, BstChild.Right)).unlink_bst_node_from_parent n).1.set_rb_color ios c0) (Tr.node L ios R') CAP :=
    TreeRepr_set_rb_color ios c0 hTiosU
  have hTndN : (Tr.node L ios R').nodes.Nodup := by
    show (L.nodes ++ ios :: R'.nodes).Nodup
    rw [List.nodup_append]
    refine ⟨hLnd, List.nodup_cons.mpr ⟨hiosR', hR'nd⟩, ?_⟩
    intro a ha hm
    rcases List.mem_cons.mp hm with h | h
    · exact hiosL (h ▸ ha)
    · exact hLR' a ha h
  obtain ⟨hctxD, hTD, hrnD, hrcD, hparD, hchildD, hnilD⟩ :=
    insert_bst_spec ((((sc.insert_bst_node (rootIdx CAP L) (ios, BstChild.Left)).insert_bst_node (rootIdx CAP R') (ios, BstChild.Right)).unlink_bst_node_from_parent n).1.set_rb_color ios c0) ctx (Tr.node L ios R')
      (holeDir ctx) CAP CAP hctxC hTiosC hTndN hABnd (fun _ => rfl)
      hTABdisj
  have hTRD : TreeRepr (((((sc.insert_bst_node (rootIdx CAP L) (ios, BstChild.Left)).insert_bst_node (rootIdx CAP R') (ios, BstChild.Right)).unlink_bst_node_from_parent n).1.set_rb_color ios c0).insert_bst_node (rootIdx CAP (Tr.node L ios R')) (ctxParent CAP ctx, holeDir ctx)) (plug ctx (Tr.node L ios R')) CAP :=
    (treeRepr_plug_iff _ ctx (Tr.node L ios R')).mpr ⟨hctxD, hTD⟩
  have hnmT : n ∉ (plug ctx (Tr.node L ios R')).nodes := by
    intro hm
    rw [htn2] at hm
    simp only [List.mem_append, List.mem_cons] at hm
    rcases hm with (h | h | h | h) | h
    · exact hnAB (List.mem_append.mpr (Or.inl h))
    · exact hnLm h
    · exact hiosn h.symm
    · exact hnR'm h
    · exact hnAB (List.mem_append.mpr (Or.inr h))
  have hrtD : (((((sc.insert_bst_node (rootIdx CAP L) (ios, BstChild.Left)).insert_bst_node (rootIdx CAP R') (ios, BstChild.Right)).unlink_bst_node_from_parent n).1.set_rb_color ios c0).insert_bst_node (rootIdx CAP (Tr.node L ios R')) (ctxParent CAP ctx, holeDir ctx)).root = rootIdx CAP (plug ctx (Tr.node L ios R')) := by
    by_cases hcx : ctx = []
    · subst hcx
      exact hrnD rfl
    · rw [hrcD hcx, set_rb_color_root, hrootU, hrootB, hrootA, hroot2]
      exact rootIdx_plug ctx _ _ hcx
  have hvcD : ∀ j, j ∉ (plug ctx (Tr.node L ios R')).nodes → j ≠ n →
      (((((sc.insert_bst_node (rootIdx CAP L) (ios, BstChild.Left)).insert_bst_node (rootIdx CAP R') (ios, BstChild.Right)).unlink_bst_node_from_parent n).1.set_rb_color ios c0).insert_bst_node (rootIdx CAP (Tr.node L ios R')) (ctxParent CAP ctx, holeDir ctx)).lefts j = CAP ∧ (((((sc.insert_bst_node (rootIdx CAP L) (ios, BstChild.Left)).insert_bst_node (rootIdx CAP R') (ios, BstChild.Right)).unlink_bst_node_from_parent n).1.set_rb_color ios c0).insert_bst_node (rootIdx CAP (Tr.node L ios R')) (ctxParent CAP ctx, holeDir ctx)).rights j = CAP := by
    intro j hj hjn
    have hjios : j ≠ ios := fun he => hj (hmemT2 j (Or.inr (Or.inl he)))
    have hjold : j ∉ (plug ctx (Tr.node L n R')).nodes := by
      intro hm
      rw [htn] at hm
      simp only [List.mem_append, List.mem_cons] at hm
      rcases hm with (h | h | h | h) | h
      · exact hj (hmemT2 j (Or.inr (Or.inr (Or.inr
          (List.mem_append.mpr (Or.inl h))))))
      · exact hj (hmemT2 j (Or.inl h))
      · exact hjn h
      · exact hj (hmemT2 j (Or.inr (Or.inr (Or.inl h))))
      · exact hj (hmemT2 j (Or.inr (Or.inr (Or.inr
          (List.mem_append.mpr (Or.inr h))))))
    have hv0 := hvac2 j hjold hjios
    have hvA : (sc.insert_bst_node (rootIdx CAP L) (ios, BstChild.Left)).lefts j = CAP ∧ (sc.insert_bst_node (rootIdx CAP L) (ios, BstChild.Left)).rights j = CAP :=
      ⟨((hchildA j hjios).1).trans hv0.1,
        ((hchildA j hjios).2).trans hv0.2⟩
    have hvB : ((sc.insert_bst_node (rootIdx CAP L) (ios, BstChild.Left)).insert_bst_node (rootIdx CAP R') (ios, BstChild.Right)).lefts j = CAP ∧ ((sc.insert_bst_node (rootIdx CAP L) (ios, BstChild.Left)).insert_bst_node (rootIdx CAP R') (ios, BstChild.Right)).rights j = CAP :=
      ⟨((hchildB j hjios).1).trans hvA.1,
        ((hchildB j hjios).2).trans hvA.2⟩
    have hvU : (((sc.insert_bst_node (rootIdx CAP L) (ios, BstChild.Left)).insert_bst_node (rootIdx CAP R') (ios, BstChild.Right)).unlink_bst_node_from_parent n).1.lefts j = CAP ∧ (((sc.insert_bst_node (rootIdx CAP L) (ios, BstChild.Left)).insert_bst_node (rootIdx CAP R') (ios, BstChild.Right)).unlink_bst_node_from_parent n).1.rights j = CAP := by
      constructor
      · rcases hLorU j with h | h
        · rw [h]; exact hvB.1
        · exact h
      · rcases hRorU j with h | h
        · rw [h]; exact hvB.2
        · exact h
    by_cases hcx : ctx = []
    · obtain ⟨he1, he2⟩ := hnilD hcx
      rw [he1, he2]
      exact hvU
    · have hjcp : j ≠ ctxParent CAP ctx := by
        intro he
        refine hj (hmemT2 j (Or.inr (Or.inr (Or.inr ?_))))
        rw [he]
        exact ctxok_parent_mem hctx2 hcx
      obtain ⟨he1, he2⟩ := hchildD j hjcp
      rw [he1, he2]
      exact hvU
  refine ⟨?_, ?_, ?_, ?_⟩
  · exact (remove_epilogue _ n _ hTRD hnmT hrtD hvcD).1
  · exact (remove_epilogue _ n _ hTRD hnmT hrtD hvcD).2.1
  · exact (remove_epilogue _ n _ hTRD hnmT hrtD hvcD).2.2
  · rw [set_rb_color_rbColors]
    have hrc0 : ({ (((((sc.insert_bst_node (rootIdx CAP L) (ios, BstChild.Left)).insert_bst_node (rootIdx CAP R') (ios, BstChild.Right)).unlink_bst_node_from_parent n).1.set_rb_color ios c0).insert_bst_node ios (ctxParent CAP ctx, (ctxParent CAP ctx, holeDir ctx).2)) with
  parents := setF (((((sc.insert_bst_node (rootIdx CAP L) (ios, BstChild.Left)).insert_bst_node (rootIdx CAP R') (ios, BstChild.Right)).unlink_bst_node_from_parent n).1.set_rb_color ios c0).insert_bst_node ios (ctxParent CAP ctx, (ctxParent CAP ctx, holeDir ctx).2)).parents n CAP,
  lefts := setF (((((sc.insert_bst_node (rootIdx CAP L) (ios, BstChild.Left)).insert_bst_node (rootIdx CAP R') (ios, BstChild.Right)).unlink_bst_node_from_parent n).1.set_rb_color ios c0).insert_bst_node ios (ctxParent CAP ctx, (ctxParent CAP ctx, holeDir ctx).2)).lefts n CAP,
  rights := setF (((((sc.insert_bst_node (rootIdx CAP L) (ios, BstChild.Left)).insert_bst_node (rootIdx CAP R') (ios, BstChild.Right)).unlink_bst_node_from_parent n).1.set_rb_color ios c0).insert_bst_node ios (ctxParent CAP ctx, (ctxParent CAP ctx, holeDir ctx).2)).rights n CAP } : ConstLru K V CAP).rbColors =
        setF sc.rbColors ios c0 := by
      rw [show ({ (((((sc.insert_bst_node (rootIdx CAP L) (ios, BstChild.Left)).insert_bst_node (rootIdx CAP R') (ios, BstChild.Right)).unlink_bst_node_from_parent n).1.set_rb_color ios c0).insert_bst_node ios (ctxParent CAP ctx, (ctxParent CAP ctx, holeDir ctx).2)) with
  parents := setF (((((sc.insert_bst_node (rootIdx CAP L) (ios, BstChild.Left)).insert_bst_node (rootIdx CAP R') (ios, BstChild.Right)).unlink_bst_node_from_parent n).1.set_rb_color ios c0).insert_bst_node ios (ctxParent CAP ctx, (ctxParent CAP ctx, holeDir ctx).2)).parents n CAP,
  lefts := setF (((((sc.insert_bst_node (rootIdx CAP L) (ios, BstChild.Left)).insert_bst_node (rootIdx CAP R') (ios, BstChild.Right)).unlink_bst_node_from_parent n).1.set_rb_color ios c0).insert_bst_node ios (ctxParent CAP ctx, (ctxParent CAP ctx, holeDir ctx).2)).lefts n CAP,
  rights := setF (((((sc.insert_bst_node (rootIdx CAP L) (ios, BstChild.Left)).insert_bst_node (rootIdx CAP R') (ios, BstChild.Right)).unlink_bst_node_from_parent n).1.set_rb_color ios c0).insert_bst_node ios (ctxParent CAP ctx, (ctxParent CAP ctx, holeDir ctx).2)).rights n CAP } : ConstLru K V CAP).rbColors = (((((sc.insert_bst_node (rootIdx CAP L) (ios, BstChild.Left)).insert_bst_node (rootIdx CAP R') (ios, BstChild.Right)).unlink_bst_node_from_parent n).1.set_rb_color ios c0).insert_bst_node ios (ctxParent CAP ctx, (ctxParent CAP ctx, holeDir ctx).2)).rbColors
        from rfl]
      rw [insert_bst_node_rbColors, set_rb_color_rbColors,
        unlink_bst_fst_rbColors, insert_bst_node_rbColors,
        insert_bst_node_rbColors]
    rw [hrc0]
    by_cases hcx : ctx = []
    · subst hcx
      have hri : rootIdx CAP (plug ([] : Ctx) (Tr.node L ios R')) = ios :=
        rfl
      rw [hri]
      simp only [setF]
      rw [if_neg hiosn]
      simp only [if_true]
      exact hc0 rfl
    · have hrmem2 : rootIdx CAP (plug ctx (Tr.node L ios R')) ∈
          ctxA ctx ++ ctxB ctx := rootIdx_plug_mem CAP ctx _ hcx
      have hrn2 : rootIdx CAP (plug ctx (Tr.node L ios R')) ≠ n :=
        fun he => hnAB (he ▸ hrmem2)
      have hrios2 : rootIdx CAP (plug ctx (Tr.node L ios R')) ≠ ios :=
        fun he => hiosA (he ▸ hrmem2)
      simp only [setF]
      rw [if_neg hrn2, if_neg hrios2]
      rw [rootIdx_plug ctx (Tr.node L ios R') (Tr.node L n R') hcx]
      exact hblack2

set_option maxHeartbeats 12800000 in
set_option maxRecDepth 8000 in
/-- Specification of `remove_rbt_node`: binary-search-tree deletion of
the node at a known position removes exactly that slot from the in-order
sequence, keeps every other slot in order, reports a repair position
inside the new tree (or the sentinel), and keeps the root black except
in the reported root-replacement case. -/
theorem remove_rbt_node_spec (s : ConstLru K V CAP) (ctx : Ctx) (l : Tr)
    (n : Nat) (r : Tr)
    (hrepr : TreeRepr s (plug ctx (Tr.node l n r)) CAP)
    (hnd : (plug ctx (Tr.node l n r)).nodes.Nodup)
    (hroot : s.root = rootIdx CAP (plug ctx (Tr.node l n r)))
    (hvac : ∀ j, j ∉ (plug ctx (Tr.node l n r)).nodes →
      s.lefts j = CAP ∧ s.rights j = CAP)
    (hblack : s.rbColors (rootIdx CAP (plug ctx (Tr.node l n r))) =
      RbColor.Black) :
    ∃ t', TreeRepr (s.remove_rbt_node n).1 t' CAP ∧
      t'.nodes = ctxA ctx ++ (l.nodes ++ r.nodes) ++ ctxB ctx ∧
      (s.remove_rbt_node n).1.root = rootIdx CAP t' ∧
      (∀ j, j ∉ t'.nodes → (s.remove_rbt_node n).1.lefts j = CAP ∧
        (s.remove_rbt_node n).1.rights j = CAP) ∧
      ((s.remove_rbt_node n).2.1.1 = CAP ∨
        (s.remove_rbt_node n).2.1.1 ∈ t'.nodes) ∧
      ((t'.nodes ≠ [] →
          (s.remove_rbt_node n).1.rbColors (rootIdx CAP t') =
            RbColor.Black) ∨
        ((s.remove_rbt_node n).2.1.1 = CAP ∧
          (s.remove_rbt_node n).2.2 = RbColor.Black)) := by
  obtain ⟨hctxd, hsubd⟩ :=
    (treeRepr_plug_iff s ctx (Tr.node l n r)).mp hrepr
  obtain ⟨hnlt, hnpar, hnl, hnr, hlrep, hrrep⟩ := hsubd
  have hnne : n ≠ CAP := by omega
  have hgcn : s.get_rb_color n = s.rbColors n := by
    simp [ConstLru.get_rb_color, hnne]
  have hnsub : n ∈ (Tr.node l n r).nodes := rootIdx_mem_nodes
  have hdisjAB := ctx_sub_disjoint hnd
  have hnAB : n ∉ ctxA ctx ++ ctxB ctx := fun hm => hdisjAB n hm hnsub
  have hcpmem : ctx ≠ [] →
      ctxParent CAP ctx ∈ ctxA ctx ++ ctxB ctx := by
    intro hne
    rcases ctxParent_mem CAP ctx with h | h
    · exfalso
      cases ctx with
      | nil => exact hne rfl
      | cons fr ctx' =>
        rcases fr with ⟨d, P, sib⟩
        have hP : P < CAP := hctxd.1
        simp only [ctxParent] at h
        omega
    · exact h
  have hrmem : ctx ≠ [] → rootIdx CAP (plug ctx (Tr.node l n r)) ∈
      ctxA ctx ++ ctxB ctx := fun hne => rootIdx_plug_mem CAP ctx _ hne
  simp only [ConstLru.remove_rbt_node]
  rw [hnl, hnr, hnpar, hgcn]
  cases l with
  | nil =>
    cases r with
    | nil =>
      -- leaf removal
      rw [if_pos (⟨rfl, rfl⟩ : rootIdx CAP Tr.nil = CAP ∧
        rootIdx CAP Tr.nil = CAP)]
      obtain ⟨hret1, hctxok1, hfl1, hroot1, hpar1, hLor1, hRor1,
        hchild1⟩ := unlink_bst_spec s ctx Tr.nil Tr.nil n hrepr hnd
      rw [hret1, hroot1, hroot]
      by_cases hc : ctx = []
      · subst hc
        have hcnd : n = rootIdx CAP (plug [] (Tr.node Tr.nil n Tr.nil)) :=
          rfl
        rw [if_pos hcnd]
        refine ⟨Tr.nil, trivial, by simp [Tr.nodes, ctxA, ctxB], rfl, ?_,
          Or.inl rfl, Or.inl (fun h => absurd rfl h)⟩
        intro j _
        by_cases hjn : j = n
        · subst hjn
          constructor <;> simp [setF]
        · have hv := hvac j (by
            rw [plug_nodes]
            simp [Tr.nodes, ctxA, ctxB, hjn])
          constructor
          · show setF ((s.unlink_bst_node_from_parent n).1).lefts n
              CAP j = CAP
            rcases hLor1 j with h | h <;> simp [setF, hjn, h, hv.1]
          · show setF ((s.unlink_bst_node_from_parent n).1).rights n
              CAP j = CAP
            rcases hRor1 j with h | h <;> simp [setF, hjn, h, hv.2]
      · have hrne : ¬ (n = rootIdx CAP (plug ctx (Tr.node Tr.nil n
            Tr.nil))) := by
          intro he
          exact hdisjAB _ (hrmem hc) (he ▸ hnsub)
        rw [if_neg hrne]
        have hTR1 : TreeRepr (s.unlink_bst_node_from_parent n).1
            (plug ctx Tr.nil) CAP :=
          (treeRepr_plug_iff _ ctx Tr.nil).mpr ⟨hctxok1, trivial⟩
        have htn : (plug ctx Tr.nil).nodes = ctxA ctx ++ ctxB ctx := by
          rw [plug_nodes]
          simp [Tr.nodes]
        have hnm : n ∉ (plug ctx Tr.nil).nodes := by
          rw [htn]
          exact hnAB
        have hrt : (s.unlink_bst_node_from_parent n).1.root =
            rootIdx CAP (plug ctx Tr.nil) := by
          rw [hroot1, hroot]
          exact rootIdx_plug ctx _ _ hc
        have hvc : ∀ j, j ∉ (plug ctx Tr.nil).nodes → j ≠ n →
            (s.unlink_bst_node_from_parent n).1.lefts j = CAP ∧
            (s.unlink_bst_node_from_parent n).1.rights j = CAP := by
          intro j hj hjn
          have hjold : j ∉ (plug ctx (Tr.node Tr.nil n Tr.nil)).nodes := by
            rw [htn] at hj
            rw [plug_nodes]
            simp only [Tr.nodes, List.mem_append, List.nil_append,
              List.mem_singleton]
            simp only [List.mem_append] at hj
            intro hm
            rcases hm with (hm | hm) | hm
            · exact hj (Or.inl hm)
            · exact hjn hm
            · exact hj (Or.inr hm)
          have hv := hvac j hjold
          constructor
          · rcases hLor1 j with h | h
            · rw [h]; exact hv.1
            · exact h
          · rcases hRor1 j with h | h
            · rw [h]; exact hv.2
            · exact h
        refine ⟨plug ctx Tr.nil, ?_, by rw [htn]; simp [Tr.nodes],
          ?_, ?_, ?_, ?_⟩
        · exact (remove_epilogue _ n _ hTR1 hnm hrt hvc).1
        · exact (remove_epilogue _ n _ hTR1 hnm hrt hvc).2.1
        · exact (remove_epilogue _ n _ hTR1 hnm hrt hvc).2.2
        · refine Or.inr ?_
          show ctxParent CAP ctx ∈ (plug ctx Tr.nil).nodes
          rw [htn]
          exact hcpmem hc
        · refine Or.inl (fun _ => ?_)
          have hrneq : rootIdx CAP (plug ctx Tr.nil) =
              rootIdx CAP (plug ctx (Tr.node Tr.nil n Tr.nil)) :=
            rootIdx_plug ctx _ _ hc
          have hrn2 : rootIdx CAP (plug ctx Tr.nil) ≠ n := by
            rw [hrneq]
            exact fun he => hrne he.symm
          show setF (s.unlink_bst_node_from_parent n).1.rbColors n
            RbColor.Black (rootIdx CAP (plug ctx Tr.nil)) = RbColor.Black
          rw [unlink_bst_fst_rbColors]
          simp only [setF, if_neg hrn2]
          rw [hrneq]
          exact hblack
    | node ra ri rb =>
      have hrilt : ri < CAP := hrrep.1
      rw [if_neg (show ¬ (rootIdx CAP Tr.nil = CAP ∧
        rootIdx CAP (Tr.node ra ri rb) = CAP) from fun h => by
          have := h.2
          simp only [rootIdx] at this
          omega)]
      rw [if_neg (show ¬ (rootIdx CAP Tr.nil ≠ CAP ∧
        rootIdx CAP (Tr.node ra ri rb) ≠ CAP) from fun h => h.1 rfl)]
      have hc3 : ¬ (rootIdx CAP Tr.nil ≠ CAP) := not_not_intro rfl
      rw [if_neg hc3]
      obtain ⟨hret1, hctxok1, hfl1, hroot1, hpar1, hLor1, hRor1,
        hchild1⟩ := unlink_bst_spec s ctx Tr.nil (Tr.node ra ri rb) n
          hrepr hnd
      rw [hret1]
      obtain ⟨_, _, _, _, _, hsubr⟩ := hfl1
      have hsubnodup := nodup_parts hnd
      have hconsnd : (n :: (Tr.node ra ri rb).nodes).Nodup := by
        have h2 : (Tr.nil.nodes ++ n :: (Tr.node ra ri rb).nodes).Nodup :=
          hsubnodup
        simp only [Tr.nodes, List.nil_append] at h2 ⊢
        exact h2
      have hrnd : (Tr.node ra ri rb).nodes.Nodup :=
        (List.nodup_cons.mp hconsnd).2
      have hnnotr : n ∉ (Tr.node ra ri rb).nodes :=
        (List.nodup_cons.mp hconsnd).1
      have hdisjr : ∀ a ∈ ctxA ctx ++ ctxB ctx,
          a ∉ (Tr.node ra ri rb).nodes := by
        intro a ha hm
        refine hdisjAB a ha ?_
        simp only [Tr.nodes, List.mem_append, List.mem_cons,
          List.not_mem_nil, List.nil_append] at hm ⊢
        tauto
      obtain ⟨hctxok2, hsub2, hrn2, hrc2, hpar2, hchild2, hnil2⟩ :=
        insert_bst_spec (s.unlink_bst_node_from_parent n).1 ctx
          (Tr.node ra ri rb) (holeDir ctx) CAP n hctxok1 hsubr hrnd
          (nodup_ctxAB hnd) (fun _ => rfl) hdisjr
      have hTR2 : TreeRepr ((s.unlink_bst_node_from_parent
          n).1.insert_bst_node (rootIdx CAP (Tr.node ra ri rb))
          (ctxParent CAP ctx, holeDir ctx))
          (plug ctx (Tr.node ra ri rb)) CAP :=
        (treeRepr_plug_iff _ ctx _).mpr ⟨hctxok2, hsub2⟩
      have htn : (plug ctx (Tr.node ra ri rb)).nodes =
          ctxA ctx ++ (Tr.node ra ri rb).nodes ++ ctxB ctx :=
        plug_nodes ctx _
      have hnm : n ∉ (plug ctx (Tr.node ra ri rb)).nodes := by
        rw [htn]
        intro hm
        rcases List.mem_append.mp hm with hm | hm
        · rcases List.mem_append.mp hm with hm | hm
          · exact hnAB (List.mem_append.mpr (Or.inl hm))
          · exact hnnotr hm
        · exact hnAB (List.mem_append.mpr (Or.inr hm))
      have hrt : ((s.unlink_bst_node_from_parent n).1.insert_bst_node
          (rootIdx CAP (Tr.node ra ri rb))
          (ctxParent CAP ctx, holeDir ctx)).root =
          rootIdx CAP (plug ctx (Tr.node ra ri rb)) := by
        by_cases hc : ctx = []
        · subst hc
          exact hrn2 rfl
        · rw [hrc2 hc, hroot1, hroot]
          exact rootIdx_plug ctx _ _ hc
      have hvc : ∀ j, j ∉ (plug ctx (Tr.node ra ri rb)).nodes → j ≠ n →
          ((s.unlink_bst_node_from_parent n).1.insert_bst_node
            (rootIdx CAP (Tr.node ra ri rb))
            (ctxParent CAP ctx, holeDir ctx)).lefts j = CAP ∧
          ((s.unlink_bst_node_from_parent n).1.insert_bst_node
            (rootIdx CAP (Tr.node ra ri rb))
            (ctxParent CAP ctx, holeDir ctx)).rights j = CAP := by
        intro j hj hjn
        have hjold : j ∉ (plug ctx (Tr.node Tr.nil n
            (Tr.node ra ri rb))).nodes := by
          rw [htn] at hj
          rw [plug_nodes]
          simp only [Tr.nodes, List.mem_append, List.mem_cons,
            List.not_mem_nil, List.nil_append] at hj ⊢
          tauto
        have hv := hvac j hjold
        have hstep1 : (s.unlink_bst_node_from_parent n).1.lefts j = CAP ∧
            (s.unlink_bst_node_from_parent n).1.rights j = CAP := by
          constructor
          · rcases hLor1 j with h | h
            · rw [h]; exact hv.1
            · exact h
          · rcases hRor1 j with h | h
            · rw [h]; exact hv.2
            · exact h
        by_cases hc : ctx = []
        · obtain ⟨he1, he2⟩ := hnil2 hc
          rw [he1, he2]
          exact hstep1
        · have hjcp : j ≠ ctxParent CAP ctx := by
            intro he
            refine hj ?_
            rw [htn]
            rcases List.mem_append.mp (hcpmem hc) with h | h
            · exact List.mem_append.mpr
                (Or.inl (List.mem_append.mpr (Or.inl (he ▸ h))))
            · exact List.mem_append.mpr (Or.inr (he ▸ h))
          obtain ⟨he1, he2⟩ := hchild2 j hjcp
          rw [he1, he2]
          exact hstep1
      refine ⟨plug ctx (Tr.node ra ri rb), ?_,
        by rw [htn]; simp [Tr.nodes], ?_, ?_, ?_, ?_⟩
      · exact (remove_epilogue _ n _ hTR2 hnm hrt hvc).1
      · exact (remove_epilogue _ n _ hTR2 hnm hrt hvc).2.1
      · exact (remove_epilogue _ n _ hTR2 hnm hrt hvc).2.2
      · by_cases hc : ctx = []
        · subst hc
          exact Or.inl rfl
        · refine Or.inr ?_
          show ctxParent CAP ctx ∈ (plug ctx (Tr.node ra ri rb)).nodes
          rw [htn]
          rcases List.mem_append.mp (hcpmem hc) with h | h
          · exact List.mem_append.mpr
              (Or.inl (List.mem_append.mpr (Or.inl h)))
          · exact List.mem_append.mpr (Or.inr h)
      · by_cases hc : ctx = []
        · refine Or.inr ⟨?_, ?_⟩
          · subst hc
            rfl
          · show s.rbColors n = RbColor.Black
            subst hc
            exact hblack
        · refine Or.inl (fun _ => ?_)
          have hrneq : rootIdx CAP (plug ctx (Tr.node ra ri rb)) =
              rootIdx CAP (plug ctx (Tr.node Tr.nil n
                (Tr.node ra ri rb))) := rootIdx_plug ctx _ _ hc
          have hrn3 : rootIdx CAP (plug ctx (Tr.node ra ri rb)) ≠ n := by
            intro he
            have h1 : rootIdx CAP (plug ctx (Tr.node Tr.nil n
                (Tr.node ra ri rb))) = n := hrneq.symm.trans he
            exact hnAB (h1 ▸ hrmem hc)
          show setF ((s.unlink_bst_node_from_parent
              n).1.insert_bst_node (rootIdx CAP (Tr.node ra ri rb))
              (ctxParent CAP ctx, holeDir ctx)).rbColors n
              RbColor.Black
              (rootIdx CAP (plug ctx (Tr.node ra ri rb))) =
            RbColor.Black
          rw [insert_bst_node_rbColors, unlink_bst_fst_rbColors]
          simp only [setF, if_neg hrn3]
          rw [hrneq]
          exact hblack

  | node la li lb =>
    cases r with
    | nil =>
      have hlilt : li < CAP := hlrep.1
      rw [if_neg (show ¬ (rootIdx CAP (Tr.node la li lb) = CAP ∧
        rootIdx CAP Tr.nil = CAP) from fun h => by
          have := h.1
          simp only [rootIdx] at this
          omega)]
      rw [if_neg (show ¬ (rootIdx CAP (Tr.node la li lb) ≠ CAP ∧
        rootIdx CAP Tr.nil ≠ CAP) from fun h => h.2 rfl)]
      rw [if_pos (show rootIdx CAP (Tr.node la li lb) ≠ CAP by
        simp only [rootIdx]
        omega)]
      obtain ⟨hret1, hctxok1, hfl1, hroot1, hpar1, hLor1, hRor1,
        hchild1⟩ := unlink_bst_spec s ctx (Tr.node la li lb) Tr.nil n
          hrepr hnd
      rw [hret1]
      obtain ⟨_, _, _, _, hsubl, _⟩ := hfl1
      have hsubnodup := nodup_parts hnd
      have hlnd : (Tr.node la li lb).nodes.Nodup := by
        have h2 : ((Tr.node la li lb).nodes ++ n :: Tr.nil.nodes).Nodup :=
          hsubnodup
        rw [List.nodup_append] at h2
        exact h2.1
      have hnnotl : n ∉ (Tr.node la li lb).nodes := by
        have h2 : ((Tr.node la li lb).nodes ++ n :: Tr.nil.nodes).Nodup :=
          hsubnodup
        rw [List.nodup_append] at h2
        exact fun hm => h2.2.2 hm (List.mem_cons_self _ _)
      have hdisjl : ∀ a ∈ ctxA ctx ++ ctxB ctx,
          a ∉ (Tr.node la li lb).nodes := by
        intro a ha hm
        refine hdisjAB a ha ?_
        simp only [Tr.nodes, List.mem_append] at hm ⊢
        tauto
      obtain ⟨hctxok2, hsub2, hrn2, hrc2, hpar2, hchild2, hnil2⟩ :=
        insert_bst_spec (s.unlink_bst_node_from_parent n).1 ctx
          (Tr.node la li lb) (holeDir ctx) CAP n hctxok1 hsubl hlnd
          (nodup_ctxAB hnd) (fun _ => rfl) hdisjl
      have hTR2 : TreeRepr ((s.unlink_bst_node_from_parent
          n).1.insert_bst_node (rootIdx CAP (Tr.node la li lb))
          (ctxParent CAP ctx, holeDir ctx))
          (plug ctx (Tr.node la li lb)) CAP :=
        (treeRepr_plug_iff _ ctx _).mpr ⟨hctxok2, hsub2⟩
      have htn : (plug ctx (Tr.node la li lb)).nodes =
          ctxA ctx ++ (Tr.node la li lb).nodes ++ ctxB ctx :=
        plug_nodes ctx _
      have hnm : n ∉ (plug ctx (Tr.node la li lb)).nodes := by
        rw [htn]
        intro hm
        rcases List.mem_append.mp hm with hm | hm
        · rcases List.mem_append.mp hm with hm | hm
          · exact hnAB (List.mem_append.mpr (Or.inl hm))
          · exact hnnotl hm
        · exact hnAB (List.mem_append.mpr (Or.inr hm))
      have hrt : ((s.unlink_bst_node_from_parent n).1.insert_bst_node
          (rootIdx CAP (Tr.node la li lb))
          (ctxParent CAP ctx, holeDir ctx)).root =
          rootIdx CAP (plug ctx (Tr.node la li lb)) := by
        by_cases hc : ctx = []
        · subst hc
          exact hrn2 rfl
        · rw [hrc2 hc, hroot1, hroot]
          exact rootIdx_plug ctx _ _ hc
      have hvc : ∀ j, j ∉ (plug ctx (Tr.node la li lb)).nodes → j ≠ n →
          ((s.unlink_bst_node_from_parent n).1.insert_bst_node
            (rootIdx CAP (Tr.node la li lb))
            (ctxParent CAP ctx, holeDir ctx)).lefts j = CAP ∧
          ((s.unlink_bst_node_from_parent n).1.insert_bst_node
            (rootIdx CAP (Tr.node la li lb))
            (ctxParent CAP ctx, holeDir ctx)).rights j = CAP := by
        intro j hj hjn
        have hjold : j ∉ (plug ctx (Tr.node (Tr.node la li lb) n
            Tr.nil)).nodes := by
          rw [htn] at hj
          rw [plug_nodes]
          simp only [Tr.nodes, List.mem_append, List.mem_cons,
            List.not_mem_nil] at hj ⊢
          tauto
        have hv := hvac j hjold
        have hstep1 : (s.unlink_bst_node_from_parent n).1.lefts j = CAP ∧
            (s.unlink_bst_node_from_parent n).1.rights j = CAP := by
          constructor
          · rcases hLor1 j with h | h
            · rw [h]; exact hv.1
            · exact h
          · rcases hRor1 j with h | h
            · rw [h]; exact hv.2
            · exact h
        by_cases hc : ctx = []
        · obtain ⟨he1, he2⟩ := hnil2 hc
          rw [he1, he2]
          exact hstep1
        · have hjcp : j ≠ ctxParent CAP ctx := by
            intro he
            refine hj ?_
            rw [htn]
            rcases List.mem_append.mp (hcpmem hc) with h | h
            · exact List.mem_append.mpr
                (Or.inl (List.mem_append.mpr (Or.inl (he ▸ h))))
            · exact List.mem_append.mpr (Or.inr (he ▸ h))
          obtain ⟨he1, he2⟩ := hchild2 j hjcp
          rw [he1, he2]
          exact hstep1
      refine ⟨plug ctx (Tr.node la li lb), ?_,
        by rw [htn]; simp [Tr.nodes], ?_, ?_, ?_, ?_⟩
      · exact (remove_epilogue _ n _ hTR2 hnm hrt hvc).1
      · exact (remove_epilogue _ n _ hTR2 hnm hrt hvc).2.1
      · exact (remove_epilogue _ n _ hTR2 hnm hrt hvc).2.2
      · by_cases hc : ctx = []
        · subst hc
          exact Or.inl rfl
        · refine Or.inr ?_
          show ctxParent CAP ctx ∈ (plug ctx (Tr.node la li lb)).nodes
          rw [htn]
          rcases List.mem_append.mp (hcpmem hc) with h | h
          · exact List.mem_append.mpr
              (Or.inl (List.mem_append.mpr (Or.inl h)))
          · exact List.mem_append.mpr (Or.inr h)
      · by_cases hc : ctx = []
        · refine Or.inr ⟨?_, ?_⟩
          · subst hc
            rfl
          · show s.rbColors n = RbColor.Black
            subst hc
            exact hblack
        · refine Or.inl (fun _ => ?_)
          have hrneq : rootIdx CAP (plug ctx (Tr.node la li lb)) =
              rootIdx CAP (plug ctx (Tr.node (Tr.node la li lb) n
                Tr.nil)) := rootIdx_plug ctx _ _ hc
          have hrn3 : rootIdx CAP (plug ctx (Tr.node la li lb)) ≠ n := by
            intro he
            have h1 : rootIdx CAP (plug ctx (Tr.node (Tr.node la li lb) n
                Tr.nil)) = n := hrneq.symm.trans he
            exact hnAB (h1 ▸ hrmem hc)
          show setF ((s.unlink_bst_node_from_parent
              n).1.insert_bst_node (rootIdx CAP (Tr.node la li lb))
              (ctxParent CAP ctx, holeDir ctx)).rbColors n
              RbColor.Black
              (rootIdx CAP (plug ctx (Tr.node la li lb))) =
            RbColor.Black
          rw [insert_bst_node_rbColors, unlink_bst_fst_rbColors]
          simp only [setF, if_neg hrn3]
          rw [hrneq]
          exact hblack
    | node ra ri rb =>
      have hlilt : li < CAP := hlrep.1
      have hrilt : ri < CAP := hrrep.1
      rw [if_neg (show ¬ (rootIdx CAP (Tr.node la li lb) = CAP ∧
        rootIdx CAP (Tr.node ra ri rb) = CAP) from fun h => by
          have := h.1
          simp only [rootIdx] at this
          omega)]
      rw [if_pos (show rootIdx CAP (Tr.node la li lb) ≠ CAP ∧
        rootIdx CAP (Tr.node ra ri rb) ≠ CAP from
          ⟨by simp only [rootIdx]; omega, by simp only [rootIdx]; omega⟩)]
      have hRnodesNd : (Tr.node ra ri rb).nodes.Nodup := by
        have h2 : ((Tr.node la li lb).nodes ++ n ::
            (Tr.node ra ri rb).nodes).Nodup := nodup_parts hnd
        rw [List.nodup_append] at h2
        exact (List.nodup_cons.mp h2.2.1).2
      have hRlen : (Tr.node ra ri rb).nodes.length < CAP + 1 := by
        have h1 : (Tr.node ra ri rb).nodes.length ≤ CAP :=
          nodes_length_le_cap hRnodesNd (fun j hj => mem_nodes_lt hrrep j hj)
        omega
      obtain ⟨ctxL, rR, hpl, hA⟩ := find_leftmost_go_spec s (CAP + 1)
        (Tr.node ra ri rb) n hrrep (by intro h; cases h) hRlen
      have hiosdef : s.find_in_order_successor_right_subtree n =
          s.find_leftmost_go (CAP + 1) (rootIdx CAP (Tr.node ra ri rb)) := by
        simp only [ConstLru.find_in_order_successor_right_subtree,
          ConstLru.find_leftmost]
        rw [hnr]
      rw [hiosdef]
      set ios := s.find_leftmost_go (CAP + 1)
        (rootIdx CAP (Tr.node ra ri rb)) with hiosd
      have hCTXIne : (ctxL ++ (BstChild.Right, n, Tr.node la li lb) :: ctx) ≠ ([] : Ctx) := by simp
      have hplgX : ∀ X : Tr, plug (ctxL ++ (BstChild.Right, n, Tr.node la li lb) :: ctx) X =
          plug ctx (Tr.node (Tr.node la li lb) n (plug ctxL X)) := by
        intro X
        rw [plug_append]
        rfl
      have hplg : plug (ctxL ++ (BstChild.Right, n, Tr.node la li lb) :: ctx) (Tr.node Tr.nil ios rR) =
          plug ctx (Tr.node (Tr.node la li lb) n (Tr.node ra ri rb)) := by
        rw [hplgX, hpl]
      have hrepr' : TreeRepr s (plug (ctxL ++ (BstChild.Right, n, Tr.node la li lb) :: ctx) (Tr.node Tr.nil ios rR)) CAP := by
        rw [hplg]
        exact hrepr
      have hnd' : (plug (ctxL ++ (BstChild.Right, n, Tr.node la li lb) :: ctx) (Tr.node Tr.nil ios rR)).nodes.Nodup := by
        rw [hplg]
        exact hnd
      obtain ⟨hIosOK, _⟩ := (treeRepr_plug_iff s (ctxL ++ (BstChild.Right, n, Tr.node la li lb) :: ctx)
        (Tr.node Tr.nil ios rR)).mp hrepr'
      have hIosABdisj := ctx_sub_disjoint hnd'
      have hABndIos := nodup_ctxAB hnd'
      have hconsNd : (ios :: rR.nodes).Nodup := nodup_parts hnd'
      have hiosrR : ios ∉ rR.nodes := (List.nodup_cons.mp hconsNd).1
      have hrRnd : rR.nodes.Nodup := (List.nodup_cons.mp hconsNd).2
      have hP1mem : ctxParent CAP (ctxL ++ (BstChild.Right, n, Tr.node la li lb) :: ctx) ∈
          ctxA (ctxL ++ (BstChild.Right, n, Tr.node la li lb) :: ctx) ++ ctxB (ctxL ++ (BstChild.Right, n, Tr.node la li lb) :: ctx) :=
        ctxok_parent_mem hIosOK hCTXIne
      have hiosP1 : ios ≠ ctxParent CAP (ctxL ++ (BstChild.Right, n, Tr.node la li lb) :: ctx) := by
        intro he
        refine hIosABdisj _ hP1mem ?_
        rw [← he]
        exact rootIdx_mem_nodes
      have hR'n : (plug ctxL rR).nodes = rR.nodes ++ ctxB ctxL := by
        rw [plug_nodes, hA]
        rfl
      have hRn : (Tr.node ra ri rb).nodes = ios :: (plug ctxL rR).nodes := by
        rw [← hpl, plug_nodes, plug_nodes, hA]
        simp [Tr.nodes]
      have hmid : (Tr.node (Tr.node la li lb) n (Tr.node ra ri rb)).nodes =
          (Tr.node la li lb).nodes ++ n :: ios :: (plug ctxL rR).nodes := by
        rw [show (Tr.node (Tr.node la li lb) n (Tr.node ra ri rb)).nodes =
          (Tr.node la li lb).nodes ++ n :: (Tr.node ra ri rb).nodes from rfl,
          hRn]
      have holdn : (plug ctx (Tr.node (Tr.node la li lb) n
          (Tr.node ra ri rb))).nodes = ctxA ctx ++ ((Tr.node la li lb).nodes
          ++ n :: ios :: (plug ctxL rR).nodes) ++ ctxB ctx := by
        rw [plug_nodes, hmid]
      have hnewn : (plug ctx (Tr.node (Tr.node la li lb) n
          (plug ctxL rR))).nodes = ctxA ctx ++ ((Tr.node la li lb).nodes
          ++ n :: (plug ctxL rR).nodes) ++ ctxB ctx := plug_nodes ctx _
      have hndL2 : (ctxA ctx ++ ((Tr.node la li lb).nodes ++ n :: ios ::
          (plug ctxL rR).nodes) ++ ctxB ctx).Nodup := by
        rw [← holdn]
        exact hnd
      have hnd2C : (plug ctx (Tr.node (Tr.node la li lb) n
          (plug ctxL rR))).nodes.Nodup := by
        rw [hnewn]
        exact hndL2.sublist (excise_sublist _ _ _ _ n ios)
      have hiosnmC : ios ∉ (plug ctx (Tr.node (Tr.node la li lb) n
          (plug ctxL rR))).nodes := by
        rw [hnewn]
        exact nodup_excise_not_mem hndL2
      have hrteq : rootIdx CAP (plug ctx (Tr.node (Tr.node la li lb) n
          (Tr.node ra ri rb))) = rootIdx CAP (plug ctx (Tr.node
          (Tr.node la li lb) n (plug ctxL rR))) := by
        by_cases hcx : ctx = []
        · subst hcx
          rfl
        · exact rootIdx_plug ctx _ _ hcx
      have hroot2C : s.root = rootIdx CAP (plug ctx (Tr.node
          (Tr.node la li lb) n (plug ctxL rR))) := by
        rw [hroot, hrteq]
      have hblackR' : s.rbColors (rootIdx CAP (plug ctx (Tr.node
          (Tr.node la li lb) n (plug ctxL rR)))) = RbColor.Black := by
        rw [← hrteq]
        exact hblack
      have hc0C : ctx = [] → s.rbColors n = RbColor.Black := by
        intro hcx
        subst hcx
        exact hblack
      have hvjold : ∀ j, j ∉ (plug ctx (Tr.node (Tr.node la li lb) n
          (plug ctxL rR))).nodes → j ≠ ios →
          j ∉ (plug ctx (Tr.node (Tr.node la li lb) n
            (Tr.node ra ri rb))).nodes := by
        intro j hj hjios
        rw [holdn]
        rw [hnewn] at hj
        simp only [List.mem_append, List.mem_cons] at hj ⊢
        tauto
      have hABsubold : ∀ a, a ∈ ctxA (ctxL ++ (BstChild.Right, n, Tr.node la li lb) :: ctx) ++ ctxB (ctxL ++ (BstChild.Right, n, Tr.node la li lb) :: ctx) →
          a ∈ (plug ctx (Tr.node (Tr.node la li lb) n
            (Tr.node ra ri rb))).nodes := by
        intro a ha
        rw [← hplg, plug_nodes]
        rcases List.mem_append.mp ha with h | h
        · exact List.mem_append.mpr (Or.inl (List.mem_append.mpr (Or.inl h)))
        · exact List.mem_append.mpr (Or.inr h)
      obtain ⟨hret1, hctxok1, hfl1, hroot1, hpar1, hLor1, hRor1, hchild1⟩ :=
        unlink_bst_spec s (ctxL ++ (BstChild.Right, n, Tr.node la li lb) :: ctx) Tr.nil rR ios hrepr' hnd'
      rw [hret1]
      have hioslt2 : ios < CAP := hfl1.1
      have hparios : (s.unlink_bst_node_from_parent ios).1.parents ios = CAP := hfl1.2.1
      have hlios : (s.unlink_bst_node_from_parent ios).1.lefts ios = rootIdx CAP Tr.nil := hfl1.2.2.1
      have hrios : (s.unlink_bst_node_from_parent ios).1.rights ios = rootIdx CAP rR := hfl1.2.2.2.1
      have hrRs1 : TreeRepr (s.unlink_bst_node_from_parent ios).1 rR ios := hfl1.2.2.2.2.2
      rw [hrios]
      cases rR with
      | nil =>
        have hc3 : ¬ (rootIdx CAP Tr.nil ≠ CAP) := not_not_intro rfl
        rw [if_neg hc3]
        have hrepr2 : TreeRepr (s.unlink_bst_node_from_parent ios).1 (plug ctx (Tr.node (Tr.node la li lb) n
            (plug ctxL Tr.nil))) CAP := by
          have h1 : TreeRepr (s.unlink_bst_node_from_parent ios).1 (plug (ctxL ++ (BstChild.Right, n, Tr.node la li lb) :: ctx) Tr.nil) CAP :=
            (treeRepr_plug_iff _ _ _).mpr ⟨hctxok1, trivial⟩
          rw [hplgX] at h1
          exact h1
        have hroot2' : (s.unlink_bst_node_from_parent ios).1.root = rootIdx CAP (plug ctx (Tr.node
            (Tr.node la li lb) n (plug ctxL Tr.nil))) := by
          rw [hroot1]
          exact hroot2C
        have hvac2' : ∀ j, j ∉ (plug ctx (Tr.node (Tr.node la li lb) n
            (plug ctxL Tr.nil))).nodes → j ≠ ios →
            (s.unlink_bst_node_from_parent ios).1.lefts j = CAP ∧ (s.unlink_bst_node_from_parent ios).1.rights j = CAP := by
          intro j hj hjios
          have hv := hvac j (hvjold j hj hjios)
          constructor
          · rcases hLor1 j with h | h
            · rw [h]
              exact hv.1
            · exact h
          · rcases hRor1 j with h | h
            · rw [h]
              exact hv.2
            · exact h
        have hblack2' : (s.unlink_bst_node_from_parent ios).1.rbColors (rootIdx CAP (plug ctx (Tr.node
            (Tr.node la li lb) n (plug ctxL Tr.nil)))) = RbColor.Black := by
          rw [unlink_bst_fst_rbColors]
          exact hblackR'
        have HH := remove_two_child_finish (s.unlink_bst_node_from_parent ios).1 ctx (Tr.node la li lb)
          (plug ctxL Tr.nil) n ios (s.rbColors n) hrepr2 hnd2C hroot2'
          hvac2' hparios hlios hrios hioslt2 hiosnmC hblack2' hc0C
        refine ⟨plug ctx (Tr.node (Tr.node la li lb) ios
          (plug ctxL Tr.nil)), HH.1, ?_, HH.2.1, HH.2.2.1, ?_,
          Or.inl (fun _ => HH.2.2.2)⟩
        · rw [plug_nodes, hRn]
          simp [Tr.nodes]
        · by_cases hcl : ctxL = []
          · subst hcl
            have hcnd : ((ctxParent CAP (([] : Ctx) ++ (BstChild.Right, n,
                Tr.node la li lb) :: ctx), holeDir (([] : Ctx) ++
                (BstChild.Right, n, Tr.node la li lb) :: ctx))).1 = n := rfl
            rw [if_pos hcnd]
            refine Or.inr ?_
            show ios ∈ (plug ctx (Tr.node (Tr.node la li lb) ios
              (plug ([] : Ctx) Tr.nil))).nodes
            rw [plug_nodes]
            refine List.mem_append.mpr (Or.inl (List.mem_append.mpr
              (Or.inr ?_)))
            show ios ∈ (Tr.node la li lb).nodes ++ ios ::
              (plug ([] : Ctx) Tr.nil).nodes
            exact List.mem_append.mpr (Or.inr (List.mem_cons_self _ _))
          · cases ctxL with
            | nil => exact absurd rfl hcl
            | cons fr ctxL2 =>
              rcases fr with ⟨d1, p1, sib1⟩
              have hp1lt : p1 < CAP := hIosOK.1
              have hp1AB : p1 ∈ ctxA ((d1, p1, sib1) :: ctxL2) ++
                  ctxB ((d1, p1, sib1) :: ctxL2) :=
                (mem_ctxAB_cons d1 p1 sib1 ctxL2 p1).mpr (Or.inl rfl)
              have hp1R2 : p1 ∈ (plug ((d1, p1, sib1) :: ctxL2) Tr.nil).nodes := by
                rw [plug_nodes]
                rcases List.mem_append.mp hp1AB with h | h
                · exact List.mem_append.mpr (Or.inl
                    (List.mem_append.mpr (Or.inl h)))
                · exact List.mem_append.mpr (Or.inr h)
              have hnR2m : n ∉ (plug ((d1, p1, sib1) :: ctxL2) Tr.nil).nodes := by
                have h2 : ((Tr.node la li lb).nodes ++ n ::
                    (plug ((d1, p1, sib1) :: ctxL2) Tr.nil).nodes).Nodup :=
                  nodup_parts hnd2C
                rw [List.nodup_append] at h2
                exact (List.nodup_cons.mp h2.2.1).1
              have hP1n : ¬ (((ctxParent CAP (((d1, p1, sib1) :: ctxL2) ++
                  (BstChild.Right, n, Tr.node la li lb) :: ctx),
                  holeDir (((d1, p1, sib1) :: ctxL2) ++ (BstChild.Right, n,
                  Tr.node la li lb) :: ctx))).1 = n) := by
                intro he
                have he2 : p1 = n := he
                exact hnR2m (he2 ▸ hp1R2)
              rw [if_neg hP1n]
              refine Or.inr ?_
              show ctxParent CAP (((d1, p1, sib1) :: ctxL2) ++
                (BstChild.Right, n, Tr.node la li lb) :: ctx) ∈
                (plug ctx (Tr.node (Tr.node la li lb) ios
                  (plug ((d1, p1, sib1) :: ctxL2) Tr.nil))).nodes
              have hcp2 : ctxParent CAP (((d1, p1, sib1) :: ctxL2) ++
                  (BstChild.Right, n, Tr.node la li lb) :: ctx) = p1 := rfl
              rw [hcp2, plug_nodes]
              refine List.mem_append.mpr (Or.inl (List.mem_append.mpr
                (Or.inr ?_)))
              show p1 ∈ (Tr.node la li lb).nodes ++ ios ::
                (plug ((d1, p1, sib1) :: ctxL2) Tr.nil).nodes
              exact List.mem_append.mpr (Or.inr
                (List.mem_cons_of_mem _ hp1R2))
      | node x y z =>
        have hylt : y < CAP := hrRs1.1
        rw [if_pos (show rootIdx CAP (Tr.node x y z) ≠ CAP by
          simp only [rootIdx]
          omega)]
        obtain ⟨hret2, hctxok2a, hfl2, hroot2a, hpar2a, hLor2a, hRor2a,
          hchild2a⟩ := unlink_bst_spec (s.unlink_bst_node_from_parent ios).1
            [(BstChild.Right, ios, Tr.nil)] x z y hfl1 hconsNd
        obtain ⟨_, _, hdir2a, _, _⟩ := hctxok2a
        have hiosy : ios ≠ y := fun he => hiosrR (by
          rw [he]
          exact rootIdx_mem_nodes)
        have hctxIos2 : CtxOK ((s.unlink_bst_node_from_parent ios).1.unlink_bst_node_from_parent y).1
            (ctxL ++ (BstChild.Right, n, Tr.node la li lb) :: ctx) CAP := by
          refine CtxOK_congr (fun j hj => ?_) hctxok1
          have hjios : j ≠ ios := fun he => hIosABdisj j hj (by
            rw [he]
            exact rootIdx_mem_nodes)
          have hjy : j ≠ y := fun he => hIosABdisj j hj (by
            rw [he]
            show y ∈ Tr.nil.nodes ++ ios :: (Tr.node x y z).nodes
            exact List.mem_append.mpr (Or.inr (List.mem_cons_of_mem _
              rootIdx_mem_nodes)))
          exact ⟨hpar2a j hjy, (hchild2a j hjios).1, (hchild2a j hjios).2⟩
        obtain ⟨hctxok2b, hsub2b, _, hrc2b, hpar2b, hchild2b, _⟩ :=
          insert_bst_spec ((s.unlink_bst_node_from_parent ios).1.unlink_bst_node_from_parent y).1
            (ctxL ++ (BstChild.Right, n, Tr.node la li lb) :: ctx) (Tr.node x y z) (holeDir (ctxL ++ (BstChild.Right, n, Tr.node la li lb) :: ctx)) CAP CAP
            hctxIos2 hfl2 hrRnd hABndIos (fun _ => rfl)
            (by
              intro a ha hm
              exact hIosABdisj a ha (List.mem_cons_of_mem ios hm))
        have hrepr2 : TreeRepr
            ((((s.unlink_bst_node_from_parent ios).1.unlink_bst_node_from_parent y).1).insert_bst_node
              (rootIdx CAP (Tr.node x y z))
              (ctxParent CAP (ctxL ++ (BstChild.Right, n, Tr.node la li lb) :: ctx), holeDir (ctxL ++ (BstChild.Right, n, Tr.node la li lb) :: ctx)))
            (plug ctx (Tr.node (Tr.node la li lb) n
              (plug ctxL (Tr.node x y z)))) CAP := by
          have h1 := (treeRepr_plug_iff _ (ctxL ++ (BstChild.Right, n, Tr.node la li lb) :: ctx) (Tr.node x y z)).mpr
            ⟨hctxok2b, hsub2b⟩
          rw [hplgX] at h1
          exact h1
        have hbareP2 : ((((s.unlink_bst_node_from_parent ios).1.unlink_bst_node_from_parent
            y).1).insert_bst_node (rootIdx CAP (Tr.node x y z))
            (ctxParent CAP (ctxL ++ (BstChild.Right, n, Tr.node la li lb) :: ctx), holeDir (ctxL ++ (BstChild.Right, n, Tr.node la li lb) :: ctx))).parents ios = CAP := by
          rw [hpar2b ios hiosy, hpar2a ios hiosy, hparios]
        have hbareL2 : ((((s.unlink_bst_node_from_parent ios).1.unlink_bst_node_from_parent
            y).1).insert_bst_node (rootIdx CAP (Tr.node x y z))
            (ctxParent CAP (ctxL ++ (BstChild.Right, n, Tr.node la li lb) :: ctx), holeDir (ctxL ++ (BstChild.Right, n, Tr.node la li lb) :: ctx))).lefts ios = CAP := by
          rw [(hchild2b ios hiosP1).1]
          exact hdir2a.2
        have hbareR2 : ((((s.unlink_bst_node_from_parent ios).1.unlink_bst_node_from_parent
            y).1).insert_bst_node (rootIdx CAP (Tr.node x y z))
            (ctxParent CAP (ctxL ++ (BstChild.Right, n, Tr.node la li lb) :: ctx), holeDir (ctxL ++ (BstChild.Right, n, Tr.node la li lb) :: ctx))).rights ios = CAP := by
          rw [(hchild2b ios hiosP1).2]
          exact hdir2a.1
        have hroot2'' : ((((s.unlink_bst_node_from_parent ios).1.unlink_bst_node_from_parent
            y).1).insert_bst_node (rootIdx CAP (Tr.node x y z))
            (ctxParent CAP (ctxL ++ (BstChild.Right, n, Tr.node la li lb) :: ctx), holeDir (ctxL ++ (BstChild.Right, n, Tr.node la li lb) :: ctx))).root =
            rootIdx CAP (plug ctx (Tr.node (Tr.node la li lb) n
              (plug ctxL (Tr.node x y z)))) := by
          rw [hrc2b hCTXIne, hroot2a, hroot1]
          exact hroot2C
        have hblack2'' : ((((s.unlink_bst_node_from_parent ios).1.unlink_bst_node_from_parent
            y).1).insert_bst_node (rootIdx CAP (Tr.node x y z))
            (ctxParent CAP (ctxL ++ (BstChild.Right, n, Tr.node la li lb) :: ctx), holeDir (ctxL ++ (BstChild.Right, n, Tr.node la li lb) :: ctx))).rbColors
            (rootIdx CAP (plug ctx (Tr.node (Tr.node la li lb) n
              (plug ctxL (Tr.node x y z))))) = RbColor.Black := by
          rw [insert_bst_node_rbColors, unlink_bst_fst_rbColors,
            unlink_bst_fst_rbColors]
          exact hblackR'
        have hvac2'' : ∀ j, j ∉ (plug ctx (Tr.node (Tr.node la li lb) n
            (plug ctxL (Tr.node x y z)))).nodes → j ≠ ios →
            ((((s.unlink_bst_node_from_parent ios).1.unlink_bst_node_from_parent y).1).insert_bst_node
              (rootIdx CAP (Tr.node x y z))
              (ctxParent CAP (ctxL ++ (BstChild.Right, n, Tr.node la li lb) :: ctx), holeDir (ctxL ++ (BstChild.Right, n, Tr.node la li lb) :: ctx))).lefts j = CAP ∧
            ((((s.unlink_bst_node_from_parent ios).1.unlink_bst_node_from_parent y).1).insert_bst_node
              (rootIdx CAP (Tr.node x y z))
              (ctxParent CAP (ctxL ++ (BstChild.Right, n, Tr.node la li lb) :: ctx), holeDir (ctxL ++ (BstChild.Right, n, Tr.node la li lb) :: ctx))).rights j = CAP := by
          intro j hj hjios
          have hvj := hvac j (hvjold j hj hjios)
          have h1 : (s.unlink_bst_node_from_parent ios).1.lefts j = CAP ∧ (s.unlink_bst_node_from_parent ios).1.rights j = CAP := by
            constructor
            · rcases hLor1 j with h | h
              · rw [h]
                exact hvj.1
              · exact h
            · rcases hRor1 j with h | h
              · rw [h]
                exact hvj.2
              · exact h
          have h2 : ((s.unlink_bst_node_from_parent ios).1.unlink_bst_node_from_parent y).1.lefts j = CAP ∧
              ((s.unlink_bst_node_from_parent ios).1.unlink_bst_node_from_parent y).1.rights j = CAP := by
            constructor
            · rcases hLor2a j with h | h
              · rw [h]
                exact h1.1
              · exact h
            · rcases hRor2a j with h | h
              · rw [h]
                exact h1.2
              · exact h
          have hjP1 : j ≠ ctxParent CAP (ctxL ++ (BstChild.Right, n, Tr.node la li lb) :: ctx) := fun he =>
            (hvjold j hj hjios) (by rw [he]; exact hABsubold _ hP1mem)
          exact ⟨by rw [(hchild2b j hjP1).1]; exact h2.1,
            by rw [(hchild2b j hjP1).2]; exact h2.2⟩
        have HH := remove_two_child_finish
          ((((s.unlink_bst_node_from_parent ios).1.unlink_bst_node_from_parent y).1).insert_bst_node
            (rootIdx CAP (Tr.node x y z))
            (ctxParent CAP (ctxL ++ (BstChild.Right, n, Tr.node la li lb) :: ctx), holeDir (ctxL ++ (BstChild.Right, n, Tr.node la li lb) :: ctx)))
          ctx (Tr.node la li lb) (plug ctxL (Tr.node x y z)) n ios
          (s.rbColors n) hrepr2 hnd2C hroot2'' hvac2'' hbareP2 hbareL2
          hbareR2 hioslt2 hiosnmC hblack2'' hc0C
        refine ⟨plug ctx (Tr.node (Tr.node la li lb) ios
          (plug ctxL (Tr.node x y z))), HH.1, ?_, HH.2.1, HH.2.2.1, ?_,
          Or.inl (fun _ => HH.2.2.2)⟩
        · rw [plug_nodes, hRn]
          simp [Tr.nodes]
        · by_cases hcl : ctxL = []
          · subst hcl
            have hcnd : ((ctxParent CAP (([] : Ctx) ++ (BstChild.Right, n,
                Tr.node la li lb) :: ctx), holeDir (([] : Ctx) ++
                (BstChild.Right, n, Tr.node la li lb) :: ctx))).1 = n := rfl
            rw [if_pos hcnd]
            refine Or.inr ?_
            show ios ∈ (plug ctx (Tr.node (Tr.node la li lb) ios
              (plug ([] : Ctx) (Tr.node x y z)))).nodes
            rw [plug_nodes]
            refine List.mem_append.mpr (Or.inl (List.mem_append.mpr
              (Or.inr ?_)))
            show ios ∈ (Tr.node la li lb).nodes ++ ios ::
              (plug ([] : Ctx) (Tr.node x y z)).nodes
            exact List.mem_append.mpr (Or.inr (List.mem_cons_self _ _))
          · cases ctxL with
            | nil => exact absurd rfl hcl
            | cons fr ctxL2 =>
              rcases fr with ⟨d1, p1, sib1⟩
              have hp1lt : p1 < CAP := hIosOK.1
              have hp1AB : p1 ∈ ctxA ((d1, p1, sib1) :: ctxL2) ++
                  ctxB ((d1, p1, sib1) :: ctxL2) :=
                (mem_ctxAB_cons d1 p1 sib1 ctxL2 p1).mpr (Or.inl rfl)
              have hp1R2 : p1 ∈ (plug ((d1, p1, sib1) :: ctxL2) (Tr.node x y z)).nodes := by
                rw [plug_nodes]
                rcases List.mem_append.mp hp1AB with h | h
                · exact List.mem_append.mpr (Or.inl
                    (List.mem_append.mpr (Or.inl h)))
                · exact List.mem_append.mpr (Or.inr h)
              have hnR2m : n ∉ (plug ((d1, p1, sib1) :: ctxL2) (Tr.node x y z)).nodes := by
                have h2 : ((Tr.node la li lb).nodes ++ n ::
                    (plug ((d1, p1, sib1) :: ctxL2) (Tr.node x y z)).nodes).Nodup :=
                  nodup_parts hnd2C
                rw [List.nodup_append] at h2
                exact (List.nodup_cons.mp h2.2.1).1
              have hP1n : ¬ (((ctxParent CAP (((d1, p1, sib1) :: ctxL2) ++
                  (BstChild.Right, n, Tr.node la li lb) :: ctx),
                  holeDir (((d1, p1, sib1) :: ctxL2) ++ (BstChild.Right, n,
                  Tr.node la li lb) :: ctx))).1 = n) := by
                intro he
                have he2 : p1 = n := he
                exact hnR2m (he2 ▸ hp1R2)
              rw [if_neg hP1n]
              refine Or.inr ?_
              show ctxParent CAP (((d1, p1, sib1) :: ctxL2) ++
                (BstChild.Right, n, Tr.node la li lb) :: ctx) ∈
                (plug ctx (Tr.node (Tr.node la li lb) ios
                  (plug ((d1, p1, sib1) :: ctxL2) (Tr.node x y z)))).nodes
              have hcp2 : ctxParent CAP (((d1, p1, sib1) :: ctxL2) ++
                  (BstChild.Right, n, Tr.node la li lb) :: ctx) = p1 := rfl
              rw [hcp2, plug_nodes]
              refine List.mem_append.mpr (Or.inl (List.mem_append.mpr
                (Or.inr ?_)))
              show p1 ∈ (Tr.node la li lb).nodes ++ ios ::
                (plug ((d1, p1, sib1) :: ctxL2) (Tr.node x y z)).nodes
              exact List.mem_append.mpr (Or.inr
                (List.mem_cons_of_mem _ hp1R2))

end ConstLruRb
